import Mathlib

/-!
massive-com/client-go: the WebSocket streaming client.

A shallow embedding of `websocket/polygon.go` (package `polygonws`).

* Go byte slices (`[]byte`, `json.RawMessage`) are modelled as `String`.
* Go `error` values are modelled by their message text; `nil` is `none`.
* A `*Client` is modelled by the value of the struct it points to, passed in
  and handed back by every operation that may mutate it.
* Everything a call does to the outside world (channel sends, dialling,
  goroutine starts, cancellation, transport operations, log calls) is
  recorded, oldest first, in a list of `Effect`s returned with the result.
* What the outside world answers (dial result, transport errors, which ready
  case a `select` takes, what other goroutines enqueued meanwhile) is an
  explicit argument of the operation.
-/

namespace Polygonws

/-! ## Data model -/

/-- Raw frame travelling on a queue or on the transport (Go `[]byte`). -/
abbrev Frame := String

/-- One undecoded element of an inbound batch (Go `json.RawMessage`). -/
abbrev RawMessage := String

/-- Go `error` value, identified by its message. -/
abbrev Error := String

/-- Logging sink of the client (interface `Logger`); `nop` is `&nopLogger{}`. -/
inductive Logger where
  | nop
  | custom (id : Nat)
deriving DecidableEq, Repr

/-- Modelled from the spec: the `Config` struct is declared outside
`polygon.go`; `New` reads the four fields below (credential, feed and market
selectors, optional logging sink). -/
structure Config where
  APIKey : String
  Feed : String
  Market : String
  Log : Option Logger
deriving DecidableEq, Repr

/-- Live transport (`*websocket.Conn`), identified by a handle. -/
structure Conn where
  id : Nat
deriving DecidableEq, Repr

/-- Modelled from the spec: `models.ControlMessage` is declared outside
`polygon.go`. Outbound it carries `action` and `params`, inbound the `ev`
discriminant, `status` and `message`. -/
structure ControlMessage where
  EventType : String := ""
  Status : String := ""
  Message : String := ""
  Action : String := ""
  Params : String := ""
deriving DecidableEq, Repr

/-- The struct `Client`. `ctxDone` stands for the pair `ctx`/`cancel`: it is
`true` once `cancel` has been called, i.e. once `ctx.Done()` is closed.
`rQueue` and `wQueue` hold the buffered contents of the two channels, oldest
frame first. -/
structure Client where
  apiKey : String
  feed : String
  market : String
  ctxDone : Bool
  conn : Option Conn
  rQueue : List Frame
  wQueue : List Frame
  log : Logger
deriving DecidableEq, Repr

/-- Capacity of `rQueue`: `make(chan []byte, 10000)`. -/
def rQueueCap : Nat := 10000

/-- Capacity of `wQueue`: `make(chan []byte, 100)`. -/
def wQueueCap : Nat := 100

inductive Level where
  | debug
  | info
  | error
deriving DecidableEq, Repr

inductive ControlKind where
  | close
  | ping
deriving DecidableEq, Repr

inductive Loop where
  | read
  | write
  | process
deriving DecidableEq, Repr

/-- The calls the code makes on the outside world, in the order it makes
them. An effect records that the call was made, whatever the callee then
does with it. -/
inductive Effect where
  /-- `c.wQueue <- b` -/
  | enqueue (b : Frame)
  /-- `websocket.DefaultDialer.Dial(url, nil)` -/
  | dial (url : String)
  /-- `conn.SetReadLimit(maxMessageSize)` -/
  | setReadLimit
  /-- `conn.SetReadDeadline(time.Now().Add(pongWait))` -/
  | setReadDeadline
  /-- `conn.SetPongHandler(...)` -/
  | setPongHandler
  /-- `go c.read()`, `go c.write()`, `go c.process()` -/
  | spawn (l : Loop)
  /-- `c.cancel()` -/
  | cancel
  /-- `c.conn.WriteControl(kind, ...)` -/
  | writeControl (k : ControlKind)
  /-- `c.conn.SetWriteDeadline(...)` -/
  | setWriteDeadline
  /-- `c.conn.WriteMessage(websocket.TextMessage, msg)` -/
  | writeMessage (msg : Frame)
  /-- `c.conn.ReadMessage()` -/
  | readMessage
  /-- `c.rQueue <- msg` -/
  | push (msg : Frame)
  /-- `ticker.Stop()` -/
  | tickerStop
  /-- `c.conn.Close()` -/
  | connClose
  /-- `c.log.Debugf`, `c.log.Infof`, `c.log.Errorf` with the formatted text -/
  | log (lvl : Level) (text : String)
deriving DecidableEq, Repr

/-- Cancellation or a write on the transport: the lifecycle actions. -/
def Effect.isLifecycle : Effect → Bool
  | .cancel => true
  | .writeControl _ => true
  | .writeMessage _ => true
  | .setWriteDeadline => true
  | .connClose => true
  | _ => false

/-- A send on a buffered channel of capacity `cap` whose buffer holds `buf`:
the new buffer, or `none` when the buffer is full and the sender blocks. -/
def chanSend (cap : Nat) (buf : List Frame) (b : Frame) : Option (List Frame) :=
  if buf.length < cap then some (buf ++ [b]) else none

/-! ## JSON encoding of the outbound control message -/

/-- Lower-case hexadecimal digit of `n < 16`. -/
def hexDigit (n : Nat) : Char :=
  if n < 10 then Char.ofNat (48 + n) else Char.ofNat (87 + n)

/-- How `encoding/json` writes one character of a string value (`Marshal`
escapes HTML characters). -/
def jsonEscapeChar (c : Char) : List Char :=
  let n := c.toNat
  if n = 34 then [Char.ofNat 92, Char.ofNat 34]
  else if n = 92 then [Char.ofNat 92, Char.ofNat 92]
  else if n = 8 then [Char.ofNat 92, 'b']
  else if n = 12 then [Char.ofNat 92, 'f']
  else if n = 10 then [Char.ofNat 92, 'n']
  else if n = 13 then [Char.ofNat 92, 'r']
  else if n = 9 then [Char.ofNat 92, 't']
  else if n < 32 ∨ n = 60 ∨ n = 62 ∨ n = 38 then
    [Char.ofNat 92, 'u', '0', '0', hexDigit (n / 16), hexDigit (n % 16)]
  else if n = 8232 then [Char.ofNat 92, 'u', '2', '0', '2', '8']
  else if n = 8233 then [Char.ofNat 92, 'u', '2', '0', '2', '9']
  else [c]

/-- JSON string literal for `s`, quotes included. -/
def jsonQuote (s : String) : String :=
  String.mk ([Char.ofNat 34] ++ s.data.flatMap jsonEscapeChar ++ [Char.ofNat 34])

/-- One `"name":"value"` member, left out when the value is empty. -/
def jsonField (name value : String) : List String :=
  if value = "" then [] else [jsonQuote name ++ ":" ++ jsonQuote value]

/-- Modelled from the spec: the JSON encoding of `models.ControlMessage`
(`json.Marshal`), whose struct tags are declared outside `polygon.go`. The
authentication message is written `{"action":"auth","params":"<api-key>"}`:
members in declaration order, empty ones left out. Encoding a struct of
strings never fails. -/
def jsonMarshal (cm : ControlMessage) : Except Error Frame :=
  .ok ("\x7b" ++ ",".intercalate
    (jsonField "ev" cm.EventType ++ jsonField "status" cm.Status ++
      jsonField "message" cm.Message ++ jsonField "action" cm.Action ++
      jsonField "params" cm.Params) ++ "\x7d")

/-- Value of a hexadecimal digit. -/
def hexVal (c : Char) : Option Nat :=
  let n := c.toNat
  if 48 ≤ n ∧ n ≤ 57 then some (n - 48)
  else if 97 ≤ n ∧ n ≤ 102 then some (n - 87)
  else none

/-- The character a two-character JSON escape stands for. -/
def jsonShortEscape (x : Char) : Option Char :=
  let n := x.toNat
  if n = 34 then some (Char.ofNat 34)
  else if n = 92 then some (Char.ofNat 92)
  else if x = 'b' then some (Char.ofNat 8)
  else if x = 'f' then some (Char.ofNat 12)
  else if x = 'n' then some (Char.ofNat 10)
  else if x = 'r' then some (Char.ofNat 13)
  else if x = 't' then some (Char.ofNat 9)
  else none

/-- Reading back the inside of a JSON string literal, as a JSON decoder
does; used to show that the authentication frame determines the key. -/
def jsonUnescape : List Char → Option (List Char)
  | [] => some []
  | c :: rest =>
    if c.toNat = 92 then
      match rest with
      | [] => none
      | x :: rest1 =>
        if x = 'u' then
          match rest1 with
          | a :: b :: d :: e :: rest2 =>
            match hexVal a, hexVal b, hexVal d, hexVal e with
            | some va, some vb, some vd, some ve =>
              (jsonUnescape rest2).map (Char.ofNat (((va * 16 + vb) * 16 + vd) * 16 + ve) :: ·)
            | _, _, _, _ => none
          | _ => none
        else
          match jsonShortEscape x with
          | some ch => (jsonUnescape rest1).map (ch :: ·)
          | none => none
    else if c.toNat = 34 then none
    else (jsonUnescape rest).map (c :: ·)

/-! ## Lifecycle: `New`, `authenticate`, `Connect`, `Close` -/

/-- What a call on a `Client` hands back: its Go return value, the client
as the call left it, and what the call did. -/
structure Ret (α : Type) where
  val : α
  client : Client
  effects : List Effect
deriving DecidableEq, Repr

/-- `func (c *Client) authenticate() error`. The result is `none` when the
channel send would block (full buffer). -/
def authenticate (c : Client) : Option (Ret (Option Error)) :=
  match jsonMarshal { Action := "auth", Params := c.apiKey } with
  | .error err => some ⟨some ("failed to marshal auth message: " ++ err), c, []⟩
  | .ok b =>
    match chanSend wQueueCap c.wQueue b with
    | none => none
    | some q => some ⟨none, { c with wQueue := q }, [.enqueue b]⟩

/-- Return values of `New` together with what the call did. -/
structure NewResult where
  client : Option Client
  err : Option Error
  effects : List Effect
deriving DecidableEq, Repr

/-- `func New(config Config) (*Client, error)`. The result is `none` when the
call would never return. -/
def New (config : Config) : Option NewResult :=
  if config.APIKey = "" then
    some ⟨none, some "API key is required", []⟩
  else
    let log := match config.Log with
      | none => Logger.nop
      | some l => l
    let c : Client :=
      { apiKey := config.APIKey
        feed := config.Feed
        market := config.Market
        ctxDone := false
        conn := none
        rQueue := []
        wQueue := []
        log := log }
    match authenticate c with
    | none => none
    | some r =>
      match r.val with
      | some err => some ⟨none, some err, r.effects⟩
      | none => some ⟨some r.client, none, r.effects⟩

/-- Answer of `websocket.DefaultDialer.Dial`: an error, or a connection with
the status code of the HTTP response. -/
inductive DialOutcome where
  | fail (err : Error)
  | ok (conn : Conn) (statusCode : Nat)
deriving DecidableEq, Repr

/-- The network as one `Connect` call meets it. -/
structure Net where
  dial : String → DialOutcome
  /-- the error, if any, of the first `conn.SetReadDeadline` -/
  setReadDeadline : Option Error

/-- `func (c *Client) Connect() error`. -/
def Connect (net : Net) (c : Client) : Ret (Option Error) :=
  if c.conn ≠ none then
    ⟨none, c, []⟩
  else
    let url := "wss://" ++ c.feed ++ ".polygon.io/" ++ c.market
    match net.dial url with
    | .fail err => ⟨some ("failed to dial server: " ++ err), c, [.dial url]⟩
    | .ok conn statusCode =>
      if statusCode ≠ 101 then
        ⟨some "server failed to switch protocols", c, [.dial url]⟩
      else
        match net.setReadDeadline with
        | some err =>
          ⟨some ("failed to set read deadline: " ++ err), c,
            [.dial url, .setReadLimit, .setReadDeadline]⟩
        | none =>
          ⟨none, { c with conn := some conn },
            [.dial url, .setReadLimit, .setReadDeadline, .setPongHandler,
              .spawn .read, .spawn .write, .spawn .process]⟩

/-- `func (c *Client) Close() error`; `werr` is what `WriteControl` answers
for the close frame. -/
def Close (werr : Option Error) (c : Client) : Ret (Option Error) :=
  match c.conn with
  | none => ⟨none, c, []⟩
  | some _ =>
    let c1 := { c with ctxDone := true }
    match werr with
    | some err =>
      ⟨some err, c1, [.cancel, .writeControl .close,
        .log .error ("failed to gracefully close: " ++ err)]⟩
    | none =>
      ⟨none, c1, [.cancel, .writeControl .close,
        .log .info "connection closed successfully"]⟩

/-! ## Inbound decoding -/

/-- What `encoding/json` answers for the three `json.Unmarshal` calls of the
inbound path: a frame into `[]json.RawMessage`, an envelope into
`models.EventType` (the value of its `ev` discriminant), and an envelope into
`models.ControlMessage`. The decoder is an argument of every operation that
decodes, so results hold whatever it answers. -/
structure Json where
  unmarshalBatch : Frame → Except Error (List RawMessage)
  unmarshalEventType : RawMessage → Except Error String
  unmarshalControl : RawMessage → Except Error ControlMessage

/-- `func (c *Client) handleStatus(msg json.RawMessage)`; `werr` is what the
transport answers to the close frame, should `Close` be called. -/
def handleStatus (j : Json) (werr : Option Error) (c : Client) (msg : RawMessage) :
    Client × List Effect :=
  match j.unmarshalControl msg with
  | .error err => (c, [.log .error ("failed to unmarshal message: " ++ err)])
  | .ok cm =>
    if cm.Status = "connected" then
      (c, [.log .debug "connection successful"])
    else if cm.Status = "auth_success" then
      (c, [.log .debug "authentication successful"])
    else if cm.Status = "auth_failed" then
      let r := Close werr c
      (r.client, .log .error "authentication failed, closing connection" :: r.effects)
    else if cm.Status = "success" then
      (c, [.log .debug "subscription successful"])
    else
      (c, [.log .info ("unknown status message \x27" ++ cm.Status ++ "\x27")])

/-- `func (c *Client) route(msgs []json.RawMessage)`; `werr i` is what the
transport answers to a close frame sent while the envelope at position `i`
is handled. -/
def route (j : Json) (werr : Nat → Option Error) : Client → List RawMessage →
    Client × List Effect
  | c, [] => (c, [])
  | c, msg :: rest =>
    match j.unmarshalEventType msg with
    | .error err => (c, [.log .error ("failed to process message: " ++ err)])
    | .ok ev =>
      if ev = "status" then
        let r1 := handleStatus j (werr 0) c msg
        let r2 := route j (fun i => werr (i + 1)) r1.1 rest
        (r2.1, r1.2 ++ r2.2)
      else
        let r2 := route j (fun i => werr (i + 1)) c rest
        (r2.1, .log .debug ("unknown message type \x27" ++ ev ++ "\x27") :: r2.2)

/-! ## The three loops -/

/-- Go `select` without `default`: one of the ready cases, taken by the
runtime at random (`pick`), or `none` when no case is ready and the goroutine
waits. -/
def goSelect {α : Type} (ready : List α) (pick : Nat) : Option α :=
  ready[pick % ready.length]?

/-- How one trip through a loop body ends. -/
inductive Step where
  /-- the loop goes on to its next iteration -/
  | next
  /-- no case of the `select` was ready: the goroutine waits -/
  | wait
  /-- the goroutine is stuck in a send on a full channel -/
  | blocked
  /-- the function returns -/
  | exit
deriving DecidableEq, Repr

structure IterResult where
  step : Step
  client : Client
  effects : List Effect
deriving DecidableEq, Repr

/-- Where a loop stands at the end of the run that was followed. -/
inductive Status where
  /-- still looping -/
  | running
  /-- stuck in a send on a full channel -/
  | blocked
  /-- returned, deferred calls done -/
  | returned
deriving DecidableEq, Repr

structure LoopResult where
  status : Status
  client : Client
  effects : List Effect
deriving DecidableEq, Repr

/-- Answer of `c.conn.ReadMessage()`: a message, a `*websocket.CloseError`
with its code, or any other error. -/
inductive ReadOutcome where
  | msg (data : Frame)
  | closeError (code : Nat) (text : Error)
  | otherError (text : Error)
deriving DecidableEq, Repr

/-- `websocket.CloseNormalClosure`. -/
def CloseNormalClosure : Nat := 1000

/-- What the Reader meets in one iteration. -/
structure ReadEnv where
  /-- another goroutine called `cancel` since the previous iteration -/
  cancelNow : Bool
  /-- frames the Processor received from `rQueue` since the previous iteration -/
  taken : Nat
  /-- what `ReadMessage` answers, if it is called -/
  outcome : ReadOutcome
deriving DecidableEq, Repr

/-- Body of the `for` loop of `read`: a `select` with a `default` case, so
the `ctx.Done()` case is taken exactly when it is ready. Every `break` sits
inside the `select` and ends the `select` statement only. -/
def readIter (env : ReadEnv) (c : Client) : IterResult :=
  if c.ctxDone then
    ⟨.exit, c, []⟩
  else
    match env.outcome with
    | .closeError code text =>
      if code = CloseNormalClosure then
        ⟨.next, c, [.readMessage]⟩
      else
        ⟨.next, c, [.readMessage,
          .log .error ("connection closed unexpectedly: " ++ text)]⟩
    | .otherError text =>
      ⟨.next, c, [.readMessage, .log .error ("failed to read message: " ++ text)]⟩
    | .msg data =>
      match chanSend rQueueCap c.rQueue data with
      | none => ⟨.blocked, c, [.readMessage]⟩
      | some q => ⟨.next, { c with rQueue := q }, [.readMessage, .push data]⟩

/-- The Client as an iteration of the Reader finds it. -/
def ReadEnv.enter (env : ReadEnv) (c : Client) : Client :=
  { c with ctxDone := c.ctxDone || env.cancelNow, rQueue := c.rQueue.drop env.taken }

/-- `func (c *Client) read()`, followed for as many iterations as `envs` has
entries; the deferred calls run when the function returns. -/
def read : List ReadEnv → Client → LoopResult
  | [], c => ⟨.running, c, []⟩
  | env :: envs, c =>
    let r := readIter env (env.enter c)
    match r.step with
    | .exit => ⟨.returned, r.client,
        r.effects ++ [.log .debug "closing read thread", .connClose]⟩
    | .blocked => ⟨.blocked, r.client, r.effects⟩
    | _ =>
      let rest := read envs r.client
      ⟨rest.status, rest.client, r.effects ++ rest.effects⟩

/-- Cases of the `select` in `write`, in source order. -/
inductive WriteCase where
  | done
  | tick
  | msg
deriving DecidableEq, Repr

/-- What the Writer meets in one iteration. -/
structure WriteEnv where
  /-- another goroutine called `cancel` since the previous iteration -/
  cancelNow : Bool
  /-- frames enqueued on `wQueue` since the previous iteration -/
  arrived : List Frame
  /-- `ticker.C` holds a tick -/
  tick : Bool
  /-- the runtime's choice among the ready cases -/
  pick : Nat
  /-- what `WriteControl` answers for a ping -/
  pingErr : Option Error
  /-- what `SetWriteDeadline` answers -/
  deadlineErr : Option Error
  /-- what `WriteMessage` answers -/
  writeErr : Option Error
deriving DecidableEq, Repr

/-- The cases of the Writer's `select` that can proceed. -/
def writeReady (c : Client) (tick : Bool) : List WriteCase :=
  (if c.ctxDone then [WriteCase.done] else []) ++
  (if tick then [WriteCase.tick] else []) ++
  (if c.wQueue ≠ [] then [WriteCase.msg] else [])

/-- Body of the `for` loop of `write`. -/
def writeIter (env : WriteEnv) (c : Client) : IterResult :=
  match goSelect (writeReady c env.tick) env.pick with
  | none => ⟨.wait, c, []⟩
  | some .done => ⟨.exit, c, []⟩
  | some .tick =>
    match env.pingErr with
    | some err =>
      ⟨.exit, c, [.writeControl .ping,
        .log .error ("failed to send ping message: " ++ err)]⟩
    | none => ⟨.next, c, [.writeControl .ping]⟩
  | some .msg =>
    match c.wQueue with
    | [] => ⟨.wait, c, []⟩
    | msg :: q =>
      let c1 := { c with wQueue := q }
      match env.deadlineErr with
      | some err =>
        ⟨.exit, c1, [.setWriteDeadline,
          .log .error ("failed to set write deadline: " ++ err)]⟩
      | none =>
        match env.writeErr with
        | some err =>
          ⟨.exit, c1, [.setWriteDeadline, .writeMessage msg,
            .log .error ("failed to send message: " ++ err)]⟩
        | none => ⟨.next, c1, [.setWriteDeadline, .writeMessage msg]⟩

/-- The Client as an iteration of the Writer finds it. -/
def WriteEnv.enter (env : WriteEnv) (c : Client) : Client :=
  { c with ctxDone := c.ctxDone || env.cancelNow, wQueue := c.wQueue ++ env.arrived }

/-- `func (c *Client) write()`, followed for as many iterations as `envs` has
entries; the deferred calls run when the function returns. -/
def write : List WriteEnv → Client → LoopResult
  | [], c => ⟨.running, c, []⟩
  | env :: envs, c =>
    let r := writeIter env (env.enter c)
    match r.step with
    | .exit => ⟨.returned, r.client,
        r.effects ++ [.log .debug "closing write thread", .tickerStop, .connClose]⟩
    | _ =>
      let rest := write envs r.client
      ⟨rest.status, rest.client, r.effects ++ rest.effects⟩

/-- Nothing fails and nobody cancels during the iteration. -/
def WriteEnv.quiet (env : WriteEnv) : Prop :=
  env.cancelNow = false ∧ env.pingErr = none ∧ env.deadlineErr = none ∧ env.writeErr = none

instance (env : WriteEnv) : Decidable env.quiet := by
  unfold WriteEnv.quiet
  infer_instance

/-- The text frames handed to `WriteMessage`, in order. -/
def written (es : List Effect) : List Frame :=
  es.filterMap fun e =>
    match e with
    | .writeMessage m => some m
    | _ => none

/-- Every frame on `wQueue` during a run: those buffered at its start, then
those enqueued meanwhile, in enqueue order. -/
def enqueued (envs : List WriteEnv) (c : Client) : List Frame :=
  c.wQueue ++ envs.flatMap fun env => env.arrived

/-- Cases of the `select` in `process`, in source order. -/
inductive ProcessCase where
  | done
  | recv
deriving DecidableEq, Repr

/-- What the Processor meets in one iteration. -/
structure ProcessEnv where
  /-- another goroutine called `cancel` since the previous iteration -/
  cancelNow : Bool
  /-- frames the Reader pushed on `rQueue` since the previous iteration -/
  arrived : List Frame
  /-- the runtime's choice among the ready cases -/
  pick : Nat
  /-- what the transport answers to a close frame sent while the envelope at
  the given position of the batch is handled -/
  closeErr : Nat → Option Error

/-- The cases of the Processor's `select` that can proceed. -/
def processReady (c : Client) : List ProcessCase :=
  (if c.ctxDone then [ProcessCase.done] else []) ++
  (if c.rQueue ≠ [] then [ProcessCase.recv] else [])

structure ProcessIter where
  step : Step
  client : Client
  effects : List Effect
  /-- the frame received from `rQueue`, if one was -/
  received : Option Frame
  /-- the batch passed to `route`, if one was -/
  routed : Option (List RawMessage)

/-- Body of the `for` loop of `process`. -/
def processIter (j : Json) (env : ProcessEnv) (c : Client) : ProcessIter :=
  match goSelect (processReady c) env.pick with
  | none => ⟨.wait, c, [], none, none⟩
  | some .done => ⟨.exit, c, [], none, none⟩
  | some .recv =>
    match c.rQueue with
    | [] => ⟨.wait, c, [], none, none⟩
    | data :: q =>
      let c1 := { c with rQueue := q }
      match j.unmarshalBatch data with
      | .error err =>
        ⟨.next, c1, [.log .error ("failed to process raw messages: " ++ err)],
          some data, none⟩
      | .ok msgs =>
        let r := route j env.closeErr c1 msgs
        ⟨.next, r.1, r.2, some data, some msgs⟩

structure ProcessResult where
  status : Status
  client : Client
  effects : List Effect
  /-- the frames received from `rQueue`, in order -/
  received : List Frame
  /-- the batches passed to `route`, in order -/
  routed : List (List RawMessage)

/-- The Client as an iteration of the Processor finds it. -/
def ProcessEnv.enter (env : ProcessEnv) (c : Client) : Client :=
  { c with ctxDone := c.ctxDone || env.cancelNow, rQueue := c.rQueue ++ env.arrived }

/-- `func (c *Client) process()`, followed for as many iterations as `envs`
has entries; the deferred call runs when the function returns. -/
def process (j : Json) : List ProcessEnv → Client → ProcessResult
  | [], c => ⟨.running, c, [], [], []⟩
  | env :: envs, c =>
    let r := processIter j env (env.enter c)
    match r.step with
    | .exit => ⟨.returned, r.client,
        r.effects ++ [.log .debug "closing process thread"],
        r.received.toList, r.routed.toList⟩
    | _ =>
      let rest := process j envs r.client
      ⟨rest.status, rest.client, r.effects ++ rest.effects,
        r.received.toList ++ rest.received, r.routed.toList ++ rest.routed⟩

/-- The batch a frame decodes to, if it decodes. -/
def decoded (j : Json) (data : Frame) : Option (List RawMessage) :=
  match j.unmarshalBatch data with
  | .ok msgs => some msgs
  | .error _ => none

/-- Every frame on `rQueue` during a run: those buffered at its start, then
those pushed meanwhile, in arrival order. -/
def arrivedAll (envs : List ProcessEnv) (c : Client) : List Frame :=
  c.rQueue ++ envs.flatMap fun env => env.arrived

/-- `route` applied to batch after batch on the same Client; `werr k i` is
what the transport answers to a close frame sent while envelope `i` of batch
`k` is handled. -/
def routeAll (j : Json) (werr : Nat → Nat → Option Error) : Client →
    List (List RawMessage) → Client × List Effect
  | c, [] => (c, [])
  | c, msgs :: rest =>
    let r1 := route j (werr 0) c msgs
    let r2 := routeAll j (fun k => werr (k + 1)) r1.1 rest
    (r2.1, r1.2 ++ r2.2)

/-- How many times the Close operation was carried out: every one signals
cancellation once. -/
def closeCount (es : List Effect) : Nat :=
  es.count .cancel

/-- How many close frames were sent. -/
def closeFrames (es : List Effect) : Nat :=
  es.count (.writeControl .close)

/-- The envelope is routed to `handleStatus` and carries the status
"auth_failed": its discriminant decodes to "status" and it decodes as a
control message with that status. -/
def isAuthFailed (j : Json) (msg : RawMessage) : Bool :=
  match j.unmarshalEventType msg, j.unmarshalControl msg with
  | .ok ev, .ok cm => decide (ev = "status") && decide (cm.Status = "auth_failed")
  | _, _ => false

/-- The discriminant of the envelope decodes. -/
def hasEventType (j : Json) (msg : RawMessage) : Bool :=
  match j.unmarshalEventType msg with
  | .ok _ => true
  | .error _ => false

/-- The envelopes of a batch that come before the first one whose
discriminant does not decode. -/
def reached (j : Json) (msgs : List RawMessage) : List RawMessage :=
  msgs.takeWhile (hasEventType j)

/-! ## Sequences of lifecycle calls -/

/-- One call made on the Client by its owner, with what the outside world
answers to it. -/
inductive Call where
  /-- `c.Connect()` meeting the network `net` -/
  | connect (net : Net)
  /-- `c.Close()`, the close-frame write answering `werr` -/
  | close (werr : Option Error)

structure CallsResult where
  client : Client
  /-- what each call returned, in order -/
  returns : List (Option Error)
  effects : List Effect
  /-- the transports assigned to `c.conn`, in order -/
  stored : List Conn

/-- `Connect` and `Close` called one after another on the same Client. -/
def runCalls : List Call → Client → CallsResult
  | [], c => ⟨c, [], [], []⟩
  | .connect net :: rest, c =>
    let r := Connect net c
    let s := runCalls rest r.client
    let new := if r.client.conn = c.conn then [] else r.client.conn.toList
    ⟨s.client, r.val :: s.returns, r.effects ++ s.effects, new ++ s.stored⟩
  | .close werr :: rest, c =>
    let r := Close werr c
    let s := runCalls rest r.client
    let new := if r.client.conn = c.conn then [] else r.client.conn.toList
    ⟨s.client, r.val :: s.returns, r.effects ++ s.effects, new ++ s.stored⟩

/-- The effect is a dial or the start of a loop. -/
def Effect.isDialOrSpawn : Effect → Bool
  | .dial _ => true
  | .spawn _ => true
  | _ => false

/-! ## Envelope by envelope view of a batch -/

/-- The discriminant of the envelope decodes to "status". -/
def isStatus (j : Json) (msg : RawMessage) : Bool :=
  match j.unmarshalEventType msg with
  | .ok ev => decide (ev = "status")
  | .error _ => false

/-- What handling one envelope on its own does, according to the routing
rule: a status envelope goes to the Control-Message Handler, an envelope of
any other event type is logged at debug level and dropped, an envelope whose
discriminant does not decode is logged as an error. -/
def envelopeEffects (j : Json) (werr : Option Error) (c : Client) (msg : RawMessage) :
    List Effect :=
  match j.unmarshalEventType msg with
  | .error err => [.log .error ("failed to process message: " ++ err)]
  | .ok ev =>
    if ev = "status" then (handleStatus j werr c msg).2
    else [.log .debug ("unknown message type \x27" ++ ev ++ "\x27")]

/-- The routing rule applied to every envelope of a batch in array order,
each envelope on its own; `werr i` is what the transport answers to a close
frame sent for the envelope at position `i`. -/
def routedEffects (j : Json) (werr : Nat → Option Error) (c : Client) :
    List RawMessage → List Effect
  | [] => []
  | msg :: rest =>
    envelopeEffects j (werr 0) c msg ++ routedEffects j (fun i => werr (i + 1)) c rest

/-- What the Processor is to do with one received frame: a frame that does
not decode as an array of envelopes is logged as an error and dropped, a
frame that decodes is passed to `route`. These are the effects, when no close
frame is refused. -/
def frameEffects (j : Json) (c : Client) (data : Frame) : List Effect :=
  match j.unmarshalBatch data with
  | .error err => [.log .error ("failed to process raw messages: " ++ err)]
  | .ok msgs => (route j (fun _ => none) c msgs).2

/-! ## Sample inbound traffic -/

/-- The status envelope `{"ev":"status","status":"<status>"}`. -/
def statusEnvelope (status : String) : RawMessage :=
  "\x7b\"ev\":\"status\",\"status\":\"" ++ status ++ "\"\x7d"

/-- A trade envelope, `{"ev":"T","sym":"AAPL"}`. -/
def tradeEnvelope : RawMessage :=
  "\x7b\"ev\":\"T\",\"sym\":\"AAPL\"\x7d"

/-- The frame `[e1,e2,...]` carrying the given envelopes. -/
def batchFrame (msgs : List RawMessage) : Frame :=
  "[" ++ ",".intercalate msgs ++ "]"

/-- The status values of the sample status envelopes. -/
def sampleStatuses : List String :=
  ["connected", "auth_success", "auth_failed", "success", "maintenance"]

/-- The batches of the sample frames. -/
def sampleBatches : List (List RawMessage) :=
  [ [statusEnvelope "connected"],
    [statusEnvelope "auth_success"],
    [statusEnvelope "auth_failed"],
    [statusEnvelope "auth_failed", statusEnvelope "auth_failed"],
    [tradeEnvelope],
    [tradeEnvelope, statusEnvelope "success"],
    ["5", statusEnvelope "auth_failed"] ]

/-- The answers of `encoding/json` on the sample traffic: the frames
`batchFrame b` for `b` in `sampleBatches` decode to `b`, the sample status
envelopes and the trade envelope decode to their `ev` and `status` members,
and the envelope `5` (a JSON number) decodes neither as an event type nor as
a control message. Anything else is answered with a syntax error, as the
frame `not json` is. -/
def sampleJson : Json where
  unmarshalBatch data :=
    match sampleBatches.find? (fun b => batchFrame b = data) with
    | some b => .ok b
    | none => .error "invalid character"
  unmarshalEventType msg :=
    if msg ∈ sampleStatuses.map statusEnvelope then .ok "status"
    else if msg = tradeEnvelope then .ok "T"
    else if msg = "5" then
      .error "json: cannot unmarshal number into Go value of type models.EventType"
    else .error "invalid character"
  unmarshalControl msg :=
    match sampleStatuses.find? (fun s => statusEnvelope s = msg) with
    | some s => .ok { EventType := "status", Status := s }
    | none =>
      if msg = tradeEnvelope then .ok { EventType := "T" }
      else if msg = "5" then
        .error "json: cannot unmarshal number into Go value of type models.ControlMessage"
      else .error "invalid character"

/-- A Client as `New` and a successful `Connect` leave it, for the key
`abc123`. -/
def sampleConnected : Client :=
  { apiKey := "abc123", feed := "delayed", market := "stocks", ctxDone := false,
    conn := some ⟨1⟩, rQueue := [],
    wQueue := ["\x7b\"action\":\"auth\",\"params\":\"abc123\"\x7d"], log := .nop }

/-- The connected sample Client after cancellation has been signaled. -/
def sampleCancelled : Client :=
  { sampleConnected with ctxDone := true }

/-- The cancelled sample Client with one frame waiting on its inbound queue. -/
def sampleCancelledInbound : Client :=
  { sampleCancelled with rQueue := [batchFrame [statusEnvelope "connected"]] }

end Polygonws

/-!
The REST client: a shallow embedding of `rest/client.go` and
`rest/iterator.go` (package `rest`).

* A Go `panic` is modelled by `Except.error` carrying the panic value.
* Values of type `any` inspected by reflection are modelled by what
  reflection finds in them (`AnyResponse`).
* What the outside world answers (environment variable, HTTP exchange,
  JSON decoding of a page) is an explicit argument of the operation.
-/

namespace Rest

/-! ## Data model -/

/-- Go `error` value, identified by its message. -/
abbrev Error := String

/-- The value a Go `panic` carries. -/
inductive Panic where
  /-- `panic("...")` -/
  | text (s : String)
  /-- `panic(err)` -/
  | error (err : Error)
  /-- runtime error: index out of range `[i]` with length `len` -/
  | indexOutOfRange (i : Int) (len : Nat)
  /-- runtime error: nil pointer dereference -/
  | nilDereference
  /-- a reflection call on a value of the wrong kind -/
  | reflect (call : String)
deriving DecidableEq, Repr

/-- `map[string]any`: a JSON object given by its members, values rendered as
JSON text; `none` is the nil map. -/
abbrev Item := Option (List (String × String))

/-- The two transports `NewWithOptions` chooses between:
`http.DefaultTransport` and `&debugTransport{base: http.DefaultTransport}`. -/
inductive Transport where
  | default
  | debug
deriving DecidableEq, Repr

/-- The `*http.Client` built by `NewWithOptions`. -/
structure HTTPClient where
  /-- `Timeout`, in seconds -/
  Timeout : Nat
  Transport : Transport
deriving DecidableEq, Repr

/-- The embedded `*gen.ClientWithResponses`, identified by its server URL. -/
structure GenClient where
  server : String
deriving DecidableEq, Repr

/-- The struct `Client`; a nil pointer field is `none`. -/
structure Client where
  ClientWithResponses : Option GenClient
  httpClient : Option HTTPClient
  apiKey : String
  trace : Bool
  pagination : Bool
deriving DecidableEq, Repr

/-- `type Option func(*Client)`: an option mutates the Client under
construction. -/
abbrev ClientOption := Client → Client

/-- `func WithTrace(enabled bool) Option`. -/
def WithTrace (enabled : Bool) : ClientOption :=
  fun c => { c with trace := enabled }

/-- `func WithPagination(enabled bool) Option`. -/
def WithPagination (enabled : Bool) : ClientOption :=
  fun c => { c with pagination := enabled }

/-- What the process environment answers to `NewWithOptions`. -/
structure World where
  /-- `os.Getenv("MASSIVE_API_KEY")`: empty when the variable is unset -/
  MASSIVE_API_KEY : String
  /-- the error, if any, returned by `gen.NewClientWithResponses` -/
  genErr : Option Error
deriving DecidableEq, Repr

/-- The literal `&Client{apiKey: apiKey, trace: false, pagination: true}`. -/
def Client.blank (apiKey : String) : Client :=
  { ClientWithResponses := none, httpClient := none, apiKey := apiKey,
    trace := false, pagination := true }

/-- The loop `for _, opt := range opts { opt(c) }`. -/
def applyOptions (opts : List ClientOption) (c : Client) : Client :=
  opts.foldl (fun c opt => opt c) c

/-- `func NewWithOptions(apiKey string, opts ...Option) *Client`. -/
def NewWithOptions (w : World) (apiKey : String) (opts : List ClientOption) :
    Except Panic Client :=
  let apiKey := if apiKey = "" then w.MASSIVE_API_KEY else apiKey
  if apiKey = "" then
    .error (.text "MASSIVE_API_KEY is required")
  else
    let c1 := applyOptions opts (Client.blank apiKey)
    let transport := if c1.trace then Transport.debug else Transport.default
    let c2 := { c1 with httpClient := some ⟨60, transport⟩ }
    match w.genErr with
    | some err => .error (.error err)
    | none => .ok { c2 with ClientWithResponses := some ⟨"https://api.massive.com"⟩ }

/-- `func New(apiKey string) *Client`. -/
def New (w : World) (apiKey : String) : Except Panic Client :=
  NewWithOptions w apiKey []

/-- `http.Header`: canonical header name to values. -/
abbrev Header := List (String × List String)

/-- `Header.Set`: the values of `key` are replaced by the single `value`. -/
def Header.set (h : Header) (key value : String) : Header :=
  (key, [value]) :: h.filter fun kv => kv.1 ≠ key

/-- `Header.Get`: the first value of `key`, empty when there is none. -/
def Header.get (h : Header) (key : String) : String :=
  match h.find? fun kv => kv.1 = key with
  | some (_, v :: _) => v
  | _ => ""

/-- `*http.Request`, as far as the client touches it. -/
structure Request where
  Method : String
  URL : String
  Header : Header
deriving DecidableEq, Repr

/-- `func (c *Client) addHeaders(_ context.Context, req *http.Request) error`:
the error returned and the request as the call left it. -/
def Client.addHeaders (c : Client) (req : Request) : Option Error × Request :=
  let h1 := req.Header.set "Authorization" ("Bearer " ++ c.apiKey)
  let h2 := h1.set "User-Agent" "massive-go-test"
  (none, { req with Header := h2 })

/-- `*http.Response`, as far as the client reads it. -/
structure HTTPResponse where
  Status : String
  StatusCode : Nat
  Body : String
deriving DecidableEq, Repr

/-- `http.StatusOK`. -/
def StatusOK : Nat := 200

/-! ## Iterator -/

/-- The struct `Iterator`. -/
structure Iterator where
  client : Client
  page : List Item
  idx : Int
  err : Option Error
  nextURL : Option String
deriving DecidableEq, Repr

/-- `func NewIterator(c *Client, firstPage []map[string]any, nextURL *string) *Iterator`. -/
def NewIterator (c : Client) (firstPage : List Item) (nextURL : Option String) : Iterator :=
  { client := c, page := firstPage, idx := 0, err := none, nextURL := nextURL }

/-- The local struct `paginated` of `fetchNextPage`. -/
structure Paginated where
  Results : List Item
  NextURL : Option String
deriving DecidableEq, Repr

/-- What the outside world answers during one page fetch. -/
structure Http where
  /-- the error, if any, of `http.NewRequestWithContext` for the URL -/
  newRequest : String → Option Error
  /-- `httpClient.Do(req)` -/
  Do : Request → Except Error HTTPResponse
  /-- `json.NewDecoder(resp.Body).Decode(&p)` -/
  decode : String → Except Error Paginated

/-- The calls a page fetch makes on the network. -/
inductive HttpEffect where
  /-- `it.client.httpClient.Do(req)` -/
  | roundTrip (req : Request)
  /-- `resp.Body.Close()` -/
  | bodyClose
deriving DecidableEq, Repr

/-- Return values of `fetchNextPage` together with the calls it made. -/
structure FetchResult where
  page : List Item
  nextURL : Option String
  err : Option Error
  effects : List HttpEffect
deriving DecidableEq, Repr

/-- `func (it *Iterator) fetchNextPage(urlStr string) ([]map[string]any, *string, error)`. -/
def Iterator.fetchNextPage (h : Http) (it : Iterator) (urlStr : String) :
    Except Panic FetchResult :=
  match h.newRequest urlStr with
  | some err => .ok ⟨[], none, some err, []⟩
  | none =>
    let req0 : Request := { Method := "GET", URL := urlStr, Header := [] }
    match it.client.addHeaders req0 with
    | (some err, _) => .ok ⟨[], none, some err, []⟩
    | (none, req) =>
      match it.client.httpClient with
      | none => .error .nilDereference
      | some _ =>
        match h.Do req with
        | .error err => .ok ⟨[], none, some err, [.roundTrip req]⟩
        | .ok resp =>
          if resp.StatusCode ≠ StatusOK then
            .ok ⟨[], none, some ("http status " ++ toString resp.StatusCode),
              [.roundTrip req, .bodyClose]⟩
          else
            match h.decode resp.Body with
            | .error err => .ok ⟨[], none, some err, [.roundTrip req, .bodyClose]⟩
            | .ok p => .ok ⟨p.Results, p.NextURL, none, [.roundTrip req, .bodyClose]⟩

/-- Return value of `Next`, the iterator as the call left it, and the calls
made on the network. -/
structure NextResult where
  ret : Bool
  it : Iterator
  effects : List HttpEffect
deriving DecidableEq, Repr

/-- `func (it *Iterator) Next() bool`. -/
def Iterator.Next (h : Http) (it : Iterator) : Except Panic NextResult :=
  if it.err ≠ none then
    .ok ⟨false, it, []⟩
  else if it.idx < it.page.length then
    .ok ⟨true, { it with idx := it.idx + 1 }, []⟩
  else if !it.client.pagination || it.nextURL = none || it.nextURL = some "" then
    .ok ⟨false, it, []⟩
  else
    match it.nextURL with
    | none => .ok ⟨false, it, []⟩
    | some url =>
      match it.fetchNextPage h url with
      | .error p => .error p
      | .ok r =>
        let it1 := { it with page := r.page, nextURL := r.nextURL, err := r.err, idx := 0 }
        if 0 < r.page.length ∧ r.err = none then
          .ok ⟨true, { it1 with idx := 1 }, r.effects⟩
        else
          .ok ⟨false, it1, r.effects⟩

/-- `func (it *Iterator) Item() map[string]any`: `it.page[it.idx-1]`, which
panics when the index is out of range. -/
def Iterator.Item (it : Iterator) : Except Panic Item :=
  if it.idx - 1 < 0 then
    .error (.indexOutOfRange (it.idx - 1) it.page.length)
  else
    match it.page[(it.idx - 1).toNat]? with
    | some item => .ok item
    | none => .error (.indexOutOfRange (it.idx - 1) it.page.length)

/-- `func (it *Iterator) Err() error`. -/
def Iterator.Err (it : Iterator) : Option Error :=
  it.err

/-- Results of successive calls of `Next`. -/
structure NextsResult where
  /-- what each call returned, in order -/
  rets : List Bool
  it : Iterator
  effects : List HttpEffect
deriving DecidableEq, Repr

/-- `Next` called once for every entry of `hs`, the entry being what the
outside world answers during that call. -/
def Iterator.nexts : List Http → Iterator → Except Panic NextsResult
  | [], it => .ok ⟨[], it, []⟩
  | h :: hs, it =>
    match it.Next h with
    | .error p => .error p
    | .ok r =>
      match Iterator.nexts hs r.it with
      | .error p => .error p
      | .ok s => .ok ⟨r.ret :: s.rets, s.it, r.effects ++ s.effects⟩

/-- The request `fetchNextPage` sends for a URL: a GET with the headers
`addHeaders` sets. -/
def Client.pageRequest (c : Client) (urlStr : String) : Request :=
  (c.addHeaders { Method := "GET", URL := urlStr, Header := [] }).2

/-- The iterator as a `Next` whose page fetch failed with `err` leaves it. -/
def Iterator.failed (it : Iterator) (err : Error) : Iterator :=
  { it with page := [], nextURL := none, err := some err, idx := 0 }

/-! ## Responses inspected by reflection -/

/-- What reflection finds in the struct behind a non-nil `JSON200` field. -/
structure Body200 (α : Type) where
  /-- the elements of field `Results` (`[]T` or `*[]T`); `none` when the
  field is missing or nil -/
  Results : Option (List α)
  /-- field `NextUrl` when it is a non-nil `*string` -/
  NextUrl : Option String
  /-- field `NextURL` when it is a non-nil `*string` -/
  NextURL : Option String

/-- What reflection finds in a value of type `any` handed to
`NewIteratorFromResponse` or `CheckResponse`. -/
inductive AnyResponse (α : Type) where
  /-- the nil interface -/
  | nil
  /-- a nil pointer -/
  | nilPointer
  /-- a value that is neither a struct nor a pointer to a struct -/
  | other
  /-- a generated response struct, or a pointer to one: field `HTTPResponse`
  (`none` when missing or nil), field `Body` (`none` when missing) and field
  `JSON200` (`none` when missing or nil) -/
  | response (HTTPResponse : Option HTTPResponse) (Body : Option String)
      (JSON200 : Option (Body200 α))

/-- `func NewIteratorFromResponse(c *Client, resp any) *Iterator`; `conv` is
the conversion of one result to a map (`json.Marshal` then `json.Unmarshal`,
the nil map when either fails). -/
def NewIteratorFromResponse {α : Type} (conv : α → Item) (c : Client)
    (resp : AnyResponse α) : Iterator :=
  match resp with
  | .nil => NewIterator c [] none
  | .nilPointer => NewIterator c [] none
  | .other => NewIterator c [] none
  | .response _ _ none => NewIterator c [] none
  | .response _ _ (some body) =>
    let page : List Item :=
      match body.Results with
      | some results => results.map conv
      | none => []
    let nextURL0 : Option String :=
      match body.NextUrl with
      | some u => some u
      | none => body.NextURL
    let nextURL := if !c.pagination then none else nextURL0
    NewIterator c page nextURL

/-- `func CheckResponse(rsp any) error`. -/
def CheckResponse {α : Type} (rsp : AnyResponse α) : Except Panic (Option Error) :=
  match rsp with
  | .nil => .ok (some "nil response from server")
  | .nilPointer => .ok (some "nil response from server")
  | .other => .error (.reflect "FieldByName")
  | .response none _ _ => .ok none
  | .response (some httpResp) body _ =>
    if httpResp.StatusCode = StatusOK then
      .ok none
    else
      let bodyStr :=
        match body with
        | some b => b
        | none => ""
      .ok (some ("API error " ++ httpResp.Status ++ "\nBody: " ++ bodyStr))

/-! ## The tracing transport -/

/-- Concatenation with a separator between neighbours, as `fmt` puts a space
between the elements of a slice and between the entries of a map. -/
def joinWith (sep : String) : List String → String
  | [] => ""
  | [s] => s
  | s :: t :: rest => s ++ sep ++ joinWith sep (t :: rest)

/-- The `%+v` rendering of a `[]string`: `[v1 v2]`. -/
def fmtValues (vs : List String) : String :=
  "[" ++ joinWith " " vs ++ "]"

/-- One `key:value` entry of a printed map. -/
def fmtEntry (kv : String × List String) : String :=
  kv.1 ++ ":" ++ fmtValues kv.2

/-- Lexicographic order on character sequences, by code point. -/
def ltChars : List Char → List Char → Bool
  | [], [] => false
  | [], _ :: _ => true
  | _ :: _, [] => false
  | a :: as, b :: bs =>
    if a.toNat < b.toNat then true
    else if b.toNat < a.toNat then false
    else ltChars as bs

/-- The order in which `fmt` sorts string keys: `<` on Go strings. -/
def keyLess (a b : String) : Bool :=
  ltChars a.data b.data

/-- Insertion of an entry into entries sorted by key. -/
def insertEntry (e : String × List String) : Header → Header
  | [] => [e]
  | x :: rest => if keyLess x.1 e.1 then x :: insertEntry e rest else e :: x :: rest

/-- The entries of a map in the order `fmt` prints them: by increasing key. -/
def sortEntries : Header → Header
  | [] => []
  | e :: rest => insertEntry e (sortEntries rest)

/-- The `%+v` rendering of an `http.Header`: `map[k1:[v ...] k2:[v ...]]`. -/
def fmtHeader (h : Header) : String :=
  "map[" ++ joinWith " " ((sortEntries h).map fmtEntry) ++ "]"

/-- What the base transport gives back, as far as `RoundTrip` reads it. -/
structure RoundTripResponse where
  resp : HTTPResponse
  Header : Header
deriving DecidableEq, Repr

/-- The struct `debugTransport`; `base` is the wrapped `http.RoundTripper`. -/
structure debugTransport where
  base : Request → Except Error RoundTripResponse

/-- What a call of `RoundTrip` does and returns. -/
structure RoundTripResult where
  /-- standard output, one entry per `fmt.Printf` -/
  printed : List String
  /-- the request handed to `t.base.RoundTrip` -/
  forwarded : Request
  ret : Except Error RoundTripResponse

/-- `func (t *debugTransport) RoundTrip(req *http.Request) (*http.Response, error)`.
`req.Header.Clone()` is a copy, so the `Set` on it leaves `req` as it was. -/
def debugTransport.RoundTrip (t : debugTransport) (req : Request) : RoundTripResult :=
  let line1 := "Request URL: " ++ req.URL ++ "\n"
  let h := req.Header
  let h := if h.get "Authorization" ≠ "" then h.set "Authorization" "Bearer REDACTED" else h
  let line2 := "Request Headers: " ++ fmtHeader h ++ "\n"
  match t.base req with
  | .error err => ⟨[line1, line2], req, .error err⟩
  | .ok resp =>
    ⟨[line1, line2, "Response Headers: " ++ fmtHeader resp.Header ++ "\n"], req, .ok resp⟩

/-- The header entries other than `Authorization`. -/
def Header.others (h : Header) : Header :=
  h.filter fun kv => kv.1 ≠ "Authorization"

/-- Whether `Next` cannot fetch from the iterator any more: an error is
stored, pagination is off, or there is no non-empty next URL. -/
def Iterator.closed (it : Iterator) : Bool :=
  decide (it.err ≠ none) || !it.client.pagination || decide (it.nextURL = none) ||
    decide (it.nextURL = some "")

/-! ## Sample REST traffic -/

/-- A Client as `New` builds it for the key `abc123`. -/
def sampleClient : Client :=
  { ClientWithResponses := some ⟨"https://api.massive.com"⟩,
    httpClient := some ⟨60, .default⟩, apiKey := "abc123", trace := false,
    pagination := true }

/-- Three items of a page. -/
def samplePage : List Item :=
  [some [("ticker", "\"A\"")], some [("ticker", "\"AA\"")], some [("ticker", "\"AAL\"")]]

/-- A server that answers every request with status 200 and the body `{}`,
which decodes to no results and no next URL. -/
def emptyPageHttp : Http where
  newRequest _ := none
  Do _ := .ok ⟨"200 OK", 200, "\x7b\x7d"⟩
  decode _ := .ok ⟨[], none⟩

/-- A server that answers every request with status 500. -/
def failingHttp : Http where
  newRequest _ := none
  Do _ := .ok ⟨"500 Internal Server Error", 500, "oops"⟩
  decode _ := .error "unexpected end of JSON input"

/-- A server that answers with an empty page which still names a next page. -/
def emptyPageWithNextHttp : Http where
  newRequest _ := none
  Do _ := .ok ⟨"200 OK", 200, "page 1"⟩
  decode _ := .ok ⟨[], some "https://api.massive.com/v3/reference/tickers?cursor=YXA9Mg"⟩

/-- A server that answers with the three items of `samplePage` and no next page. -/
def lastPageHttp : Http where
  newRequest _ := none
  Do _ := .ok ⟨"200 OK", 200, "page 2"⟩
  decode _ := .ok ⟨samplePage, none⟩

/-- An iterator that has consumed its first page and knows a next URL. -/
def sampleIterator : Iterator :=
  { client := sampleClient, page := samplePage, idx := 3, err := none,
    nextURL := some "https://api.massive.com/v3/reference/tickers?cursor=YXA9MQ" }

/-- A base transport that answers every request with status 200. -/
def sampleTransport : debugTransport where
  base _ := .ok ⟨⟨"200 OK", 200, ""⟩, [("Content-Type", ["application/json"])]⟩

end Rest

/-!
The model types of `rest/models`: a shallow embedding of
`rest/models/decimal_volume.go` (package `models`).
-/

namespace Models

/-- `type DecimalVolume string`; the conversion `DecimalVolume(s)` is
`DecimalVolume.mk s`. -/
structure DecimalVolume where
  val : String
deriving DecidableEq, Repr

/-- `func (dv DecimalVolume) Float64() (float64, error)`; `parseFloat` is
`strconv.ParseFloat`, whose second argument is the bit size. -/
def DecimalVolume.Float64 {F : Type} (parseFloat : String → Nat → Except String F)
    (dv : DecimalVolume) : Except String F :=
  parseFloat dv.val 64

/-- `func (dv DecimalVolume) String() string`. -/
def DecimalVolume.String (dv : DecimalVolume) : String :=
  dv.val

end Models

namespace Polygonws

/-! ## Helper lemmas -/

theorem hexVal_hexDigit (a : Nat) (h : a < 16) : hexVal (hexDigit a) = some a := by
  interval_cases a <;> decide

theorem jsonUnescape_u (a b d e : Char) (va vb vd ve : Nat) (rest : List Char)
    (ha : hexVal a = some va) (hb : hexVal b = some vb) (hd : hexVal d = some vd)
    (he : hexVal e = some ve) :
    jsonUnescape (Char.ofNat 92 :: 'u' :: a :: b :: d :: e :: rest) =
      (jsonUnescape rest).map (Char.ofNat (((va * 16 + vb) * 16 + vd) * 16 + ve) :: ·) := by
  have h92 : (Char.ofNat 92).toNat = 92 := by decide
  rw [jsonUnescape]
  simp only [h92, if_true, ha, hb, hd, he]

theorem jsonUnescape_short (x ch : Char) (rest : List Char) (hx : x ≠ 'u')
    (h : jsonShortEscape x = some ch) :
    jsonUnescape (Char.ofNat 92 :: x :: rest) = (jsonUnescape rest).map (ch :: ·) := by
  have h92 : (Char.ofNat 92).toNat = 92 := by decide
  rw [jsonUnescape.eq_def]
  simp only [h92, if_true, hx, if_false, h]

theorem jsonUnescape_plain (c : Char) (rest : List Char) (h1 : c.toNat ≠ 92)
    (h2 : c.toNat ≠ 34) :
    jsonUnescape (c :: rest) = (jsonUnescape rest).map (c :: ·) := by
  rw [jsonUnescape.eq_def]
  simp only [h1, h2, if_false]

theorem jsonUnescape_escape (c : Char) (rest : List Char) :
    jsonUnescape (jsonEscapeChar c ++ rest) = (jsonUnescape rest).map (c :: ·) := by
  have hc : Char.ofNat c.toNat = c := Char.ofNat_toNat c
  by_cases h1 : c.toNat = 34
  · have hk : c = Char.ofNat 34 := by rw [← hc, h1]
    subst hk
    exact jsonUnescape_short _ _ rest (by decide) (by decide)
  by_cases h2 : c.toNat = 92
  · have hk : c = Char.ofNat 92 := by rw [← hc, h2]
    subst hk
    exact jsonUnescape_short _ _ rest (by decide) (by decide)
  by_cases h3 : c.toNat = 8
  · have hk : c = Char.ofNat 8 := by rw [← hc, h3]
    subst hk
    exact jsonUnescape_short _ _ rest (by decide) (by decide)
  by_cases h4 : c.toNat = 12
  · have hk : c = Char.ofNat 12 := by rw [← hc, h4]
    subst hk
    exact jsonUnescape_short _ _ rest (by decide) (by decide)
  by_cases h5 : c.toNat = 10
  · have hk : c = Char.ofNat 10 := by rw [← hc, h5]
    subst hk
    exact jsonUnescape_short _ _ rest (by decide) (by decide)
  by_cases h6 : c.toNat = 13
  · have hk : c = Char.ofNat 13 := by rw [← hc, h6]
    subst hk
    exact jsonUnescape_short _ _ rest (by decide) (by decide)
  by_cases h7 : c.toNat = 9
  · have hk : c = Char.ofNat 9 := by rw [← hc, h7]
    subst hk
    exact jsonUnescape_short _ _ rest (by decide) (by decide)
  by_cases h8 : c.toNat < 32 ∨ c.toNat = 60 ∨ c.toNat = 62 ∨ c.toNat = 38
  · have he : jsonEscapeChar c = [Char.ofNat 92, 'u', '0', '0', hexDigit (c.toNat / 16),
        hexDigit (c.toNat % 16)] := by
      simp only [jsonEscapeChar, h1, h2, h3, h4, h5, h6, h7, h8, if_true, if_false]
    rw [he]
    have := jsonUnescape_u '0' '0' (hexDigit (c.toNat / 16)) (hexDigit (c.toNat % 16))
      0 0 (c.toNat / 16) (c.toNat % 16) rest (by decide) (by decide)
      (hexVal_hexDigit _ (by omega)) (hexVal_hexDigit _ (by omega))
    have hn : ((0 * 16 + 0) * 16 + c.toNat / 16) * 16 + c.toNat % 16 = c.toNat := by omega
    rw [hn, hc] at this
    exact this
  by_cases h9 : c.toNat = 8232
  · have hk : c = Char.ofNat 8232 := by rw [← hc, h9]
    subst hk
    exact jsonUnescape_u '2' '0' '2' '8' 2 0 2 8 rest (by decide) (by decide) (by decide)
      (by decide)
  by_cases h10 : c.toNat = 8233
  · have hk : c = Char.ofNat 8233 := by rw [← hc, h10]
    subst hk
    exact jsonUnescape_u '2' '0' '2' '9' 2 0 2 9 rest (by decide) (by decide) (by decide)
      (by decide)
  have he : jsonEscapeChar c = [c] := by
    simp only [jsonEscapeChar, h1, h2, h3, h4, h5, h6, h7, h8, h9, h10, if_false]
  rw [he]
  exact jsonUnescape_plain c rest h2 h1

theorem jsonUnescape_flatMap (s : List Char) :
    jsonUnescape (s.flatMap jsonEscapeChar) = some s := by
  induction s with
  | nil => rfl
  | cons c s ih =>
    rw [List.flatMap_cons, jsonUnescape_escape, ih]
    rfl

theorem jsonQuote_injective (a b : String) (h : jsonQuote a = jsonQuote b) : a = b := by
  have h1 := congrArg String.data h
  simp only [jsonQuote, List.append_assoc, List.singleton_append, List.cons.injEq, true_and] at h1
  have h2 := List.cons.inj (List.append_cancel_right h1)
  have h3 := congrArg jsonUnescape h2.2
  rw [jsonUnescape_flatMap, jsonUnescape_flatMap] at h3
  exact String.ext (Option.some.inj h3)
theorem jsonMarshal_auth (key : String) (h : key ≠ "") :
    jsonMarshal { Action := "auth", Params := key } =
      .ok ("\x7b\"action\":\"auth\",\"params\":" ++ jsonQuote key ++ "\x7d") := by
  have hp : jsonField "params" key = [jsonQuote "params" ++ ":" ++ jsonQuote key] := by
    simp [jsonField, h]
  have ha : jsonField "action" "auth" = ["\"action\":\"auth\""] := by decide
  have he : jsonField "ev" "" = [] := by decide
  have hq : jsonQuote "params" = "\"params\"" := by decide
  simp only [jsonMarshal, hp, ha, he, hq, List.nil_append, List.singleton_append]
  rfl

theorem New_of_key (config : Config) (h : config.APIKey ≠ "") :
    New config =
      some ⟨some
          { apiKey := config.APIKey, feed := config.Feed, market := config.Market,
            ctxDone := false, conn := none, rQueue := [],
            wQueue := ["\x7b\"action\":\"auth\",\"params\":" ++ jsonQuote config.APIKey ++ "\x7d"],
            log := match config.Log with
              | none => Logger.nop
              | some l => l },
        none,
        [.enqueue ("\x7b\"action\":\"auth\",\"params\":" ++ jsonQuote config.APIKey ++ "\x7d")]⟩ := by
  simp [New, h, authenticate, jsonMarshal_auth config.APIKey h, chanSend, wQueueCap]

theorem authFrame_injective (a b : String)
    (h : "\x7b\"action\":\"auth\",\"params\":" ++ jsonQuote a ++ "\x7d" =
      "\x7b\"action\":\"auth\",\"params\":" ++ jsonQuote b ++ "\x7d") : a = b := by
  apply jsonQuote_injective
  have h1 := congrArg String.data h
  simp only [String.data_append] at h1
  exact String.ext (List.append_cancel_left (List.append_cancel_right h1))

theorem Close_of_conn_none (werr : Option Error) (c : Client) (h : c.conn = none) :
    Close werr c = ⟨none, c, []⟩ := by
  simp [Close, h]

theorem New_client_conn (config : Config) (r : NewResult) (c : Client)
    (h : New config = some r) (hc : r.client = some c) : c.conn = none := by
  unfold New at h
  split at h
  · simp at h
    subst h
    simp at hc
  · simp only [authenticate, jsonMarshal, chanSend, wQueueCap] at h
    simp at h
    subst h
    simp at hc
    subst hc
    rfl

theorem Connect_err_client (net : Net) (c : Client) (h : (Connect net c).val ≠ none) :
    (Connect net c).client = c := by
  by_cases hc : c.conn = none
  · cases hd : net.dial ("wss://" ++ c.feed ++ ".polygon.io/" ++ c.market) with
    | fail err => simp [Connect, hc, hd]
    | ok conn code =>
      by_cases h101 : code = 101
      · cases hs : net.setReadDeadline with
        | some err => simp [Connect, hc, hd, h101, hs]
        | none => simp [Connect, hc, hd, h101, hs] at h
      · simp [Connect, hc, hd, h101]
  · simp [Connect, hc]

theorem Close_conn (werr : Option Error) (c : Client) :
    (Close werr c).client.conn = c.conn := by
  unfold Close
  cases hc : c.conn with
  | none => simp [hc]
  | some x => cases werr <;> simp [hc]

theorem Close_count (werr : Option Error) (c : Client) (h : c.conn ≠ none) :
    closeCount (Close werr c).effects = 1 ∧ closeFrames (Close werr c).effects = 1 := by
  unfold Close
  cases hc : c.conn with
  | none => exact absurd hc h
  | some x => cases werr <;> simp [closeCount, closeFrames]

theorem handleStatus_conn (j : Json) (werr : Option Error) (c : Client) (msg : RawMessage) :
    (handleStatus j werr c msg).1.conn = c.conn := by
  unfold handleStatus
  split
  · rfl
  · split_ifs <;> first | rfl | exact Close_conn werr c

theorem handleStatus_count (j : Json) (werr : Option Error) (c : Client) (msg : RawMessage)
    (h : c.conn ≠ none) (hev : j.unmarshalEventType msg = .ok "status") :
    closeCount (handleStatus j werr c msg).2 = (if isAuthFailed j msg then 1 else 0) ∧
    closeFrames (handleStatus j werr c msg).2 = (if isAuthFailed j msg then 1 else 0) := by
  unfold handleStatus isAuthFailed
  rw [hev]
  cases hcm : j.unmarshalControl msg with
  | error e => simp [closeCount, closeFrames]
  | ok cm =>
    have hC := Close_count werr c h
    simp only [closeCount, closeFrames] at hC
    by_cases h1 : cm.Status = "auth_failed"
    · simp [h1, closeCount, closeFrames, hC]
    · simp only [h1, if_false, closeCount, closeFrames, Bool.and_false, decide_False]
      by_cases h2 : cm.Status = "connected" <;> by_cases h3 : cm.Status = "auth_success" <;>
        by_cases h4 : cm.Status = "success" <;> simp [h2, h3, h4]

theorem route_conn (j : Json) (msgs : List RawMessage) :
    ∀ (werr : Nat → Option Error) (c : Client), (route j werr c msgs).1.conn = c.conn := by
  induction msgs with
  | nil => intro werr c; rfl
  | cons msg rest ih =>
    intro werr c
    unfold route
    split
    · rfl
    · split_ifs
      · simp only [ih, handleStatus_conn]
      · simp only [ih]

theorem route_count (j : Json) (msgs : List RawMessage) :
    ∀ (werr : Nat → Option Error) (c : Client), c.conn ≠ none →
      closeCount (route j werr c msgs).2 = (reached j msgs).countP (isAuthFailed j) ∧
      closeFrames (route j werr c msgs).2 = (reached j msgs).countP (isAuthFailed j) := by
  induction msgs with
  | nil => intro werr c _; simp [route, reached, closeCount, closeFrames]
  | cons msg rest ih =>
    intro werr c hc
    unfold route
    cases hev : j.unmarshalEventType msg with
    | error e => simp [reached, hasEventType, hev, closeCount, closeFrames]
    | ok ev =>
      have hr : reached j (msg :: rest) = msg :: reached j rest := by
        simp [reached, hasEventType, hev]
      by_cases hs : ev = "status"
      · subst hs
        have h1 := handleStatus_count j (werr 0) c msg hc hev
        have hc1 : (handleStatus j (werr 0) c msg).1.conn ≠ none := by
          rw [handleStatus_conn]; exact hc
        have h2 := ih (fun i => werr (i + 1)) _ hc1
        simp only [closeCount, closeFrames] at h1 h2 ⊢
        simp only [if_true, hr, List.count_append, h1.1, h1.2, h2.1, h2.2, List.countP_cons]
        constructor <;> split_ifs <;> omega
      · have h2 := ih (fun i => werr (i + 1)) c hc
        have hna : isAuthFailed j msg = false := by
          simp [isAuthFailed, hev, hs]
          cases j.unmarshalControl msg <;> simp [hs]
        simp only [closeCount, closeFrames] at h2 ⊢
        simp [hs, hr, hna, h2.1, h2.2, List.countP_cons]

theorem Close_ctxDone (werr : Option Error) (c : Client) (h : c.ctxDone = true) :
    (Close werr c).client.ctxDone = true := by
  unfold Close
  cases hc : c.conn with
  | none => simpa [hc] using h
  | some x => cases werr <;> simp [hc]

theorem Close_rQueue (werr : Option Error) (c : Client) :
    (Close werr c).client.rQueue = c.rQueue := by
  unfold Close
  cases hc : c.conn with
  | none => simp [hc]
  | some x => cases werr <;> simp [hc]

theorem handleStatus_ctxDone (j : Json) (werr : Option Error) (c : Client) (msg : RawMessage)
    (h : c.ctxDone = true) : (handleStatus j werr c msg).1.ctxDone = true := by
  unfold handleStatus
  split
  · exact h
  · split_ifs <;> first | exact h | exact Close_ctxDone werr c h

theorem handleStatus_rQueue (j : Json) (werr : Option Error) (c : Client) (msg : RawMessage) :
    (handleStatus j werr c msg).1.rQueue = c.rQueue := by
  unfold handleStatus
  split
  · rfl
  · split_ifs <;> first | rfl | exact Close_rQueue werr c

theorem route_ctxDone (j : Json) (msgs : List RawMessage) :
    ∀ (werr : Nat → Option Error) (c : Client), c.ctxDone = true →
      (route j werr c msgs).1.ctxDone = true := by
  induction msgs with
  | nil => intro werr c h; exact h
  | cons msg rest ih =>
    intro werr c h
    unfold route
    split
    · exact h
    · split_ifs
      · exact ih _ _ (handleStatus_ctxDone j _ c msg h)
      · exact ih _ _ h

theorem route_rQueue (j : Json) (msgs : List RawMessage) :
    ∀ (werr : Nat → Option Error) (c : Client), (route j werr c msgs).1.rQueue = c.rQueue := by
  induction msgs with
  | nil => intro werr c; rfl
  | cons msg rest ih =>
    intro werr c
    unfold route
    split
    · rfl
    · split_ifs
      · simp only [ih, handleStatus_rQueue]
      · simp only [ih]

theorem goSelect_singleton {α : Type} (a : α) (pick : Nat) : goSelect [a] pick = some a := by
  simp [goSelect, Nat.mod_one]

theorem goSelect_nil {α : Type} (pick : Nat) : goSelect ([] : List α) pick = none := by
  simp [goSelect]

/-- The Processor's iteration when cancellation has not been signaled: it
waits on an empty queue and otherwise receives the oldest frame. -/
theorem processIter_live (j : Json) (env : ProcessEnv) (c : Client) (h : c.ctxDone = false) :
    processIter j env c =
      match c.rQueue with
      | [] => ⟨.wait, c, [], none, none⟩
      | data :: q =>
        match j.unmarshalBatch data with
        | .error err =>
          ⟨.next, { c with rQueue := q },
            [.log .error ("failed to process raw messages: " ++ err)], some data, none⟩
        | .ok msgs =>
          ⟨.next, (route j env.closeErr { c with rQueue := q } msgs).1,
            (route j env.closeErr { c with rQueue := q } msgs).2, some data, some msgs⟩ := by
  unfold processIter processReady
  cases hq : c.rQueue with
  | nil => simp [h, goSelect_nil]
  | cons data q => simp [h, goSelect_singleton]

theorem processIter_ctxDone (j : Json) (env : ProcessEnv) (c : Client) (h : c.ctxDone = true) :
    (processIter j env c).client.ctxDone = true := by
  unfold processIter
  split
  · exact h
  · exact h
  · split
    · exact h
    · split
      · exact h
      · exact route_ctxDone j _ _ _ h

theorem process_cons (j : Json) (env : ProcessEnv) (envs : List ProcessEnv) (c : Client)
    (h : (processIter j env (env.enter c)).step ≠ .exit) :
    process j (env :: envs) c =
      ⟨(process j envs (processIter j env (env.enter c)).client).status,
        (process j envs (processIter j env (env.enter c)).client).client,
        (processIter j env (env.enter c)).effects ++
          (process j envs (processIter j env (env.enter c)).client).effects,
        (processIter j env (env.enter c)).received.toList ++
          (process j envs (processIter j env (env.enter c)).client).received,
        (processIter j env (env.enter c)).routed.toList ++
          (process j envs (processIter j env (env.enter c)).client).routed⟩ := by
  rw [process]
  split
  · rename_i he
    exact absurd he h
  · rfl

theorem process_cons_exit (j : Json) (env : ProcessEnv) (envs : List ProcessEnv) (c : Client)
    (h : (processIter j env (env.enter c)).step = .exit) :
    process j (env :: envs) c =
      ⟨.returned, (processIter j env (env.enter c)).client,
        (processIter j env (env.enter c)).effects ++ [.log .debug "closing process thread"],
        (processIter j env (env.enter c)).received.toList,
        (processIter j env (env.enter c)).routed.toList⟩ := by
  rw [process]
  split
  · rfl
  · rename_i he
    exact absurd h (he · )

theorem process_ctxDone (j : Json) (envs : List ProcessEnv) :
    ∀ c : Client, c.ctxDone = true → (process j envs c).client.ctxDone = true := by
  induction envs with
  | nil => intro c h; exact h
  | cons env envs ih =>
    intro c h
    have h0 : (processIter j env (env.enter c)).client.ctxDone = true :=
      processIter_ctxDone j env _ (by simp [ProcessEnv.enter, h])
    by_cases he : (processIter j env (env.enter c)).step = .exit
    · rw [process_cons_exit j env envs c he]
      exact h0
    · rw [process_cons j env envs c he]
      exact ih _ h0

theorem process_start_live (j : Json) (env : ProcessEnv) (envs : List ProcessEnv) (c : Client)
    (h : (process j (env :: envs) c).client.ctxDone = false) :
    (env.enter c).ctxDone = false := by
  cases h1 : (env.enter c).ctxDone with
  | false => rfl
  | true =>
    have h0 := processIter_ctxDone j env _ h1
    by_cases he : (processIter j env (env.enter c)).step = .exit
    · rw [process_cons_exit j env envs c he] at h
      simp [h0] at h
    · rw [process_cons j env envs c he] at h
      simp [process_ctxDone j envs _ h0] at h

theorem arrivedAll_cons (env : ProcessEnv) (envs : List ProcessEnv) (c : Client) :
    arrivedAll (env :: envs) c = arrivedAll envs (env.enter c) := by
  simp [arrivedAll, ProcessEnv.enter, List.append_assoc]

theorem arrivedAll_of_rQueue (envs : List ProcessEnv) (c c1 : Client) (data : Frame)
    (h : c.rQueue = data :: c1.rQueue) :
    arrivedAll envs c = data :: arrivedAll envs c1 := by
  simp [arrivedAll, h]

theorem process_live (j : Json) (envs : List ProcessEnv) :
    ∀ c : Client, (process j envs c).client.ctxDone = false →
      (process j envs c).status = .running ∧
      (process j envs c).received ++ (process j envs c).client.rQueue = arrivedAll envs c ∧
      (process j envs c).routed = (process j envs c).received.filterMap (decoded j) := by
  induction envs with
  | nil => intro c _; simp [process, arrivedAll]
  | cons env envs ih =>
    intro c h
    have h1 := process_start_live j env envs c h
    have hit := processIter_live j env (env.enter c) h1
    rw [arrivedAll_cons]
    cases hq : (env.enter c).rQueue with
    | nil =>
      rw [hq] at hit
      simp only [] at hit
      have hs : (processIter j env (env.enter c)).step ≠ .exit := by rw [hit]; simp
      rw [process_cons j env envs c hs] at h ⊢
      rw [hit] at h ⊢
      simp only [] at h ⊢
      simpa using ih _ h
    | cons data q =>
      rw [hq] at hit
      simp only [] at hit
      cases hd : j.unmarshalBatch data with
      | error err =>
        rw [hd] at hit
        simp only [] at hit
        have hs : (processIter j env (env.enter c)).step ≠ .exit := by rw [hit]; simp
        rw [process_cons j env envs c hs] at h ⊢
        rw [hit] at h ⊢
        simp only [] at h ⊢
        obtain ⟨i1, i2, i3⟩ := ih _ h
        have ha := arrivedAll_of_rQueue envs (env.enter c) { env.enter c with rQueue := q } data hq
        refine ⟨i1, ?_, ?_⟩
        · rw [ha, ← i2]; rfl
        · simp [i3, decoded, hd]
      | ok msgs =>
        rw [hd] at hit
        simp only [] at hit
        have hs : (processIter j env (env.enter c)).step ≠ .exit := by rw [hit]; simp
        rw [process_cons j env envs c hs] at h ⊢
        rw [hit] at h ⊢
        simp only [] at h ⊢
        obtain ⟨i1, i2, i3⟩ := ih _ h
        have ha := arrivedAll_of_rQueue envs (env.enter c)
          (route j env.closeErr { env.enter c with rQueue := q } msgs).1 data
          (by rw [route_rQueue]; exact hq)
        refine ⟨i1, ?_, ?_⟩
        · rw [ha, ← i2]; rfl
        · simp [i3, decoded, hd]

theorem process_received_length (j : Json) (envs : List ProcessEnv) :
    ∀ c : Client, (process j envs c).client.ctxDone = false →
      (∀ env ∈ envs, env.arrived = []) →
      (process j envs c).received.length = min c.rQueue.length envs.length := by
  induction envs with
  | nil => intro c _ _; simp [process]
  | cons env envs ih =>
    intro c h harr
    have h1 := process_start_live j env envs c h
    have hit := processIter_live j env (env.enter c) h1
    have he : (env.enter c).rQueue = c.rQueue := by
      simp [ProcessEnv.enter, harr env (List.mem_cons_self _ _)]
    have harr1 : ∀ e ∈ envs, e.arrived = [] := fun e he1 => harr e (List.mem_cons_of_mem _ he1)
    cases hq : (env.enter c).rQueue with
    | nil =>
      rw [hq] at hit
      simp only [] at hit
      have hs : (processIter j env (env.enter c)).step ≠ .exit := by rw [hit]; simp
      rw [process_cons j env envs c hs] at h ⊢
      rw [hit] at h ⊢
      simp only [] at h ⊢
      have := ih _ h harr1
      rw [hq] at this he
      simp [this, ← he]
    | cons data q =>
      rw [hq] at hit
      simp only [] at hit
      cases hd : j.unmarshalBatch data with
      | error err =>
        rw [hd] at hit
        simp only [] at hit
        have hs : (processIter j env (env.enter c)).step ≠ .exit := by rw [hit]; simp
        rw [process_cons j env envs c hs] at h ⊢
        rw [hit] at h ⊢
        simp only [] at h ⊢
        have := ih _ h harr1
        simp only [] at this
        rw [← he, hq]
        simp [this, Nat.succ_min_succ, Nat.add_comm]
      | ok msgs =>
        rw [hd] at hit
        simp only [] at hit
        have hs : (processIter j env (env.enter c)).step ≠ .exit := by rw [hit]; simp
        rw [process_cons j env envs c hs] at h ⊢
        rw [hit] at h ⊢
        simp only [] at h ⊢
        have := ih _ h harr1
        rw [route_rQueue] at this
        simp only [] at this
        rw [← he, hq]
        simp [this, Nat.succ_min_succ, Nat.add_comm]

theorem written_append (a b : List Effect) : written (a ++ b) = written a ++ written b := by
  simp [written, List.filterMap_append]

theorem enqueued_cons (env : WriteEnv) (envs : List WriteEnv) (c : Client) :
    enqueued (env :: envs) c = enqueued envs (env.enter c) := by
  simp [enqueued, WriteEnv.enter, List.append_assoc]

theorem enqueued_of_wQueue (envs : List WriteEnv) (c c1 : Client) (msg : Frame)
    (h : c.wQueue = msg :: c1.wQueue) : enqueued envs c = msg :: enqueued envs c1 := by
  simp [enqueued, h]

theorem write_cons (env : WriteEnv) (envs : List WriteEnv) (c : Client)
    (h : (writeIter env (env.enter c)).step ≠ .exit) :
    write (env :: envs) c =
      ⟨(write envs (writeIter env (env.enter c)).client).status,
        (write envs (writeIter env (env.enter c)).client).client,
        (writeIter env (env.enter c)).effects ++
          (write envs (writeIter env (env.enter c)).client).effects⟩ := by
  rw [write]
  split
  · rename_i he
    exact absurd he h
  · rfl

theorem write_cons_exit (env : WriteEnv) (envs : List WriteEnv) (c : Client)
    (h : (writeIter env (env.enter c)).step = .exit) :
    write (env :: envs) c =
      ⟨.returned, (writeIter env (env.enter c)).client,
        (writeIter env (env.enter c)).effects ++
          [.log .debug "closing write thread", .tickerStop, .connClose]⟩ := by
  rw [write]
  split
  · rfl
  · rename_i he
    exact absurd h (he ·)

/-- One iteration of the Writer either leaves the queue alone and writes no
text frame, or takes the oldest frame off the queue and writes at most that
frame. -/
theorem writeIter_cases (env : WriteEnv) (c : Client) :
    ((writeIter env c).client = c ∧ written (writeIter env c).effects = []) ∨
    ∃ msg q, c.wQueue = msg :: q ∧ (writeIter env c).client = { c with wQueue := q } ∧
      (written (writeIter env c).effects = [msg] ∨
        (written (writeIter env c).effects = [] ∧ (writeIter env c).step = .exit)) := by
  unfold writeIter
  split
  · left; exact ⟨rfl, rfl⟩
  · left; exact ⟨rfl, rfl⟩
  · left; split <;> exact ⟨rfl, rfl⟩
  · cases hq : c.wQueue with
    | nil => left; exact ⟨rfl, rfl⟩
    | cons msg q =>
      right
      refine ⟨msg, q, rfl, ?_⟩
      cases env.deadlineErr with
      | some e => exact ⟨rfl, Or.inr ⟨rfl, rfl⟩⟩
      | none =>
        cases env.writeErr with
        | some e => exact ⟨rfl, Or.inl rfl⟩
        | none => exact ⟨rfl, Or.inl rfl⟩

theorem write_written_front (envs : List WriteEnv) :
    ∀ c : Client, written (write envs c).effects <+: enqueued envs c := by
  induction envs with
  | nil => intro c; simp [write, written]
  | cons env envs ih =>
    intro c
    rw [enqueued_cons]
    by_cases he : (writeIter env (env.enter c)).step = .exit
    · rw [write_cons_exit env envs c he]
      simp only [written_append]
      have hd : written [Effect.log Level.debug "closing write thread", Effect.tickerStop,
          Effect.connClose] = [] := rfl
      rw [hd, List.append_nil]
      rcases writeIter_cases env (env.enter c) with ⟨_, hw⟩ | ⟨msg, q, hq, _, hw | ⟨hw, _⟩⟩
      · rw [hw]; exact List.nil_prefix
      · rw [hw]
        simp [enqueued, hq]
      · rw [hw]; exact List.nil_prefix
    · rw [write_cons env envs c he]
      simp only [written_append]
      rcases writeIter_cases env (env.enter c) with ⟨hc, hw⟩ | ⟨msg, q, hq, hc, hw | ⟨_, hx⟩⟩
      · rw [hw, hc, List.nil_append]
        exact ih _
      · rw [hw, hc, enqueued_of_wQueue envs (env.enter c) { env.enter c with wQueue := q } msg hq]
        simpa using ih { env.enter c with wQueue := q }
      · exact absurd hx he

theorem goSelect_mem {α : Type} (ready : List α) (pick : Nat) (a : α)
    (h : goSelect ready pick = some a) : a ∈ ready := by
  unfold goSelect at h
  exact List.getElem?_mem h

theorem writeIter_quiet (env : WriteEnv) (c : Client) (hc : c.ctxDone = false)
    (hp : env.pingErr = none) (hd : env.deadlineErr = none) (hw : env.writeErr = none) :
    ((writeIter env c).step ≠ .exit ∧ (writeIter env c).client = c ∧
      written (writeIter env c).effects = []) ∨
    ∃ msg q, c.wQueue = msg :: q ∧ (writeIter env c).step = .next ∧
      (writeIter env c).client = { c with wQueue := q } ∧
      written (writeIter env c).effects = [msg] := by
  unfold writeIter
  cases hs : goSelect (writeReady c env.tick) env.pick with
  | none => left; exact ⟨by simp, rfl, rfl⟩
  | some x =>
    cases x with
    | done =>
      have := goSelect_mem _ _ _ hs
      simp [writeReady, hc] at this
    | tick => left; simp [hp, written]
    | msg =>
      cases hq : c.wQueue with
      | nil => left; simp [written]
      | cons msg q => right; exact ⟨msg, q, rfl, by simp [hd, hw, written]⟩

theorem write_quiet (envs : List WriteEnv) :
    ∀ c : Client, c.ctxDone = false → (∀ env ∈ envs, env.quiet) →
      (write envs c).status = .running ∧
      written (write envs c).effects ++ (write envs c).client.wQueue = enqueued envs c := by
  induction envs with
  | nil => intro c _ _; simp [write, written, enqueued]
  | cons env envs ih =>
    intro c hc hq
    obtain ⟨q1, q2, q3, q4⟩ := hq env (List.mem_cons_self _ _)
    have hq' : ∀ e ∈ envs, e.quiet := fun e he => hq e (List.mem_cons_of_mem _ he)
    have hc0 : (env.enter c).ctxDone = false := by simp [WriteEnv.enter, hc, q1]
    rw [enqueued_cons]
    rcases writeIter_quiet env (env.enter c) hc0 q2 q3 q4 with
      ⟨hs, hcl, hw⟩ | ⟨msg, q, hwq, hs, hcl, hw⟩
    · rw [write_cons env envs c hs]
      simp only [written_append, hw, hcl, List.nil_append]
      exact ih _ hc0 hq'
    · have hs' : (writeIter env (env.enter c)).step ≠ .exit := by rw [hs]; simp
      rw [write_cons env envs c hs']
      simp only [written_append, hw, hcl]
      have := ih { env.enter c with wQueue := q } hc0 hq'
      rw [enqueued_of_wQueue envs (env.enter c) { env.enter c with wQueue := q } msg hwq]
      simpa using this

theorem write_drain_length (envs : List WriteEnv) :
    ∀ c : Client, c.ctxDone = false → (∀ env ∈ envs, env.quiet) →
      (∀ env ∈ envs, env.tick = false ∧ env.arrived = []) →
      (written (write envs c).effects).length = min c.wQueue.length envs.length := by
  induction envs with
  | nil => intro c _ _ _; simp [write, written]
  | cons env envs ih =>
    intro c hc hq ht
    obtain ⟨q1, q2, q3, q4⟩ := hq env (List.mem_cons_self _ _)
    obtain ⟨t1, t2⟩ := ht env (List.mem_cons_self _ _)
    have hq' : ∀ e ∈ envs, e.quiet := fun e he => hq e (List.mem_cons_of_mem _ he)
    have ht' : ∀ e ∈ envs, e.tick = false ∧ e.arrived = [] :=
      fun e he => ht e (List.mem_cons_of_mem _ he)
    have hc0 : (env.enter c).ctxDone = false := by simp [WriteEnv.enter, hc, q1]
    have he : (env.enter c).wQueue = c.wQueue := by simp [WriteEnv.enter, t2]
    cases hwq : c.wQueue with
    | nil =>
      have hit : writeIter env (env.enter c) = ⟨.wait, env.enter c, []⟩ := by
        simp [writeIter, writeReady, hc0, t1, he, hwq, goSelect_nil]
      have hs : (writeIter env (env.enter c)).step ≠ .exit := by rw [hit]; simp
      rw [write_cons env envs c hs, hit]
      simp only [List.nil_append]
      rw [ih _ hc0 hq' ht', he, hwq]
      simp
    | cons msg q =>
      have hit : writeIter env (env.enter c) =
          ⟨.next, { env.enter c with wQueue := q }, [.setWriteDeadline, .writeMessage msg]⟩ := by
        simp [writeIter, writeReady, hc0, t1, he, hwq, goSelect_singleton, q3, q4]
      have hs : (writeIter env (env.enter c)).step ≠ .exit := by rw [hit]; simp
      rw [write_cons env envs c hs, hit]
      simp only [written_append]
      have := ih { env.enter c with wQueue := q } hc0 hq' ht'
      simp only [] at this
      rw [List.length_append, this]
      simp [written, Nat.succ_min_succ, Nat.add_comm]

theorem routeAll_conn (j : Json) (batches : List (List RawMessage)) :
    ∀ (werr : Nat → Nat → Option Error) (c : Client),
      (routeAll j werr c batches).1.conn = c.conn := by
  induction batches with
  | nil => intro werr c; rfl
  | cons b rest ih =>
    intro werr c
    simp only [routeAll, ih, route_conn]

theorem routeAll_count (j : Json) (batches : List (List RawMessage)) :
    ∀ (werr : Nat → Nat → Option Error) (c : Client), c.conn ≠ none →
      closeCount (routeAll j werr c batches).2 =
          (batches.map fun b => (reached j b).countP (isAuthFailed j)).sum ∧
      closeFrames (routeAll j werr c batches).2 =
          (batches.map fun b => (reached j b).countP (isAuthFailed j)).sum := by
  induction batches with
  | nil => intro werr c _; simp [routeAll, closeCount, closeFrames]
  | cons b rest ih =>
    intro werr c hc
    have h1 := route_count j b (werr 0) c hc
    have hc1 : (route j (werr 0) c b).1.conn ≠ none := by
      rw [route_conn]; exact hc
    have h2 := ih (fun k => werr (k + 1)) _ hc1
    simp only [closeCount, closeFrames] at h1 h2 ⊢
    simp only [routeAll, List.count_append, h1.1, h1.2, h2.1, h2.2, List.map_cons,
      List.sum_cons, and_self]

theorem countP_of_dropLast {α : Type} (p : α → Bool) (l : List α)
    (h : ∀ m ∈ l.dropLast, p m = false) :
    l.countP p = if l.any p then 1 else 0 := by
  rcases List.eq_nil_or_concat l with rfl | ⟨l1, a, rfl⟩
  · simp
  · have h0 : ∀ m ∈ l1, p m = false := by
      intro m hm
      apply h
      simpa using hm
    have hc : l1.countP p = 0 := by
      rw [List.countP_eq_zero]
      intro m hm
      simp [h0 m hm]
    have ha : l1.any p = false := by
      rw [List.any_eq_false]
      intro m hm
      simp [h0 m hm]
    rw [List.concat_eq_append, List.countP_append, hc, List.any_append, ha]
    cases hp : p a <;> simp [hp]

theorem mem_dropLast_of_reached (j : Json) (b : List RawMessage) (m : RawMessage)
    (h : m ∈ (reached j b).dropLast) : m ∈ b.dropLast := by
  have hb : b = reached j b ++ b.dropWhile (hasEventType j) :=
    (List.takeWhile_append_dropWhile (hasEventType j) b).symm
  by_cases hd : b.dropWhile (hasEventType j) = []
  · rw [hd, List.append_nil] at hb
    rw [hb]
    exact h
  · rw [hb, List.dropLast_append_of_ne_nil _ hd]
    exact List.mem_append_left _ (List.mem_of_mem_dropLast h)

theorem goSelect_isSome {α : Type} (ready : List α) (pick : Nat) (h : ready ≠ []) :
    goSelect ready pick ≠ none := by
  unfold goSelect
  have hl : 0 < ready.length := List.length_pos.mpr h
  have : pick % ready.length < ready.length := Nat.mod_lt _ hl
  simp [List.getElem?_eq_none_iff]
  exact this

theorem writeIter_cancelled (env : WriteEnv) (c : Client) (h : c.ctxDone = true) :
    (writeIter env c).step = .exit ∨
    writeIter env c = ⟨.next, c, [.writeControl .ping]⟩ ∨
    ∃ msg q, c.wQueue = msg :: q ∧
      writeIter env c = ⟨.next, { c with wQueue := q }, [.setWriteDeadline, .writeMessage msg]⟩ := by
  unfold writeIter
  cases hs : goSelect (writeReady c env.tick) env.pick with
  | none =>
    exact absurd hs (goSelect_isSome _ _ (by simp [writeReady, h]))
  | some x =>
    cases x with
    | done => left; rfl
    | tick =>
      cases env.pingErr with
      | some e => left; rfl
      | none => right; left; rfl
    | msg =>
      cases hq : c.wQueue with
      | nil =>
        have := goSelect_mem _ _ _ hs
        simp [writeReady, h, hq] at this
      | cons msg q =>
        cases env.deadlineErr with
        | some e => left; rfl
        | none =>
          cases env.writeErr with
          | some e => left; rfl
          | none => right; right; exact ⟨msg, q, rfl, rfl⟩

theorem processIter_cancelled (j : Json) (env : ProcessEnv) (c : Client)
    (h : c.ctxDone = true) :
    (processIter j env c).step = .exit ∨
    ∃ data q, c.rQueue = data :: q ∧ (processIter j env c).step = .next ∧
      (processIter j env c).received = some data := by
  unfold processIter
  cases hs : goSelect (processReady c) env.pick with
  | none =>
    exact absurd hs (goSelect_isSome _ _ (by simp [processReady, h]))
  | some x =>
    cases x with
    | done => left; rfl
    | recv =>
      cases hq : c.rQueue with
      | nil =>
        have := goSelect_mem _ _ _ hs
        simp [processReady, h, hq] at this
      | cons data q =>
        right
        refine ⟨data, q, rfl, ?_⟩
        cases hd : j.unmarshalBatch data <;> simp [hd]

theorem Connect_connected (net : Net) (c : Client) (x : Conn) (h : c.conn = some x) :
    Connect net c = ⟨none, c, []⟩ := by
  simp [Connect, h]

theorem Connect_conn_of_some (net : Net) (c : Client) (x : Conn) (h : c.conn = some x) :
    (Connect net c).client.conn = some x := by
  rw [Connect_connected net c x h]; exact h

theorem Close_effects_noDial (werr : Option Error) (c : Client) :
    ∀ e ∈ (Close werr c).effects, e.isDialOrSpawn = false := by
  unfold Close
  cases c.conn with
  | none => simp
  | some x => cases werr <;> simp [Effect.isDialOrSpawn]

theorem runCalls_connected (calls : List Call) :
    ∀ (c : Client) (x : Conn), c.conn = some x →
      (runCalls calls c).client.conn = some x ∧
      (runCalls calls c).stored = [] ∧
      (∀ e ∈ (runCalls calls c).effects, e.isDialOrSpawn = false) := by
  induction calls with
  | nil => intro c x h; simp [runCalls, h]
  | cons call rest ih =>
    intro c x h
    cases call with
    | connect net =>
      have hC := Connect_connected net c x h
      obtain ⟨i1, i2, i3⟩ := ih c x h
      simp only [runCalls, hC]
      refine ⟨i1, by simp [i2], ?_⟩
      simpa using i3
    | close werr =>
      have hc : (Close werr c).client.conn = some x := by rw [Close_conn]; exact h
      obtain ⟨i1, i2, i3⟩ := ih _ x hc
      simp only [runCalls]
      refine ⟨i1, by simp [i2, Close_conn], ?_⟩
      intro e he
      rcases List.mem_append.mp he with h1 | h1
      · exact Close_effects_noDial werr c e h1
      · exact i3 e h1

theorem runCalls_append (a b : List Call) :
    ∀ c : Client, (runCalls (a ++ b) c).client = (runCalls b (runCalls a c).client).client := by
  induction a with
  | nil => intro c; rfl
  | cons call rest ih =>
    intro c
    cases call with
    | connect net => exact ih _
    | close werr => exact ih _

theorem runCalls_stored_le (calls : List Call) :
    ∀ c : Client, (runCalls calls c).stored.length ≤ 1 := by
  induction calls with
  | nil => intro c; simp [runCalls]
  | cons call rest ih =>
    intro c
    cases call with
    | connect net =>
      simp only [runCalls]
      by_cases hs : (Connect net c).client.conn = c.conn
      · simp only [hs, if_true, List.nil_append]
        exact ih _
      · cases hx : (Connect net c).client.conn with
        | none => simp [hx, hs] at *; simpa [hx] using ih (Connect net c).client
        | some x =>
          have := (runCalls_connected rest _ x hx).2.1
          rw [this]
          split_ifs <;> simp
    | close werr =>
      simp only [runCalls, Close_conn, if_true, List.nil_append]
      exact ih _

theorem Close_effects_of_conn (werr : Option Error) (c c0 : Client) (h : c.conn = c0.conn) :
    (Close werr c).effects = (Close werr c0).effects := by
  unfold Close
  rw [h]
  cases c0.conn with
  | none => rfl
  | some x => cases werr <;> rfl

theorem handleStatus_effects_of_conn (j : Json) (werr : Option Error) (c c0 : Client)
    (msg : RawMessage) (h : c.conn = c0.conn) :
    (handleStatus j werr c msg).2 = (handleStatus j werr c0 msg).2 := by
  unfold handleStatus
  cases j.unmarshalControl msg with
  | error e => rfl
  | ok cm =>
    simp only []
    split_ifs <;> first | rfl | simp only [Close_effects_of_conn werr c c0 h]

theorem route_effects_of_conn (j : Json) (msgs : List RawMessage) :
    ∀ (werr : Nat → Option Error) (c c0 : Client), c.conn = c0.conn →
      (route j werr c msgs).2 = (route j werr c0 msgs).2 := by
  induction msgs with
  | nil => intro werr c c0 _; rfl
  | cons m rest ih =>
    intro werr c c0 hc
    cases hev : j.unmarshalEventType m with
    | error e => simp [route, hev]
    | ok ev =>
      by_cases hs : ev = "status"
      · simp only [route, hev, hs, if_true]
        rw [handleStatus_effects_of_conn j (werr 0) c c0 m hc,
          ih _ (handleStatus j (werr 0) c m).1 (handleStatus j (werr 0) c0 m).1
            (by rw [handleStatus_conn, handleStatus_conn]; exact hc)]
      · simp only [route, hev, hs, if_false]
        rw [ih _ c c0 hc]

theorem Close_live_conn (werr : Option Error) (c : Client)
    (h : (Close werr c).client.ctxDone = false) : c.conn = none := by
  unfold Close at h
  cases hc : c.conn with
  | none => rfl
  | some x =>
    rw [hc] at h
    cases werr <;> simp at h

theorem handleStatus_live (j : Json) (werr : Option Error) (c : Client) (msg : RawMessage)
    (h : (handleStatus j werr c msg).1.ctxDone = false) :
    handleStatus j werr c msg = handleStatus j none c msg ∧
      (handleStatus j werr c msg).1 = c := by
  unfold handleStatus at h ⊢
  cases hcm : j.unmarshalControl msg with
  | error e => exact ⟨rfl, rfl⟩
  | ok cm =>
    rw [hcm] at h
    simp only [] at h ⊢
    by_cases h1 : cm.Status = "connected"
    · simp [h1]
    · by_cases h2 : cm.Status = "auth_success"
      · simp [h1, h2]
      · by_cases h3 : cm.Status = "auth_failed"
        · simp only [h1, h2, h3, if_true, if_false] at h ⊢
          have hn := Close_live_conn werr c h
          rw [Close_of_conn_none werr c hn, Close_of_conn_none none c hn]
          exact ⟨rfl, rfl⟩
        · by_cases h4 : cm.Status = "success"
          · simp [h1, h2, h3, h4]
          · simp [h1, h2, h3, h4]

theorem route_live (j : Json) (msgs : List RawMessage) :
    ∀ (werr : Nat → Option Error) (c : Client), (route j werr c msgs).1.ctxDone = false →
      route j werr c msgs = route j (fun _ => none) c msgs ∧ (route j werr c msgs).1 = c := by
  induction msgs with
  | nil => intro werr c _; exact ⟨rfl, rfl⟩
  | cons m rest ih =>
    intro werr c h
    cases hev : j.unmarshalEventType m with
    | error e => simp [route, hev]
    | ok ev =>
      by_cases hs : ev = "status"
      · simp only [route, hev, hs, if_true] at h ⊢
        have h1 : (handleStatus j (werr 0) c m).1.ctxDone = false := by
          cases hx : (handleStatus j (werr 0) c m).1.ctxDone with
          | false => rfl
          | true =>
            rw [route_ctxDone j rest _ _ hx] at h
            exact absurd h (by simp)
        obtain ⟨e1, e2⟩ := handleStatus_live j (werr 0) c m h1
        obtain ⟨i1, i2⟩ := ih _ _ h
        rw [i1, e1] at *
        refine ⟨rfl, ?_⟩
        rw [← e1, i2, e2]
      · simp only [route, hev, hs, if_false] at h ⊢
        obtain ⟨i1, i2⟩ := ih _ _ h
        rw [i1]
        exact ⟨rfl, by rw [← i1, i2]⟩

theorem frameEffects_of_conn (j : Json) (c c0 : Client) (data : Frame)
    (h : c.conn = c0.conn) : frameEffects j c data = frameEffects j c0 data := by
  unfold frameEffects
  cases j.unmarshalBatch data with
  | error e => rfl
  | ok msgs => exact route_effects_of_conn j msgs _ c c0 h

theorem flatMap_frameEffects_of_conn (j : Json) (c c0 : Client) (l : List Frame)
    (h : c.conn = c0.conn) : l.flatMap (frameEffects j c) = l.flatMap (frameEffects j c0) := by
  have : frameEffects j c = frameEffects j c0 :=
    funext fun data => frameEffects_of_conn j c c0 data h
  rw [this]

theorem rQueue_update_trans (c c1 c2 : Client) (h1 : c1 = { c with rQueue := c1.rQueue })
    (h2 : c2 = { c1 with rQueue := c2.rQueue }) : c2 = { c with rQueue := c2.rQueue } := by
  rw [h2, h1]

theorem enter_live_tail (env : ProcessEnv) (c : Client) (q : List Frame)
    (h : (env.enter c).ctxDone = false) :
    ({ env.enter c with rQueue := q } : Client) = { c with rQueue := q } := by
  have h0 : (c.ctxDone || env.cancelNow) = false := h
  have hc : c.ctxDone = false := by
    cases hx : c.ctxDone with
    | false => rfl
    | true => rw [hx] at h0; simp at h0
  have hn : env.cancelNow = false := by
    rw [hc] at h0
    simpa using h0
  simp only [ProcessEnv.enter, hc, hn, Bool.or_false]

theorem enter_live (env : ProcessEnv) (c : Client) (h : (env.enter c).ctxDone = false) :
    env.enter c = { c with rQueue := (env.enter c).rQueue } :=
  enter_live_tail env c (env.enter c).rQueue h

theorem process_live_effects (j : Json) (envs : List ProcessEnv) :
    ∀ c : Client, (process j envs c).client.ctxDone = false →
      (process j envs c).effects = (process j envs c).received.flatMap (frameEffects j c) ∧
      (process j envs c).client = { c with rQueue := (process j envs c).client.rQueue } := by
  induction envs with
  | nil => intro c _; exact ⟨rfl, rfl⟩
  | cons env envs ih =>
    intro c h
    have h1 := process_start_live j env envs c h
    have hit := processIter_live j env (env.enter c) h1
    have hen := enter_live env c h1
    have hconn : (env.enter c).conn = c.conn := rfl
    cases hq : (env.enter c).rQueue with
    | nil =>
      rw [hq] at hit
      simp only [] at hit
      have hs : (processIter j env (env.enter c)).step ≠ .exit := by rw [hit]; simp
      rw [process_cons j env envs c hs] at h ⊢
      rw [hit] at h ⊢
      simp only [] at h ⊢
      obtain ⟨i1, i2⟩ := ih _ h
      refine ⟨?_, rQueue_update_trans c _ _ hen i2⟩
      rw [i1, flatMap_frameEffects_of_conn j (env.enter c) c _ hconn]
      simp
    | cons data q =>
      rw [hq] at hit
      simp only [] at hit
      cases hd : j.unmarshalBatch data with
      | error err =>
        rw [hd] at hit
        simp only [] at hit
        have hs : (processIter j env (env.enter c)).step ≠ .exit := by rw [hit]; simp
        rw [process_cons j env envs c hs] at h ⊢
        rw [hit] at h ⊢
        simp only [] at h ⊢
        obtain ⟨i1, i2⟩ := ih _ h
        have hen1 := enter_live_tail env c q h1
        refine ⟨?_, rQueue_update_trans c _ _ hen1 i2⟩
        rw [i1, flatMap_frameEffects_of_conn j ({ env.enter c with rQueue := q } : Client) c _ rfl]
        simp [frameEffects, hd]
      | ok msgs =>
        rw [hd] at hit
        simp only [] at hit
        have hs : (processIter j env (env.enter c)).step ≠ .exit := by rw [hit]; simp
        rw [process_cons j env envs c hs] at h ⊢
        rw [hit] at h ⊢
        simp only [] at h ⊢
        have hr : (route j env.closeErr { env.enter c with rQueue := q } msgs).1.ctxDone =
            false := by
          cases hx : (route j env.closeErr { env.enter c with rQueue := q } msgs).1.ctxDone with
          | false => rfl
          | true =>
            rw [process_ctxDone j envs _ hx] at h
            exact absurd h (by simp)
        obtain ⟨r1, r2⟩ := route_live j msgs env.closeErr _ hr
        obtain ⟨i1, i2⟩ := ih _ h
        have hen1 := enter_live_tail env c q h1
        have hen2 : (route j env.closeErr { env.enter c with rQueue := q } msgs).1 =
            { c with rQueue :=
              (route j env.closeErr { env.enter c with rQueue := q } msgs).1.rQueue } := by
          rw [r2]; exact hen1
        have hc2 : (route j env.closeErr { env.enter c with rQueue := q } msgs).1.conn =
            c.conn := by rw [route_conn]; rfl
        refine ⟨?_, rQueue_update_trans c _ _ hen2 i2⟩
        rw [i1, flatMap_frameEffects_of_conn j
          (route j env.closeErr { env.enter c with rQueue := q } msgs).1 c _ hc2, r1,
          route_effects_of_conn j msgs _ ({ env.enter c with rQueue := q } : Client) c rfl]
        simp [frameEffects, hd]

/-! ## Claims -/

/-- C1: for a Config with an empty APIKey, `New` returns a nil Client with the
error "API key is required", and performs nothing: no frame is enqueued. -/
theorem C1_new_empty_key (config : Config) (h : config.APIKey = "") :
    New config = some ⟨none, some "API key is required", []⟩ := by
  simp [New, h]

theorem C1_new_empty_key_witness :
    New ⟨"", "delayed", "stocks", none⟩ = some ⟨none, some "API key is required", []⟩ :=
  C1_new_empty_key ⟨"", "delayed", "stocks", none⟩ rfl

/-- C2: for a Config with a non-empty APIKey, `New` returns (never blocking)
a Client and a nil error; the only thing it does is enqueue one frame, and the
Client's outbound queue holds exactly that frame: the JSON encoding of the
control message with action "auth" and params equal to the APIKey, that is
`{"action":"auth","params":<the key as a JSON string>}`. The frame refers to
that key and no other: `New` enqueues the same frame only for the same key. -/
theorem C2_new_enqueues_auth (config : Config) (h : config.APIKey ≠ "") :
    ∃ c b, New config = some ⟨some c, none, [.enqueue b]⟩ ∧
      c.wQueue = [b] ∧
      jsonMarshal { Action := "auth", Params := config.APIKey } = .ok b ∧
      b = "\x7b\"action\":\"auth\",\"params\":" ++ jsonQuote config.APIKey ++ "\x7d" ∧
      c.apiKey = config.APIKey ∧ c.conn = none ∧ c.ctxDone = false ∧ c.rQueue = [] ∧
      ∀ (other : Config) (c1 : Client),
        New other = some ⟨some c1, none, [.enqueue b]⟩ → other.APIKey = config.APIKey := by
  refine ⟨_, _, New_of_key config h, rfl, jsonMarshal_auth _ h, rfl, rfl, rfl, rfl, rfl, ?_⟩
  intro other c1 ho
  by_cases hk : other.APIKey = ""
  · simp [New, hk] at ho
  · rw [New_of_key other hk] at ho
    simp only [Option.some.injEq, NewResult.mk.injEq, List.cons.injEq, Effect.enqueue.injEq,
      and_true, true_and] at ho
    exact authFrame_injective _ _ ho.2

theorem C2_new_enqueues_auth_witness :
    ∃ c b, New ⟨"abc123", "delayed", "stocks", none⟩ = some ⟨some c, none, [.enqueue b]⟩ ∧
      c.wQueue = [b] ∧
      jsonMarshal { Action := "auth", Params := "abc123" } = .ok b ∧
      b = "\x7b\"action\":\"auth\",\"params\":" ++ jsonQuote "abc123" ++ "\x7d" ∧
      c.apiKey = "abc123" ∧ c.conn = none ∧ c.ctxDone = false ∧ c.rQueue = [] ∧
      ∀ (other : Config) (c1 : Client),
        New other = some ⟨some c1, none, [.enqueue b]⟩ → other.APIKey = "abc123" :=
  C2_new_enqueues_auth ⟨"abc123", "delayed", "stocks", none⟩ (by decide)

/-- C3: on a Client that already holds a transport, `Connect` returns nil,
does nothing (no dial, no loop started, no effect at all) and leaves the
Client as it was, whatever the network would have answered. -/
theorem C3_connect_connected_noop (net : Net) (c : Client) (h : c.conn ≠ none) :
    Connect net c = ⟨none, c, []⟩ := by
  simp [Connect, h]

theorem C3_connect_connected_noop_witness :
    Connect ⟨fun _ => .fail "unreachable", none⟩
        ⟨"k", "delayed", "stocks", false, some ⟨1⟩, [], ["x"], .nop⟩ =
      ⟨none, ⟨"k", "delayed", "stocks", false, some ⟨1⟩, [], ["x"], .nop⟩, []⟩ :=
  C3_connect_connected_noop _ _ (by decide)

/-- C4: a Client returned by `New` has no transport, and on it `Close`
returns nil, does nothing (no cancellation, no write, no effect at all) and
leaves the Client as it was; the same holds after any `Connect` on it that
returned an error. -/
theorem C4_close_before_connect (config : Config) (r : NewResult) (c : Client)
    (werr : Option Error) (net : Net)
    (h : New config = some r) (hc : r.client = some c) :
    c.conn = none ∧ Close werr c = ⟨none, c, []⟩ ∧
      ((Connect net c).val ≠ none →
        Close werr (Connect net c).client = ⟨none, (Connect net c).client, []⟩) := by
  have hn := New_client_conn config r c h hc
  refine ⟨hn, Close_of_conn_none werr c hn, fun he => ?_⟩
  rw [Connect_err_client net c he]
  exact Close_of_conn_none werr c hn

theorem C4_close_before_connect_witness :
    (⟨"abc123", "delayed", "stocks", false, none, [],
        ["\x7b\"action\":\"auth\",\"params\":\"abc123\"\x7d"], .nop⟩ : Client).conn = none ∧
      Close (some "write tcp: broken pipe")
          ⟨"abc123", "delayed", "stocks", false, none, [],
            ["\x7b\"action\":\"auth\",\"params\":\"abc123\"\x7d"], .nop⟩ =
        ⟨none, ⟨"abc123", "delayed", "stocks", false, none, [],
            ["\x7b\"action\":\"auth\",\"params\":\"abc123\"\x7d"], .nop⟩, []⟩ ∧
      Close (some "write tcp: broken pipe")
          (Connect ⟨fun _ => .fail "no route to host", none⟩
            ⟨"abc123", "delayed", "stocks", false, none, [],
              ["\x7b\"action\":\"auth\",\"params\":\"abc123\"\x7d"], .nop⟩).client =
        ⟨none, (Connect ⟨fun _ => .fail "no route to host", none⟩
            ⟨"abc123", "delayed", "stocks", false, none, [],
              ["\x7b\"action\":\"auth\",\"params\":\"abc123\"\x7d"], .nop⟩).client, []⟩ :=
  have h := C4_close_before_connect ⟨"abc123", "delayed", "stocks", none⟩
    ⟨some ⟨"abc123", "delayed", "stocks", false, none, [],
        ["\x7b\"action\":\"auth\",\"params\":\"abc123\"\x7d"], .nop⟩, none,
      [.enqueue "\x7b\"action\":\"auth\",\"params\":\"abc123\"\x7d"]⟩
    ⟨"abc123", "delayed", "stocks", false, none, [],
        ["\x7b\"action\":\"auth\",\"params\":\"abc123\"\x7d"], .nop⟩
    (some "write tcp: broken pipe") ⟨fun _ => .fail "no route to host", none⟩
    (by decide) rfl
  ⟨h.1, h.2.1, h.2.2 (by decide)⟩

/-- C5 (amended): on a connected Client, for every sequence of batches in
which an auth_failed status envelope occurs only as the last envelope of its
batch, the Close operation is carried out once for each batch in which
`route` reaches an auth_failed status envelope (every envelope before it in
the batch has a decodable discriminant): as many cancellations and as many
close frames as there are such batches, so exactly one when there is exactly
one such batch. -/
theorem C5_close_per_auth_failed_batch (j : Json) (werr : Nat → Nat → Option Error)
    (c : Client) (batches : List (List RawMessage)) (hc : c.conn ≠ none)
    (hlast : ∀ b ∈ batches, ∀ m ∈ b.dropLast, isAuthFailed j m = false) :
    closeCount (routeAll j werr c batches).2 =
        batches.countP (fun b => (reached j b).any (isAuthFailed j)) ∧
    closeFrames (routeAll j werr c batches).2 =
        batches.countP (fun b => (reached j b).any (isAuthFailed j)) := by
  have hsum : (batches.map fun b => (reached j b).countP (isAuthFailed j)).sum =
      batches.countP (fun b => (reached j b).any (isAuthFailed j)) := by
    induction batches with
    | nil => simp
    | cons b rest ih =>
      have hb : (reached j b).countP (isAuthFailed j) =
          if (reached j b).any (isAuthFailed j) then 1 else 0 :=
        countP_of_dropLast _ _ fun m hm =>
          hlast b (List.mem_cons_self _ _) m (mem_dropLast_of_reached j b m hm)
      have ih1 := ih fun b1 hb1 => hlast b1 (List.mem_cons_of_mem _ hb1)
      rw [List.map_cons, List.sum_cons, ih1, hb, List.countP_cons]
      split_ifs <;> omega
  have h := routeAll_count j batches werr c hc
  rw [hsum] at h
  exact h

theorem C5_close_per_auth_failed_batch_witness :
    closeCount (routeAll sampleJson (fun _ _ => none) sampleConnected
        [[statusEnvelope "connected"], [tradeEnvelope, statusEnvelope "success"],
          [statusEnvelope "auth_failed"]]).2 = 1 ∧
    closeFrames (routeAll sampleJson (fun _ _ => none) sampleConnected
        [[statusEnvelope "connected"], [tradeEnvelope, statusEnvelope "success"],
          [statusEnvelope "auth_failed"]]).2 = 1 :=
  have h := C5_close_per_auth_failed_batch sampleJson (fun _ _ => none) sampleConnected
    [[statusEnvelope "connected"], [tradeEnvelope, statusEnvelope "success"],
      [statusEnvelope "auth_failed"]] (by decide) (by decide)
  ⟨h.1.trans (by decide), h.2.trans (by decide)⟩

/-- C5 (as stated) fails: two batches, each holding one auth_failed status
envelope, routed one after the other on a connected Client carry out the
Close operation twice: `cancel` is called twice and `WriteControl` is called
twice with a close frame (the transport answering the second call with
"websocket: close sent"). The Processor loop does route both batches when its
`select` takes the receive case in its second iteration. A batch whose
auth_failed envelope comes after an envelope with an undecodable discriminant
carries the operation out zero times. -/
theorem C5_as_stated_fails :
    sampleConnected.conn ≠ none ∧
    isAuthFailed sampleJson (statusEnvelope "auth_failed") = true ∧
    closeCount (routeAll sampleJson
        (fun k _ => if k = 0 then none else some "websocket: close sent") sampleConnected
        [[statusEnvelope "auth_failed"], [statusEnvelope "auth_failed"]]).2 = 2 ∧
    closeFrames (routeAll sampleJson
        (fun k _ => if k = 0 then none else some "websocket: close sent") sampleConnected
        [[statusEnvelope "auth_failed"], [statusEnvelope "auth_failed"]]).2 = 2 ∧
    (process sampleJson
        [⟨false, [batchFrame [statusEnvelope "auth_failed"],
            batchFrame [statusEnvelope "auth_failed"]], 0, fun _ => none⟩,
          ⟨false, [], 1, fun _ => some "websocket: close sent"⟩] sampleConnected).routed =
      [[statusEnvelope "auth_failed"], [statusEnvelope "auth_failed"]] ∧
    closeCount (process sampleJson
        [⟨false, [batchFrame [statusEnvelope "auth_failed"],
            batchFrame [statusEnvelope "auth_failed"]], 0, fun _ => none⟩,
          ⟨false, [], 1, fun _ => some "websocket: close sent"⟩] sampleConnected).effects = 2 ∧
    closeCount (routeAll sampleJson (fun _ _ => none) sampleConnected
        [["5", statusEnvelope "auth_failed"]]).2 = 0 := by
  decide

/-- C6: for an envelope that decodes as a control message, `handleStatus`
calls `Close` exactly when the status is "auth_failed" (its result is then the
error log followed by what `Close` does); for every other status, recognized
or not, the Client is left as it was and the only effect is one log call below
error level. On a connected Client a lifecycle action (cancellation or
transport write) occurs if and only if the status is "auth_failed". -/
theorem C6_handleStatus_closes_iff_auth_failed (j : Json) (werr : Option Error)
    (c : Client) (msg : RawMessage) (cm : ControlMessage)
    (hcm : j.unmarshalControl msg = .ok cm) :
    (cm.Status = "auth_failed" →
      handleStatus j werr c msg =
        ((Close werr c).client,
          .log .error "authentication failed, closing connection" ::
            (Close werr c).effects)) ∧
    (cm.Status ≠ "auth_failed" →
      (handleStatus j werr c msg).1 = c ∧
      ∃ lvl text, lvl ≠ Level.error ∧ (handleStatus j werr c msg).2 = [.log lvl text]) ∧
    (c.conn ≠ none →
      ((∃ e ∈ (handleStatus j werr c msg).2, e.isLifecycle = true) ↔
        cm.Status = "auth_failed") ∧
      closeCount (handleStatus j werr c msg).2 =
        if cm.Status = "auth_failed" then 1 else 0) := by
  have hne : cm.Status ≠ "auth_failed" →
      (handleStatus j werr c msg).1 = c ∧
      ∃ lvl text, lvl ≠ Level.error ∧ (handleStatus j werr c msg).2 = [.log lvl text] := by
    intro h1
    unfold handleStatus
    rw [hcm]
    by_cases h2 : cm.Status = "connected"
    · simp only [h2, if_true]
      exact ⟨by simp, _, _, by decide, rfl⟩
    · by_cases h3 : cm.Status = "auth_success"
      · simp only [h2, h3, if_true, if_false]
        exact ⟨by simp, _, _, by decide, rfl⟩
      · by_cases h4 : cm.Status = "success"
        · simp only [h1, h2, h3, h4, if_true, if_false]
          exact ⟨by simp, _, _, by decide, rfl⟩
        · simp only [h1, h2, h3, h4, if_false]
          exact ⟨by simp, _, _, by decide, rfl⟩
  have heq : cm.Status = "auth_failed" →
      handleStatus j werr c msg =
        ((Close werr c).client,
          .log .error "authentication failed, closing connection" ::
            (Close werr c).effects) := by
    intro h1
    unfold handleStatus
    rw [hcm]
    simp [h1]
  refine ⟨heq, hne, fun hc => ?_⟩
  by_cases h1 : cm.Status = "auth_failed"
  · have hC := (Close_count werr c hc).1
    rw [heq h1]
    simp only [h1, if_true, iff_true]
    constructor
    · refine ⟨.cancel, ?_, rfl⟩
      have : 0 < List.count Effect.cancel (Close werr c).effects := by
        simp only [closeCount] at hC
        omega
      exact List.mem_cons_of_mem _ (List.count_pos_iff.mp this)
    · simp only [closeCount] at hC ⊢
      simp [hC]
  · obtain ⟨_, lvl, text, _, he⟩ := hne h1
    rw [he]
    simp [h1, Effect.isLifecycle, closeCount]

theorem C6_handleStatus_closes_iff_auth_failed_witness :
    handleStatus sampleJson none sampleConnected (statusEnvelope "auth_failed") =
      ((Close none sampleConnected).client,
        .log .error "authentication failed, closing connection" ::
          (Close none sampleConnected).effects) ∧
    (closeCount (handleStatus sampleJson none sampleConnected
        (statusEnvelope "auth_failed")).2 = 1) := by
  have h := C6_handleStatus_closes_iff_auth_failed sampleJson none sampleConnected
    (statusEnvelope "auth_failed") { EventType := "status", Status := "auth_failed" }
    rfl
  exact ⟨h.1 rfl, (h.2.2 (by decide)).2⟩

/-- C7: while cancellation has not been signaled (the context is still live
when the followed run ends, hence throughout, since it is never reset), the
Processor loop has not returned; the frames it received are, in arrival
order, a front part of everything that arrived and the rest is still queued.
What the loop did is, frame by frame in that order, what `route` does with
the batch of a frame that decodes and one error log for a frame that does
not, and it left the Client as it was but for the queue. An iteration that
receives a decodable frame is the call of `route` on its batch; one that
receives a frame that fails to decode logs once at error level, drops the
frame and goes on to the next iteration. The batches passed to `route` are
exactly the received frames that decode, in that order, and once every
arrived frame has had its iteration they are exactly the decodable frames. -/
theorem C7_process_routes_decodable (j : Json) (envs : List ProcessEnv) (c : Client)
    (hend : (process j envs c).client.ctxDone = false) :
    (process j envs c).status = .running ∧
    (process j envs c).received ++ (process j envs c).client.rQueue = arrivedAll envs c ∧
    (process j envs c).effects = (process j envs c).received.flatMap (frameEffects j c) ∧
    (process j envs c).client = { c with rQueue := (process j envs c).client.rQueue } ∧
    (process j envs c).routed = (process j envs c).received.filterMap (decoded j) ∧
    (process j envs c).routed ++ (process j envs c).client.rQueue.filterMap (decoded j) =
      (arrivedAll envs c).filterMap (decoded j) ∧
    (∀ (env : ProcessEnv) (c1 : Client) (data : Frame) (q : List Frame)
      (msgs : List RawMessage),
      c1.ctxDone = false → c1.rQueue = data :: q → j.unmarshalBatch data = .ok msgs →
        processIter j env c1 =
          ⟨.next, (route j env.closeErr { c1 with rQueue := q } msgs).1,
            (route j env.closeErr { c1 with rQueue := q } msgs).2, some data, some msgs⟩) ∧
    (∀ (env : ProcessEnv) (c1 : Client) (data : Frame) (q : List Frame) (err : Error),
      c1.ctxDone = false → c1.rQueue = data :: q → j.unmarshalBatch data = .error err →
        processIter j env c1 =
          ⟨.next, { c1 with rQueue := q },
            [.log .error ("failed to process raw messages: " ++ err)], some data, none⟩) ∧
    ((∀ env ∈ envs, env.arrived = []) → c.rQueue.length ≤ envs.length →
      (process j envs c).received = c.rQueue ∧
      (process j envs c).client.rQueue = [] ∧
      (process j envs c).effects = c.rQueue.flatMap (frameEffects j c) ∧
      (process j envs c).routed = c.rQueue.filterMap (decoded j)) := by
  obtain ⟨h1, h2, h3⟩ := process_live j envs c hend
  obtain ⟨h4, h5⟩ := process_live_effects j envs c hend
  refine ⟨h1, h2, h4, h5, h3, ?_, ?_, ?_, ?_⟩
  · rw [h3, ← h2, List.filterMap_append]
  · intro env c1 data q msgs hc hq hd
    rw [processIter_live j env c1 hc, hq]
    simp only [hd]
  · intro env c1 data q err hc hq hd
    rw [processIter_live j env c1 hc, hq]
    simp only [hd]
  · intro harr hlen
    have hl := process_received_length j envs c hend harr
    rw [Nat.min_eq_left hlen] at hl
    have hf : (envs.flatMap fun env => env.arrived) = [] := by
      rw [List.flatMap_eq_nil_iff]
      exact harr
    have h2a : (process j envs c).received ++ (process j envs c).client.rQueue = c.rQueue := by
      rw [h2, arrivedAll, hf, List.append_nil]
    have hr : (process j envs c).received = c.rQueue := by
      have hle : (process j envs c).client.rQueue.length = 0 := by
        have := congrArg List.length h2a
        rw [List.length_append] at this
        omega
      rw [List.length_eq_zero] at hle
      rw [hle, List.append_nil] at h2a
      exact h2a
    refine ⟨hr, ?_, ?_, ?_⟩
    · rw [hr] at h2a
      exact List.append_right_eq_self.mp h2a
    · rw [h4, hr]
    · rw [h3, hr]

theorem C7_process_routes_decodable_witness :
    (process sampleJson
        [⟨false, ["not json", batchFrame [statusEnvelope "connected"]], 0, fun _ => none⟩,
          ⟨false, [batchFrame [tradeEnvelope, statusEnvelope "success"]], 0, fun _ => none⟩,
          ⟨false, [], 0, fun _ => none⟩] sampleConnected).client.ctxDone = false ∧
    (process sampleJson
        [⟨false, ["not json", batchFrame [statusEnvelope "connected"]], 0, fun _ => none⟩,
          ⟨false, [batchFrame [tradeEnvelope, statusEnvelope "success"]], 0, fun _ => none⟩,
          ⟨false, [], 0, fun _ => none⟩] sampleConnected).status = .running ∧
    (process sampleJson
        [⟨false, ["not json", batchFrame [statusEnvelope "connected"]], 0, fun _ => none⟩,
          ⟨false, [batchFrame [tradeEnvelope, statusEnvelope "success"]], 0, fun _ => none⟩,
          ⟨false, [], 0, fun _ => none⟩] sampleConnected).effects =
      [.log .error "failed to process raw messages: invalid character",
        .log .debug "connection successful",
        .log .debug "unknown message type \x27T\x27",
        .log .debug "subscription successful"] ∧
    (process sampleJson
        [⟨false, ["not json", batchFrame [statusEnvelope "connected"]], 0, fun _ => none⟩,
          ⟨false, [batchFrame [tradeEnvelope, statusEnvelope "success"]], 0, fun _ => none⟩,
          ⟨false, [], 0, fun _ => none⟩] sampleConnected).routed =
      [[statusEnvelope "connected"], [tradeEnvelope, statusEnvelope "success"]] := by
  have h := C7_process_routes_decodable sampleJson
    [⟨false, ["not json", batchFrame [statusEnvelope "connected"]], 0, fun _ => none⟩,
      ⟨false, [batchFrame [tradeEnvelope, statusEnvelope "success"]], 0, fun _ => none⟩,
      ⟨false, [], 0, fun _ => none⟩] sampleConnected (by decide)
  exact ⟨by decide, h.1, by rw [h.2.2.1]; decide, by rw [h.2.2.2.2.1]; decide⟩

/-- C8: the text frames the Writer loop hands to the transport are always a
front part, in order, of the frames enqueued on the outbound queue (those
buffered when the loop starts, then those enqueued while it runs). When no
transport call fails and cancellation is not signaled, the loop is still
running, no frame is lost (written frames followed by the frames still
queued are the enqueued frames), so the written frames are the whole sequence
as soon as the queue is drained, which happens within as many iterations as
there are frames when nothing else is ready. -/
theorem C8_write_fifo (envs : List WriteEnv) (c : Client) :
    written (write envs c).effects <+: enqueued envs c ∧
    (c.ctxDone = false → (∀ env ∈ envs, env.quiet) →
      (write envs c).status = .running ∧
      written (write envs c).effects ++ (write envs c).client.wQueue = enqueued envs c ∧
      ((write envs c).client.wQueue = [] →
        written (write envs c).effects = enqueued envs c) ∧
      ((∀ env ∈ envs, env.tick = false ∧ env.arrived = []) →
        c.wQueue.length ≤ envs.length →
        written (write envs c).effects = c.wQueue)) := by
  refine ⟨write_written_front envs c, fun hc hq => ?_⟩
  obtain ⟨h1, h2⟩ := write_quiet envs c hc hq
  refine ⟨h1, h2, fun he => ?_, fun ht hlen => ?_⟩
  · rw [he, List.append_nil] at h2
    exact h2
  · have hl := write_drain_length envs c hc hq ht
    rw [Nat.min_eq_left hlen] at hl
    have hf : (envs.flatMap fun env => env.arrived) = [] := by
      rw [List.flatMap_eq_nil_iff]
      exact fun e he => (ht e he).2
    have hp := write_written_front envs c
    rw [enqueued, hf, List.append_nil] at hp
    exact hp.eq_of_length hl

theorem C8_write_fifo_witness :
    written (write
        [⟨false, ["m1"], true, 0, none, none, none⟩, ⟨false, ["m2", "m3"], false, 0, none, none, none⟩,
          ⟨false, [], false, 0, none, none, none⟩, ⟨false, [], true, 1, none, none, none⟩,
          ⟨false, [], false, 0, none, none, none⟩]
        sampleConnected).effects =
      ["\x7b\"action\":\"auth\",\"params\":\"abc123\"\x7d", "m1", "m2", "m3"] := by
  have h := (C8_write_fifo
    [⟨false, ["m1"], true, 0, none, none, none⟩, ⟨false, ["m2", "m3"], false, 0, none, none, none⟩,
      ⟨false, [], false, 0, none, none, none⟩, ⟨false, [], true, 1, none, none, none⟩,
      ⟨false, [], false, 0, none, none, none⟩]
    sampleConnected).2 (by decide) (by decide)
  rw [h.2.2.1 (by decide)]
  decide

/-- C9 fails on the code: after a failed read the Reader loop is still
running. With cancellation not signaled, a read that fails with a close code
other than normal closure (1006), with a normal closure (1000) or with
another I/O error is followed by one more iteration that calls `ReadMessage`
again, and the transport is not closed. -/
theorem C9_read_goes_on_after_error :
    read [⟨false, 0, .closeError 1006 "websocket: close 1006 (abnormal closure)"⟩,
          ⟨false, 0, .closeError 1006 "websocket: close 1006 (abnormal closure)"⟩]
        sampleConnected =
      ⟨.running, sampleConnected,
        [.readMessage,
          .log .error "connection closed unexpectedly: websocket: close 1006 (abnormal closure)",
          .readMessage,
          .log .error
            "connection closed unexpectedly: websocket: close 1006 (abnormal closure)"]⟩ ∧
    read [⟨false, 0, .closeError 1000 "websocket: close 1000 (normal)"⟩,
          ⟨false, 0, .closeError 1000 "websocket: close 1000 (normal)"⟩] sampleConnected =
      ⟨.running, sampleConnected, [.readMessage, .readMessage]⟩ ∧
    read [⟨false, 0, .otherError "read tcp: i/o timeout"⟩,
          ⟨false, 0, .otherError "read tcp: i/o timeout"⟩] sampleConnected =
      ⟨.running, sampleConnected,
        [.readMessage, .log .error "failed to read message: read tcp: i/o timeout",
          .readMessage, .log .error "failed to read message: read tcp: i/o timeout"]⟩ := by
  decide

/-- C10 (as stated) fails: an iteration of the Writer loop that begins after
cancellation, with a frame queued and the runtime taking the queue case,
writes that frame and goes on looping; likewise the Processor loop receives
and routes a queued frame after cancellation. -/
theorem C10_as_stated_fails :
    sampleCancelled.ctxDone = true ∧
    sampleCancelled.wQueue = ["\x7b\"action\":\"auth\",\"params\":\"abc123\"\x7d"] ∧
    writeIter ⟨false, [], false, 1, none, none, none⟩ sampleCancelled =
      ⟨.next, { sampleCancelled with wQueue := [] },
        [.setWriteDeadline,
          .writeMessage "\x7b\"action\":\"auth\",\"params\":\"abc123\"\x7d"]⟩ ∧
    sampleCancelledInbound.ctxDone = true ∧
    (processIter sampleJson ⟨false, [], 1, fun _ => none⟩ sampleCancelledInbound).step =
      .next ∧
    (processIter sampleJson ⟨false, [], 1, fun _ => none⟩ sampleCancelledInbound).routed =
      some [statusEnvelope "connected"] := by
  decide

/-- C10 (amended): an iteration of the Reader loop that begins after
cancellation exits the loop without reading (only the deferred log and
transport close run). An iteration of the Writer loop that begins after
cancellation exits without writing when the outbound queue is empty and no
tick is pending, and an iteration of the Processor loop exits without
processing when the inbound queue is empty. In every state of the queues and
the timer, exiting is what happens when the runtime takes the first ready
case of the `select`; otherwise the iteration handles exactly one ready ping
or queued frame before the loop checks again. -/
theorem C10_cancelled_iteration_exits (j : Json) :
    (∀ (env : ReadEnv) (envs : List ReadEnv) (c : Client), (env.enter c).ctxDone = true →
      read (env :: envs) c =
        ⟨.returned, env.enter c, [.log .debug "closing read thread", .connClose]⟩) ∧
    (∀ (env : WriteEnv) (envs : List WriteEnv) (c : Client), (env.enter c).ctxDone = true →
      (env.enter c).wQueue = [] → env.tick = false →
      write (env :: envs) c =
        ⟨.returned, env.enter c,
          [.log .debug "closing write thread", .tickerStop, .connClose]⟩) ∧
    (∀ (env : ProcessEnv) (envs : List ProcessEnv) (c : Client),
      (env.enter c).ctxDone = true → (env.enter c).rQueue = [] →
      process j (env :: envs) c =
        ⟨.returned, env.enter c, [.log .debug "closing process thread"], [], []⟩) ∧
    (∀ (env : WriteEnv) (envs : List WriteEnv) (c : Client), (env.enter c).ctxDone = true →
      env.pick = 0 →
      write (env :: envs) c =
        ⟨.returned, env.enter c,
          [.log .debug "closing write thread", .tickerStop, .connClose]⟩) ∧
    (∀ (env : ProcessEnv) (envs : List ProcessEnv) (c : Client),
      (env.enter c).ctxDone = true → env.pick = 0 →
      process j (env :: envs) c =
        ⟨.returned, env.enter c, [.log .debug "closing process thread"], [], []⟩) ∧
    (∀ (env : WriteEnv) (c : Client), c.ctxDone = true →
      (writeIter env c).step = .exit ∨
      writeIter env c = ⟨.next, c, [.writeControl .ping]⟩ ∨
      ∃ msg q, c.wQueue = msg :: q ∧
        writeIter env c =
          ⟨.next, { c with wQueue := q }, [.setWriteDeadline, .writeMessage msg]⟩) ∧
    (∀ (env : ProcessEnv) (c : Client), c.ctxDone = true →
      (processIter j env c).step = .exit ∨
      ∃ data q, c.rQueue = data :: q ∧ (processIter j env c).step = .next ∧
        (processIter j env c).received = some data) := by
  refine ⟨?_, ?_, ?_, ?_, ?_, writeIter_cancelled, processIter_cancelled j⟩
  · intro env envs c h
    simp [read, readIter, h]
  · intro env envs c h hq ht
    have hit : writeIter env (env.enter c) = ⟨.exit, env.enter c, []⟩ := by
      simp [writeIter, writeReady, h, hq, ht, goSelect_singleton]
    rw [write_cons_exit env envs c (by rw [hit]), hit]
    rfl
  · intro env envs c h hq
    have hit : processIter j env (env.enter c) = ⟨.exit, env.enter c, [], none, none⟩ := by
      simp [processIter, processReady, h, hq, goSelect_singleton]
    rw [process_cons_exit j env envs c (by rw [hit]), hit]
    rfl
  · intro env envs c h hp
    have hit : writeIter env (env.enter c) = ⟨.exit, env.enter c, []⟩ := by
      simp [writeIter, writeReady, h, hp, goSelect]
    rw [write_cons_exit env envs c (by rw [hit]), hit]
    rfl
  · intro env envs c h hp
    have hit : processIter j env (env.enter c) = ⟨.exit, env.enter c, [], none, none⟩ := by
      simp [processIter, processReady, h, hp, goSelect]
    rw [process_cons_exit j env envs c (by rw [hit]), hit]
    rfl

theorem C10_cancelled_iteration_exits_witness :
    read [⟨true, 0, .msg "late"⟩, ⟨false, 0, .msg "later"⟩] sampleConnected =
      ⟨.returned, sampleCancelled, [.log .debug "closing read thread", .connClose]⟩ ∧
    write [⟨false, [], false, 0, none, none, none⟩] (Close none sampleConnected).client =
      ⟨.returned, sampleCancelled,
        [.log .debug "closing write thread", .tickerStop, .connClose]⟩ ∧
    process sampleJson [⟨false, [], 3, fun _ => none⟩] sampleCancelled =
      ⟨.returned, sampleCancelled, [.log .debug "closing process thread"], [], []⟩ :=
  ⟨(C10_cancelled_iteration_exits sampleJson).1 ⟨true, 0, .msg "late"⟩
      [⟨false, 0, .msg "later"⟩] sampleConnected (by decide),
    (C10_cancelled_iteration_exits sampleJson).2.2.2.1 ⟨false, [], false, 0, none, none, none⟩ []
      (Close none sampleConnected).client (by decide) (by decide),
    (C10_cancelled_iteration_exits sampleJson).2.2.1 ⟨false, [], 3, fun _ => none⟩ []
      sampleCancelled (by decide) (by decide)⟩

/-- C11: `Connect` returns an error exactly when the Client holds no transport
and the dial fails, the response status is not 101, or the initial read
deadline cannot be set; whenever it returns an error the Client is left as it
was, so `conn` stays nil, and no loop is started. -/
theorem C11_connect_error_stores_nothing (net : Net) (c : Client)
    (h : (Connect net c).val ≠ none) :
    c.conn = none ∧ (Connect net c).client = c ∧ (Connect net c).client.conn = none ∧
    (∀ l, Effect.spawn l ∉ (Connect net c).effects) ∧
    ((∃ err, net.dial ("wss://" ++ c.feed ++ ".polygon.io/" ++ c.market) = .fail err ∧
        (Connect net c).val = some ("failed to dial server: " ++ err)) ∨
      (∃ conn code, net.dial ("wss://" ++ c.feed ++ ".polygon.io/" ++ c.market) = .ok conn code ∧
        code ≠ 101 ∧ (Connect net c).val = some "server failed to switch protocols") ∨
      (∃ conn err, net.dial ("wss://" ++ c.feed ++ ".polygon.io/" ++ c.market) = .ok conn 101 ∧
        net.setReadDeadline = some err ∧
        (Connect net c).val = some ("failed to set read deadline: " ++ err))) := by
  have hcl := Connect_err_client net c h
  by_cases hc : c.conn = none
  · refine ⟨hc, hcl, by rw [hcl]; exact hc, ?_, ?_⟩
    · intro l
      cases hd : net.dial ("wss://" ++ c.feed ++ ".polygon.io/" ++ c.market) with
      | fail err => simp [Connect, hc, hd]
      | ok conn code =>
        by_cases h101 : code = 101
        · cases hs : net.setReadDeadline with
          | some err => simp [Connect, hc, hd, h101, hs]
          | none => simp [Connect, hc, hd, h101, hs] at h
        · simp [Connect, hc, hd, h101]
    · cases hd : net.dial ("wss://" ++ c.feed ++ ".polygon.io/" ++ c.market) with
      | fail err => left; exact ⟨err, rfl, by simp [Connect, hc, hd]⟩
      | ok conn code =>
        by_cases h101 : code = 101
        · cases hs : net.setReadDeadline with
          | some err =>
            right; right
            exact ⟨conn, err, by rw [h101], rfl, by simp [Connect, hc, hd, h101, hs]⟩
          | none => simp [Connect, hc, hd, h101, hs] at h
        · right; left
          exact ⟨conn, code, rfl, h101, by simp [Connect, hc, hd, h101]⟩
  · simp [Connect, hc] at h

theorem C11_connect_error_stores_nothing_witness :
    (Connect ⟨fun _ => .ok ⟨7⟩ 403, none⟩
        ⟨"abc123", "delayed", "stocks", false, none, [], [], .nop⟩).client.conn = none ∧
    (∀ l, Effect.spawn l ∉ (Connect ⟨fun _ => .ok ⟨7⟩ 403, none⟩
        ⟨"abc123", "delayed", "stocks", false, none, [], [], .nop⟩).effects) :=
  have h := C11_connect_error_stores_nothing ⟨fun _ => .ok ⟨7⟩ 403, none⟩
    ⟨"abc123", "delayed", "stocks", false, none, [], [], .nop⟩ (by decide)
  ⟨h.2.2.1, h.2.2.2.1⟩

/-- C12: on a connected Client `Close` calls `cancel` first, whatever the
close-frame write then answers, so the context is cancelled afterwards in
both cases; it then sends the close frame, and what it returns is exactly
what that write answered (nil when the write succeeded). -/
theorem C12_close_cancels_and_returns_write_error (werr : Option Error) (c : Client)
    (h : c.conn ≠ none) :
    (Close werr c).val = werr ∧
    (Close werr c).client.ctxDone = true ∧
    (Close werr c).client.conn = c.conn ∧
    ∃ lvl text, (Close werr c).effects =
      [.cancel, .writeControl .close, .log lvl text] := by
  unfold Close
  cases hc : c.conn with
  | none => exact absurd hc h
  | some x =>
    cases werr with
    | none => exact ⟨rfl, rfl, rfl, _, _, rfl⟩
    | some err => exact ⟨rfl, rfl, rfl, _, _, rfl⟩

theorem C12_close_cancels_and_returns_write_error_witness :
    (Close (some "write tcp: i/o timeout") sampleConnected).val =
      some "write tcp: i/o timeout" ∧
    (Close (some "write tcp: i/o timeout") sampleConnected).client.ctxDone = true :=
  have h := C12_close_cancels_and_returns_write_error (some "write tcp: i/o timeout")
    sampleConnected (by decide)
  ⟨h.1, h.2.1⟩

/-- C13: over every sequence of `Connect` and `Close` calls made one after
another on one Client, a transport is assigned to `conn` at most once. Once
`conn` holds a transport, every later state holds that same transport: no
later call dials or starts a loop, no `Connect` replaces it and no `Close`
clears it; in particular a `Connect` issued after a `Close` on a connected
Client returns nil with no effect. -/
theorem C13_at_most_one_transport (calls : List Call) (c : Client) :
    (runCalls calls c).stored.length ≤ 1 ∧
    (∀ x, c.conn = some x →
      (runCalls calls c).client.conn = some x ∧
      (runCalls calls c).stored = [] ∧
      (∀ e ∈ (runCalls calls c).effects, e.isDialOrSpawn = false)) ∧
    (∀ (later : List Call) (x : Conn), (runCalls calls c).client.conn = some x →
      (runCalls (calls ++ later) c).client.conn = some x) ∧
    (∀ (x : Conn) (werr : Option Error) (net : Net), c.conn = some x →
      Connect net (Close werr c).client = ⟨none, (Close werr c).client, []⟩ ∧
      (Close werr c).client.conn = some x) := by
  refine ⟨runCalls_stored_le calls c, fun x hx => runCalls_connected calls c x hx, ?_, ?_⟩
  · intro later x hx
    rw [runCalls_append]
    exact (runCalls_connected later _ x hx).1
  · intro x werr net hx
    have hc : (Close werr c).client.conn = some x := by rw [Close_conn]; exact hx
    exact ⟨Connect_connected net _ x hc, hc⟩

theorem C13_at_most_one_transport_witness :
    (runCalls [.close none, .connect ⟨fun _ => .fail "no route to host", none⟩,
        .connect ⟨fun _ => .ok ⟨1⟩ 101, none⟩, .close none,
        .connect ⟨fun _ => .ok ⟨2⟩ 101, none⟩]
      ⟨"abc123", "delayed", "stocks", false, none, [], [], .nop⟩).stored = [⟨1⟩] ∧
    (runCalls [.close none, .connect ⟨fun _ => .fail "no route to host", none⟩,
        .connect ⟨fun _ => .ok ⟨1⟩ 101, none⟩, .close none,
        .connect ⟨fun _ => .ok ⟨2⟩ 101, none⟩]
      ⟨"abc123", "delayed", "stocks", false, none, [], [], .nop⟩).client.conn = some ⟨1⟩ :=
  have h := (C13_at_most_one_transport
    [.close none, .connect ⟨fun _ => .fail "no route to host", none⟩,
      .connect ⟨fun _ => .ok ⟨1⟩ 101, none⟩]
    ⟨"abc123", "delayed", "stocks", false, none, [], [], .nop⟩).2.2.1
    [.close none, .connect ⟨fun _ => .ok ⟨2⟩ 101, none⟩] ⟨1⟩ (by decide)
  ⟨by decide, h⟩
end Polygonws

namespace Rest

/-! ## Helper lemmas for the REST client -/

theorem Next_of_err (h : Http) (it : Iterator) (he : it.err ≠ none) :
    it.Next h = .ok ⟨false, it, []⟩ := by
  simp [Iterator.Next, he]

theorem Next_within (h : Http) (it : Iterator) (he : it.err = none)
    (hi : it.idx < it.page.length) :
    it.Next h = .ok ⟨true, { it with idx := it.idx + 1 }, []⟩ := by
  simp [Iterator.Next, he, hi]

theorem nexts_within (hs : List Http) :
    ∀ it : Iterator, it.err = none → it.idx + hs.length ≤ it.page.length →
      it.nexts hs = .ok ⟨List.replicate hs.length true,
        { it with idx := it.idx + hs.length }, []⟩ := by
  induction hs with
  | nil => intro it _ _; simp [Iterator.nexts]
  | cons h hs ih =>
    intro it he hi
    have hlt : it.idx < it.page.length := by
      simp only [List.length_cons, Nat.cast_add, Nat.cast_one] at hi
      omega
    have hi' : ({ it with idx := it.idx + 1 } : Iterator).idx + hs.length ≤
        ({ it with idx := it.idx + 1 } : Iterator).page.length := by
      simp only [List.length_cons, Nat.cast_add, Nat.cast_one] at hi
      show it.idx + 1 + hs.length ≤ it.page.length
      omega
    rw [Iterator.nexts, Next_within h it he hlt]
    simp only []
    rw [ih { it with idx := it.idx + 1 } he hi']
    simp only [List.length_cons, List.replicate_succ, List.nil_append, Nat.cast_add,
      Nat.cast_one]
    congr 3
    omega

theorem nexts_append (a b : List Http) :
    ∀ (it : Iterator) (ra : NextsResult), it.nexts a = .ok ra →
      it.nexts (a ++ b) =
        match ra.it.nexts b with
        | .error p => .error p
        | .ok rb => .ok ⟨ra.rets ++ rb.rets, rb.it, ra.effects ++ rb.effects⟩ := by
  induction a with
  | nil =>
    intro it ra h
    simp only [Iterator.nexts, Except.ok.injEq] at h
    subst h
    simp only [List.nil_append]
    cases it.nexts b <;> rfl
  | cons h a ih =>
    intro it ra hra
    rw [List.cons_append, Iterator.nexts]
    rw [Iterator.nexts] at hra
    cases hn : it.Next h with
    | error p => rw [hn] at hra; simp at hra
    | ok r =>
      rw [hn] at hra
      simp only [] at hra ⊢
      cases hs : r.it.nexts a with
      | error p => rw [hs] at hra; simp at hra
      | ok s =>
        rw [hs] at hra
        simp only [Except.ok.injEq] at hra
        subst hra
        rw [ih r.it s hs]
        cases s.it.nexts b with
        | error p => rfl
        | ok rb => simp [List.append_assoc]

theorem Item_at (it : Iterator) (i : Nat) (hi : i < it.page.length) (hx : it.idx = i + 1) :
    it.Item = .ok it.page[i] := by
  unfold Iterator.Item
  have h1 : ¬ (it.idx - 1 < 0) := by omega
  have h2 : (it.idx - 1).toNat = i := by omega
  simp only [h1, if_false, h2]
  rw [List.getElem?_eq_getElem hi]

theorem fetchNextPage_client (h : Http) (it it1 : Iterator) (url : String)
    (hc : it.client = it1.client) : it.fetchNextPage h url = it1.fetchNextPage h url := by
  unfold Iterator.fetchNextPage
  rw [hc]

theorem Next_at_end (h : Http) (it : Iterator) (he : it.err = none)
    (hi : ¬ it.idx < it.page.length)
    (hend : it.nextURL = none ∨ it.nextURL = some "" ∨
      ∃ url nu eff, it.nextURL = some url ∧
        it.fetchNextPage h url = .ok ⟨[], nu, none, eff⟩) :
    ∃ r, it.Next h = .ok r ∧ r.ret = false ∧ r.it.err = none := by
  unfold Iterator.Next
  simp only [he, ne_eq, not_true_eq_false, if_false, hi]
  split_ifs with h1
  · exact ⟨_, rfl, rfl, he⟩
  · rcases hend with h2 | h2 | ⟨url, nu, eff, h2, h3⟩
    · simp [h2] at h1
    · simp [h2] at h1
    · simp only [h2, h3]
      exact ⟨_, rfl, rfl, rfl⟩

theorem nexts_of_err (hs : List Http) (it : Iterator) (he : it.err ≠ none) :
    it.nexts hs = .ok ⟨List.replicate hs.length false, it, []⟩ := by
  induction hs with
  | nil => rfl
  | cons h hs ih =>
    rw [Iterator.nexts, Next_of_err h it he]
    simp only []
    rw [ih]
    rfl

theorem fetchNextPage_fail (h : Http) (it : Iterator) (url : String) (e : Error)
    (hfail : h.newRequest url = some e ∨
      (it.client.httpClient ≠ none ∧ h.newRequest url = none ∧
        (h.Do (it.client.pageRequest url) = .error e ∨
          (∃ resp, h.Do (it.client.pageRequest url) = .ok resp ∧
            resp.StatusCode ≠ StatusOK ∧ e = "http status " ++ toString resp.StatusCode) ∨
          (∃ resp, h.Do (it.client.pageRequest url) = .ok resp ∧
            resp.StatusCode = StatusOK ∧ h.decode resp.Body = .error e)))) :
    ∃ eff, it.fetchNextPage h url = .ok ⟨[], none, some e, eff⟩ := by
  unfold Iterator.fetchNextPage
  rcases hfail with h1 | ⟨hc, h1, h2⟩
  · exact ⟨[], by simp [h1]⟩
  · cases hcl : it.client.httpClient with
    | none => exact absurd hcl hc
    | some hcv =>
      have hreq : it.client.addHeaders { Method := "GET", URL := url, Header := [] } =
          (none, it.client.pageRequest url) := rfl
      simp only [h1, hreq]
      rcases h2 with h2 | ⟨resp, h2, h3, h4⟩ | ⟨resp, h2, h3, h4⟩
      · exact ⟨[.roundTrip (it.client.pageRequest url)], by simp [h2]⟩
      · exact ⟨[.roundTrip (it.client.pageRequest url), .bodyClose], by simp [h2, h3, h4]⟩
      · exact ⟨[.roundTrip (it.client.pageRequest url), .bodyClose], by simp [h2, h3, h4]⟩

theorem NewWithOptions_ok (w : World) (apiKey : String) (opts : List ClientOption)
    (c1 : Client) (h : NewWithOptions w apiKey opts = .ok c1) :
    (if apiKey = "" then w.MASSIVE_API_KEY else apiKey) ≠ "" ∧ w.genErr = none ∧
    c1.apiKey = (applyOptions opts
      (Client.blank (if apiKey = "" then w.MASSIVE_API_KEY else apiKey))).apiKey ∧
    c1.trace = (applyOptions opts
      (Client.blank (if apiKey = "" then w.MASSIVE_API_KEY else apiKey))).trace ∧
    c1.pagination = (applyOptions opts
      (Client.blank (if apiKey = "" then w.MASSIVE_API_KEY else apiKey))).pagination ∧
    c1.httpClient = some ⟨60, if c1.trace then Transport.debug else Transport.default⟩ ∧
    c1.ClientWithResponses = some ⟨"https://api.massive.com"⟩ := by
  unfold NewWithOptions at h
  simp only [] at h
  by_cases hk : (if apiKey = "" then w.MASSIVE_API_KEY else apiKey) = ""
  · rw [if_pos hk] at h
    simp at h
  · rw [if_neg hk] at h
    cases hg : w.genErr with
    | some err => rw [hg] at h; simp at h
    | none =>
      rw [hg] at h
      simp only [Except.ok.injEq] at h
      subst h
      exact ⟨hk, rfl, rfl, rfl, rfl, rfl, rfl⟩

theorem Next_noPagination_end (h : Http) (it : Iterator) (he : it.err = none)
    (hi : ¬ it.idx < it.page.length) (hp : it.client.pagination = false) :
    it.Next h = .ok ⟨false, it, []⟩ := by
  simp [Iterator.Next, he, hi, hp]

theorem nexts_noPagination_end (hs : List Http) (it : Iterator) (he : it.err = none)
    (hi : ¬ it.idx < it.page.length) (hp : it.client.pagination = false) :
    it.nexts hs = .ok ⟨List.replicate hs.length false, it, []⟩ := by
  induction hs with
  | nil => rfl
  | cons h hs ih =>
    rw [Iterator.nexts, Next_noPagination_end h it he hi hp]
    simp only []
    rw [ih]
    rfl

theorem nexts_noPagination (hs : List Http) (it : Iterator) (n : Nat) (he : it.err = none)
    (hn : it.idx + n = it.page.length) (hp : it.client.pagination = false) :
    it.nexts hs =
      .ok ⟨List.replicate (min hs.length n) true ++ List.replicate (hs.length - n) false,
        { it with idx := it.idx + min hs.length n }, []⟩ := by
  by_cases hle : hs.length ≤ n
  · have hw := nexts_within hs it he (by omega)
    rw [hw, Nat.min_eq_left hle, Nat.sub_eq_zero_of_le hle]
    simp
  · have hsplit : hs = hs.take n ++ hs.drop n := (List.take_append_drop n hs).symm
    have hl : (hs.take n).length = n := by rw [List.length_take]; omega
    have hw := nexts_within (hs.take n) it he (by rw [hl]; omega)
    have hend := nexts_noPagination_end (hs.drop n)
      { it with idx := it.idx + (hs.take n).length } he
      (by rw [hl]; show ¬ (it.idx + (n : Int) < it.page.length); omega) hp
    conv_lhs => rw [hsplit]
    rw [nexts_append _ _ it _ hw]
    simp only []
    rw [hend]
    have h1 : min hs.length n = n := by omega
    simp only [List.nil_append, hl, List.length_drop, h1]

theorem applyOptions_apiKey (opts : List ClientOption) :
    ∀ c : Client, (∀ opt ∈ opts, ∀ c0 : Client, (opt c0).apiKey = c0.apiKey) →
      (applyOptions opts c).apiKey = c.apiKey := by
  induction opts with
  | nil => intro c _; rfl
  | cons opt opts ih =>
    intro c h
    have h1 := ih (opt c) fun o ho => h o (List.mem_cons_of_mem _ ho)
    simp only [applyOptions, List.foldl_cons] at h1 ⊢
    rw [h1]
    exact h opt (List.mem_cons_self _ _) c

theorem NewWithOptions_of_key (w : World) (apiKey : String) (opts : List ClientOption)
    (hk : (if apiKey = "" then w.MASSIVE_API_KEY else apiKey) ≠ "") :
    NewWithOptions w apiKey opts =
      match w.genErr with
      | some err => .error (.error err)
      | none => .ok
        ⟨some ⟨"https://api.massive.com"⟩,
          some ⟨60, if (applyOptions opts (Client.blank
            (if apiKey = "" then w.MASSIVE_API_KEY else apiKey))).trace then Transport.debug
            else Transport.default⟩,
          (applyOptions opts (Client.blank
            (if apiKey = "" then w.MASSIVE_API_KEY else apiKey))).apiKey,
          (applyOptions opts (Client.blank
            (if apiKey = "" then w.MASSIVE_API_KEY else apiKey))).trace,
          (applyOptions opts (Client.blank
            (if apiKey = "" then w.MASSIVE_API_KEY else apiKey))).pagination⟩ := by
  unfold NewWithOptions
  simp only []
  rw [if_neg hk]

/-! ## Claims on the REST client -/

/-- C14: for an iterator created over a first page of n items, the first n
calls of `Next` return true, and after the k-th of them `Item` returns the
k-th item of the page. When the next URL is absent or empty, or the next-page
fetch succeeds with no results, the call that follows returns false and `Err`
is nil. -/
theorem C14_single_page_iteration (c : Client) (page : List Item) (nextURL : Option String)
    (hs : List Http) (h : Http) (hlen : hs.length = page.length)
    (hend : nextURL = none ∨ nextURL = some "" ∨
      ∃ url nu eff, nextURL = some url ∧
        (NewIterator c page nextURL).fetchNextPage h url = .ok ⟨[], nu, none, eff⟩) :
    (∀ (k : Nat) (hk : k < page.length),
      ∃ r, (NewIterator c page nextURL).nexts (hs.take (k + 1)) = .ok r ∧
        r.rets = List.replicate (k + 1) true ∧ r.it.Item = .ok page[k]) ∧
    (∃ r, (NewIterator c page nextURL).nexts (hs ++ [h]) = .ok r ∧
      r.rets = List.replicate page.length true ++ [false] ∧ r.it.Err = none) := by
  constructor
  · intro k hk
    have hl : (hs.take (k + 1)).length = k + 1 := by
      rw [List.length_take]; omega
    have hw := nexts_within (hs.take (k + 1)) (NewIterator c page nextURL) rfl
      (by rw [hl]; show (0 : Int) + ((k + 1 : Nat) : Int) ≤ (page.length : Int); omega)
    refine ⟨_, hw, by rw [hl], ?_⟩
    exact Item_at _ k hk (by rw [hl]; show (0 : Int) + ((k + 1 : Nat) : Int) = (k : Int) + 1; omega)
  · have hw := nexts_within hs (NewIterator c page nextURL) rfl
      (by rw [hlen]; show (0 : Int) + (page.length : Int) ≤ (page.length : Int); omega)
    have hend1 : ∃ r, Iterator.Next h
        { NewIterator c page nextURL with idx := (NewIterator c page nextURL).idx + hs.length } =
          .ok r ∧ r.ret = false ∧ r.it.err = none := by
      apply Next_at_end h _ rfl
      · rw [hlen]; show ¬ ((0 : Int) + (page.length : Int) < (page.length : Int)); omega
      · rcases hend with h2 | h2 | ⟨url, nu, eff, h2, h3⟩
        · left; exact h2
        · right; left; exact h2
        · right; right
          refine ⟨url, nu, eff, h2, ?_⟩
          rw [← h3]
          exact fetchNextPage_client h _ _ url rfl
    obtain ⟨r, hr, hret, herr⟩ := hend1
    rw [nexts_append hs [h] _ _ hw]
    simp only [Iterator.nexts, hr]
    refine ⟨_, rfl, ?_, herr⟩
    simp [hlen, hret]

theorem C14_single_page_iteration_witness :
    (∀ (k : Nat) (hk : k < samplePage.length),
      ∃ r, (NewIterator sampleClient samplePage (some "https://api.massive.com/next")).nexts
          ([emptyPageHttp, emptyPageHttp, emptyPageHttp].take (k + 1)) = .ok r ∧
        r.rets = List.replicate (k + 1) true ∧ r.it.Item = .ok samplePage[k]) ∧
    (∃ r, (NewIterator sampleClient samplePage (some "https://api.massive.com/next")).nexts
        ([emptyPageHttp, emptyPageHttp, emptyPageHttp] ++ [emptyPageHttp]) = .ok r ∧
      r.rets = List.replicate samplePage.length true ++ [false] ∧ r.it.Err = none) :=
  C14_single_page_iteration sampleClient samplePage (some "https://api.massive.com/next")
    [emptyPageHttp, emptyPageHttp, emptyPageHttp] emptyPageHttp rfl
    (Or.inr (Or.inr ⟨"https://api.massive.com/next", none, _, rfl, rfl⟩))

/-- C15 fails on the code: right after creation `Err` is nil, but `Item`
evaluates `it.page[it.idx-1]` with `idx` equal to 0 and panics with an index
out of range, whatever the first page holds. -/
theorem C15_item_before_next_panics (c : Client) (page : List Item) (nextURL : Option String) :
    (NewIterator c page nextURL).Err = none ∧
    (NewIterator c page nextURL).Item = .error (.indexOutOfRange (-1) page.length) := by
  constructor
  · rfl
  · simp [Iterator.Item, NewIterator]

/-- C16: when the iterator has used up its page, pagination is enabled, a
next URL is there and fetching it fails (the request cannot be built, the
exchange fails, the status is not 200 or the body does not decode), that call
of `Next` returns false and leaves the failure in `Err`; every later call of
`Next` returns false, makes no call on the network and leaves the iterator
(page, index, next URL, error) as it was. -/
theorem C16_fetch_failure_is_final (h : Http) (it : Iterator) (url : String) (e : Error)
    (he : it.err = none) (hi : ¬ it.idx < it.page.length)
    (hp : it.client.pagination = true) (hu : it.nextURL = some url) (hne : url ≠ "")
    (hfail : h.newRequest url = some e ∨
      (it.client.httpClient ≠ none ∧ h.newRequest url = none ∧
        (h.Do (it.client.pageRequest url) = .error e ∨
          (∃ resp, h.Do (it.client.pageRequest url) = .ok resp ∧
            resp.StatusCode ≠ StatusOK ∧ e = "http status " ++ toString resp.StatusCode) ∨
          (∃ resp, h.Do (it.client.pageRequest url) = .ok resp ∧
            resp.StatusCode = StatusOK ∧ h.decode resp.Body = .error e)))) :
    (∃ eff, it.Next h = .ok ⟨false, it.failed e, eff⟩) ∧
    (it.failed e).Err = some e ∧
    (∀ h1 : Http, (it.failed e).Next h1 = .ok ⟨false, it.failed e, []⟩) ∧
    (∀ hs : List Http,
      (it.failed e).nexts hs = .ok ⟨List.replicate hs.length false, it.failed e, []⟩) := by
  obtain ⟨eff, hf⟩ := fetchNextPage_fail h it url e hfail
  have herr : (it.failed e).err ≠ none := by simp [Iterator.failed]
  refine ⟨⟨eff, ?_⟩, rfl, fun h1 => Next_of_err h1 _ herr, fun hs => nexts_of_err hs _ herr⟩
  unfold Iterator.Next
  simp [he, hi, hp, hu, hne, hf, Iterator.failed]

theorem C16_fetch_failure_is_final_witness :
    (∃ eff, (NewIterator sampleClient [] (some "https://api.massive.com/next")).Next
        failingHttp =
      .ok ⟨false, (NewIterator sampleClient [] (some "https://api.massive.com/next")).failed
        "http status 500", eff⟩) ∧
    ((NewIterator sampleClient [] (some "https://api.massive.com/next")).failed
      "http status 500").Err = some "http status 500" :=
  have h := C16_fetch_failure_is_final failingHttp
    (NewIterator sampleClient [] (some "https://api.massive.com/next"))
    "https://api.massive.com/next" "http status 500" rfl (by decide) rfl rfl (by decide)
    (Or.inr ⟨by decide, rfl, Or.inr (Or.inl ⟨_, rfl, by decide, by decide⟩)⟩)
  ⟨h.1, h.2.1⟩

/-- C17: on a Client whose pagination is disabled, as every Client built
with `WithPagination(false)` as its last pagination option is, an iterator
over a page of n items returns true to the first n calls of `Next` and false
to every later call, whatever next URL it was created with, and none of these
calls makes a call on the network. `NewIteratorFromResponse` moreover drops
the next URL the response carried. -/
theorem C17_no_pagination_single_page (c : Client) (page : List Item)
    (nextURL : Option String) (hs : List Http) (hp : c.pagination = false) :
    (NewIterator c page nextURL).nexts hs =
      .ok ⟨List.replicate (min hs.length page.length) true ++
          List.replicate (hs.length - page.length) false,
        { NewIterator c page nextURL with idx := (min hs.length page.length : Nat) }, []⟩ ∧
    (∀ (w : World) (apiKey : String) (opts : List ClientOption) (c1 : Client),
      NewWithOptions w apiKey (opts ++ [WithPagination false]) = .ok c1 →
        c1.pagination = false) ∧
    (∀ (α : Type) (conv : α → Item) (resp : AnyResponse α),
      (NewIteratorFromResponse conv c resp).nextURL = none ∧
      (NewIteratorFromResponse conv c resp).client = c ∧
      (NewIteratorFromResponse conv c resp).err = none ∧
      (NewIteratorFromResponse conv c resp).idx = 0) := by
  refine ⟨?_, ?_, ?_⟩
  · have := nexts_noPagination hs (NewIterator c page nextURL) page.length rfl
      (by show (0 : Int) + (page.length : Int) = (page.length : Int); omega) hp
    rw [this]
    simp [NewIterator]
  · intro w apiKey opts c1 h
    obtain ⟨_, _, _, _, hc1, _⟩ := NewWithOptions_ok w apiKey _ c1 h
    rw [hc1]
    simp only [applyOptions, List.foldl_append, List.foldl_cons, List.foldl_nil]
    rfl
  · intro α conv resp
    cases resp with
    | nil => exact ⟨rfl, rfl, rfl, rfl⟩
    | nilPointer => exact ⟨rfl, rfl, rfl, rfl⟩
    | other => exact ⟨rfl, rfl, rfl, rfl⟩
    | response a b j =>
      cases j with
      | none => exact ⟨rfl, rfl, rfl, rfl⟩
      | some body => simp [NewIteratorFromResponse, NewIterator, hp]

theorem C17_no_pagination_single_page_witness :
    (NewIterator (WithPagination false sampleClient) samplePage
        (some "https://api.massive.com/next")).nexts
        [emptyPageHttp, emptyPageHttp, emptyPageHttp, emptyPageHttp, emptyPageHttp] =
      .ok ⟨[true, true, true, false, false],
        { NewIterator (WithPagination false sampleClient) samplePage
            (some "https://api.massive.com/next") with idx := 3 }, []⟩ :=
  (C17_no_pagination_single_page (WithPagination false sampleClient) samplePage
    (some "https://api.massive.com/next")
    [emptyPageHttp, emptyPageHttp, emptyPageHttp, emptyPageHttp, emptyPageHttp] rfl).1

/-- C18: `CheckResponse` returns an error exactly when the response is the
nil interface or a nil pointer (error "nil response from server"), or holds
an HTTP response whose status code is not 200; in that case the error text is
"API error ", the HTTP status, a line break, "Body: " and the raw body, so it
contains both. It returns nil when the status code is 200 and when no HTTP
response is attached. -/
theorem C18_CheckResponse_error_iff (α : Type) (rsp : AnyResponse α) :
    ((∃ e, CheckResponse rsp = .ok (some e)) ↔
      (rsp = .nil ∨ rsp = .nilPointer ∨
        ∃ hr body j, rsp = .response (some hr) body j ∧ hr.StatusCode ≠ 200)) ∧
    (∀ hr body j, rsp = .response (some hr) (some body) j → hr.StatusCode ≠ 200 →
      CheckResponse rsp = .ok (some ("API error " ++ hr.Status ++ "\nBody: " ++ body)) ∧
      hr.Status.data <:+: ("API error " ++ hr.Status ++ "\nBody: " ++ body).data ∧
      body.data <:+: ("API error " ++ hr.Status ++ "\nBody: " ++ body).data) ∧
    (∀ hr j, rsp = .response (some hr) none j → hr.StatusCode ≠ 200 →
      CheckResponse rsp = .ok (some ("API error " ++ hr.Status ++ "\nBody: "))) ∧
    (∀ hr body j, rsp = .response (some hr) body j → hr.StatusCode = 200 →
      CheckResponse rsp = .ok none) ∧
    (∀ body j, rsp = .response none body j → CheckResponse rsp = .ok none) ∧
    (rsp = .nil ∨ rsp = .nilPointer →
      CheckResponse rsp = .ok (some "nil response from server")) := by
  refine ⟨?_, ?_, ?_, ?_, ?_, ?_⟩
  · cases rsp with
    | nil => simp [CheckResponse]
    | nilPointer => simp [CheckResponse]
    | other => simp [CheckResponse]
    | response hr body j =>
      cases hr with
      | none => simp [CheckResponse]
      | some hr =>
        by_cases hs : hr.StatusCode = 200
        · simp [CheckResponse, StatusOK, hs]
        · simp [CheckResponse, StatusOK, hs]
  · intro hr body j h hs
    subst h
    refine ⟨by simp [CheckResponse, StatusOK, hs], ?_, ?_⟩
    · exact ⟨"API error ".data, ("\nBody: " ++ body).data, by simp [String.data_append]⟩
    · exact ⟨("API error " ++ hr.Status ++ "\nBody: ").data, [], by simp [String.data_append]⟩
  · intro hr j h hs
    subst h
    simp [CheckResponse, StatusOK, hs]
  · intro hr body j h hs
    subst h
    simp [CheckResponse, StatusOK, hs]
  · intro body j h
    subst h
    rfl
  · intro h
    rcases h with h | h <;> subst h <;> rfl

theorem C18_CheckResponse_error_iff_witness :
    CheckResponse (.response (some ⟨"404 Not Found", 404, ""⟩) (some "no such ticker") none :
        AnyResponse Nat) =
      .ok (some "API error 404 Not Found\nBody: no such ticker") :=
  ((C18_CheckResponse_error_iff Nat
    (.response (some ⟨"404 Not Found", 404, ""⟩) (some "no such ticker") none)).2.1
    ⟨"404 Not Found", 404, ""⟩ "no such ticker" none rfl (by decide)).1

/-- C19: `New(apiKey)` is `NewWithOptions(apiKey)` with no options. For a
non-empty key, and the generated client constructor not failing, it returns a
Client with that key, trace disabled, pagination enabled, the default
transport and a 60 second timeout, whatever the environment variable holds;
every Client it returns has that key, trace disabled and pagination
enabled. -/
theorem C19_new_defaults (w : World) (apiKey : String) (hk : apiKey ≠ "") :
    New w apiKey = NewWithOptions w apiKey [] ∧
    (w.genErr = none →
      New w apiKey = .ok ⟨some ⟨"https://api.massive.com"⟩, some ⟨60, .default⟩, apiKey,
        false, true⟩) ∧
    (∀ c, New w apiKey = .ok c →
      c.apiKey = apiKey ∧ c.trace = false ∧ c.pagination = true) := by
  have hk1 : (if apiKey = "" then w.MASSIVE_API_KEY else apiKey) ≠ "" := by
    rw [if_neg hk]; exact hk
  have hN := NewWithOptions_of_key w apiKey [] hk1
  simp only [applyOptions, List.foldl_nil, Client.blank, if_neg hk] at hN
  refine ⟨rfl, ?_, ?_⟩
  · intro hg
    rw [New, hN, hg]
    rfl
  · intro c hc
    rw [New, hN] at hc
    cases hg : w.genErr with
    | some err => rw [hg] at hc; simp at hc
    | none =>
      rw [hg] at hc
      simp only [Except.ok.injEq] at hc
      subst hc
      exact ⟨rfl, rfl, rfl⟩

theorem C19_new_defaults_witness :
    New ⟨"key-from-env", none⟩ "abc123" =
      .ok ⟨some ⟨"https://api.massive.com"⟩, some ⟨60, .default⟩, "abc123", false, true⟩ :=
  (C19_new_defaults ⟨"key-from-env", none⟩ "abc123" (by decide)).2.1 rfl

/-- C20: `NewWithOptions` panics with "MASSIVE_API_KEY is required" if and
only if the apiKey argument and the MASSIVE_API_KEY environment variable are
both empty. Otherwise, the generated client constructor not failing, it
returns a Client, and with options that leave the key alone (as `WithTrace`
and `WithPagination` do) the key of that Client is the argument when the
argument is non-empty, whatever the environment variable holds, and the
environment value when the argument is empty. -/
theorem C20_key_required (w : World) (apiKey : String) (opts : List ClientOption) :
    (NewWithOptions w apiKey opts = .error (.text "MASSIVE_API_KEY is required") ↔
      apiKey = "" ∧ w.MASSIVE_API_KEY = "") ∧
    ((apiKey ≠ "" ∨ w.MASSIVE_API_KEY ≠ "") → w.genErr = none →
      ∃ c, NewWithOptions w apiKey opts = .ok c) ∧
    (∀ c, NewWithOptions w apiKey opts = .ok c →
      (∀ opt ∈ opts, ∀ c0 : Client, (opt c0).apiKey = c0.apiKey) →
      (apiKey ≠ "" → c.apiKey = apiKey) ∧
      (apiKey = "" → c.apiKey = w.MASSIVE_API_KEY)) ∧
    (∀ b c0, (WithTrace b c0).apiKey = c0.apiKey ∧ (WithPagination b c0).apiKey = c0.apiKey) := by
  refine ⟨?_, ?_, ?_, fun b c0 => ⟨rfl, rfl⟩⟩
  · by_cases hk : (if apiKey = "" then w.MASSIVE_API_KEY else apiKey) = ""
    · have hp : NewWithOptions w apiKey opts = .error (.text "MASSIVE_API_KEY is required") := by
        unfold NewWithOptions
        simp only []
        rw [if_pos hk]
      simp only [hp, true_iff]
      by_cases ha : apiKey = ""
      · rw [if_pos ha] at hk
        exact ⟨ha, hk⟩
      · rw [if_neg ha] at hk
        exact absurd hk ha
    · have hN := NewWithOptions_of_key w apiKey opts hk
      constructor
      · intro hp
        rw [hN] at hp
        cases hg : w.genErr with
        | some err => rw [hg] at hp; simp at hp
        | none => rw [hg] at hp; simp at hp
      · rintro ⟨ha, he⟩
        rw [if_pos ha] at hk
        exact absurd he hk
  · intro hne hg
    have hk : (if apiKey = "" then w.MASSIVE_API_KEY else apiKey) ≠ "" := by
      by_cases ha : apiKey = ""
      · rw [if_pos ha]
        rcases hne with h | h
        · exact absurd ha h
        · exact h
      · rw [if_neg ha]; exact ha
    rw [NewWithOptions_of_key w apiKey opts hk, hg]
    exact ⟨_, rfl⟩
  · intro c hc hopts
    obtain ⟨_, _, hkey, _⟩ := NewWithOptions_ok w apiKey opts c hc
    rw [applyOptions_apiKey opts _ hopts] at hkey
    constructor
    · intro ha
      rw [hkey]
      simp [Client.blank, ha]
    · intro ha
      rw [hkey]
      simp [Client.blank, ha]

theorem C20_key_required_witness :
    NewWithOptions ⟨"", none⟩ "" [WithTrace true] =
      .error (.text "MASSIVE_API_KEY is required") :=
  (C20_key_required ⟨"", none⟩ "" [WithTrace true]).1.mpr ⟨rfl, rfl⟩

end Rest

namespace Polygonws

/-! ## Claims on routing a batch -/

/-- C23 fails on the code: in a batch holding an auth_failed status envelope
followed by a trade envelope, `route` handles the auth_failed envelope (error
log, `Close`) and then goes on to the trade envelope, which it logs; with a
second auth_failed envelope behind the first, it calls `Close` again. -/
theorem C23_route_goes_on_after_auth_failed :
    isAuthFailed sampleJson (statusEnvelope "auth_failed") = true ∧
    route sampleJson (fun _ => none) sampleConnected
        [statusEnvelope "auth_failed", tradeEnvelope] =
      (sampleCancelled,
        [.log .error "authentication failed, closing connection",
          .cancel, .writeControl .close, .log .info "connection closed successfully",
          .log .debug "unknown message type \x27T\x27"]) ∧
    closeCount (route sampleJson
        (fun i => if i = 0 then none else some "websocket: close sent") sampleConnected
        [statusEnvelope "auth_failed", statusEnvelope "auth_failed"]).2 = 2 := by
  decide

theorem route_bad_discriminant (j : Json) (pre : List RawMessage) (bad : RawMessage)
    (post : List RawMessage) (err : Error)
    (hbad : j.unmarshalEventType bad = .error err) :
    ∀ (werr : Nat → Option Error) (c : Client), (∀ m ∈ pre, hasEventType j m = true) →
      route j werr c (pre ++ bad :: post) =
        ((route j werr c pre).1,
          (route j werr c pre).2 ++ [.log .error ("failed to process message: " ++ err)]) := by
  induction pre with
  | nil =>
    intro werr c _
    simp [route, hbad]
  | cons m pre ih =>
    intro werr c hpre
    have hm : hasEventType j m = true := hpre m (List.mem_cons_self _ _)
    have hpre1 : ∀ x ∈ pre, hasEventType j x = true :=
      fun x hx => hpre x (List.mem_cons_of_mem _ hx)
    rw [List.cons_append]
    cases hev : j.unmarshalEventType m with
    | error e => simp [hasEventType, hev] at hm
    | ok ev =>
      by_cases hs : ev = "status"
      · simp only [route, hev, hs, if_true]
        rw [ih _ _ hpre1]
        simp
      · simp only [route, hev, hs, if_false]
        rw [ih _ _ hpre1]
        simp

theorem route_bad_discriminant_rest (j : Json) (pre : List RawMessage) (bad : RawMessage)
    (post post1 : List RawMessage) (err : Error)
    (hbad : j.unmarshalEventType bad = .error err) :
    ∀ (werr : Nat → Option Error) (c : Client),
      route j werr c (pre ++ bad :: post1) = route j werr c (pre ++ bad :: post) := by
  induction pre with
  | nil => intro werr c; simp [route, hbad]
  | cons m pre ih =>
    intro werr c
    rw [List.cons_append, List.cons_append]
    cases hev : j.unmarshalEventType m with
    | error e => simp [route, hev]
    | ok ev =>
      by_cases hs : ev = "status"
      · simp only [route, hev, hs, if_true]; rw [ih]
      · simp only [route, hev, hs, if_false]; rw [ih]

theorem Close_client_of_werr (werr : Option Error) (c : Client) :
    (Close werr c).client = (Close none c).client := by
  unfold Close
  cases c.conn with
  | none => rfl
  | some x => cases werr <;> rfl

theorem handleStatus_client_of_werr (j : Json) (werr : Option Error) (c : Client)
    (msg : RawMessage) : (handleStatus j werr c msg).1 = (handleStatus j none c msg).1 := by
  unfold handleStatus
  cases j.unmarshalControl msg with
  | error e => rfl
  | ok cm =>
    simp only []
    split_ifs <;> first | rfl | exact Close_client_of_werr werr c

theorem route_effects_eq (j : Json) (msgs : List RawMessage) :
    ∀ (werr : Nat → Option Error) (c c0 : Client), c.conn = c0.conn →
      (∀ m ∈ msgs, hasEventType j m = true) →
      (route j werr c msgs).2 = routedEffects j werr c0 msgs := by
  induction msgs with
  | nil => intro werr c c0 _ _; rfl
  | cons m rest ih =>
    intro werr c c0 hc hall
    have hm : hasEventType j m = true := hall m (List.mem_cons_self _ _)
    have hrest : ∀ x ∈ rest, hasEventType j x = true :=
      fun x hx => hall x (List.mem_cons_of_mem _ hx)
    cases hev : j.unmarshalEventType m with
    | error e => simp [hasEventType, hev] at hm
    | ok ev =>
      by_cases hs : ev = "status"
      · simp only [route, routedEffects, envelopeEffects, hev, hs, if_true]
        rw [ih _ (handleStatus j (werr 0) c m).1 c0
          (by rw [handleStatus_conn]; exact hc) hrest,
          handleStatus_effects_of_conn j (werr 0) c c0 m hc]
      · simp only [route, routedEffects, envelopeEffects, hev, hs, if_false]
        rw [ih _ c c0 hc hrest]
        rfl

theorem route_client_eq (j : Json) (msgs : List RawMessage) :
    ∀ (werr : Nat → Option Error) (c : Client), (∀ m ∈ msgs, hasEventType j m = true) →
      (route j werr c msgs).1 =
        (msgs.filter (isStatus j)).foldl (fun c1 m => (handleStatus j none c1 m).1) c := by
  induction msgs with
  | nil => intro werr c _; rfl
  | cons m rest ih =>
    intro werr c hall
    have hm : hasEventType j m = true := hall m (List.mem_cons_self _ _)
    have hrest : ∀ x ∈ rest, hasEventType j x = true :=
      fun x hx => hall x (List.mem_cons_of_mem _ hx)
    cases hev : j.unmarshalEventType m with
    | error e => simp [hasEventType, hev] at hm
    | ok ev =>
      by_cases hs : ev = "status"
      · have hi : isStatus j m = true := by simp [isStatus, hev, hs]
        simp only [route, hev, hs, if_true, List.filter_cons, hi, List.foldl_cons]
        rw [ih _ _ hrest, handleStatus_client_of_werr]
      · have hi : isStatus j m = false := by simp [isStatus, hev, hs]
        simp only [route, hev, hs, if_false, List.filter_cons, hi]
        rw [ih _ _ hrest]
        rfl

/-- C24: when the discriminant of an envelope cannot be decoded, nothing that
comes after that envelope in the batch has any influence on what `route`
does. When it is the first such envelope of the batch, what `route` does is
the routing rule applied to each envelope before it, in order, followed by
one error log for the failure and nothing more, and the Client it leaves is
the one obtained by handing the status envelopes before it to
`handleStatus`. The Processor iteration for that frame is this call of
`route`; it ends with the loop going on and the frame taken off the queue,
and, cancellation not being signaled, the next iteration receives the next
inbound frame. -/
theorem C24_bad_discriminant_aborts_batch_only (j : Json) (werr : Nat → Option Error)
    (c : Client) (pre : List RawMessage) (bad : RawMessage) (post : List RawMessage)
    (err : Error) (hbad : j.unmarshalEventType bad = .error err) :
    ((∀ m ∈ pre, hasEventType j m = true) →
      (route j werr c (pre ++ bad :: post)).2 =
        routedEffects j werr c pre ++ [.log .error ("failed to process message: " ++ err)] ∧
      (route j werr c (pre ++ bad :: post)).1 =
        (pre.filter (isStatus j)).foldl (fun c1 m => (handleStatus j none c1 m).1) c) ∧
    (∀ post1, route j werr c (pre ++ bad :: post1) = route j werr c (pre ++ bad :: post)) ∧
    (∀ (env : ProcessEnv) (data : Frame) (q : List Frame), c.ctxDone = false →
      c.rQueue = data :: q → j.unmarshalBatch data = .ok (pre ++ bad :: post) →
      (processIter j env c).step = .next ∧
      (processIter j env c).received = some data ∧
      (processIter j env c).routed = some (pre ++ bad :: post) ∧
      (processIter j env c).effects =
        (route j env.closeErr { c with rQueue := q } (pre ++ bad :: post)).2 ∧
      (processIter j env c).client.rQueue = q) ∧
    (∀ (e1 e2 : ProcessEnv) (data data2 : Frame) (q : List Frame),
      c.rQueue = data :: data2 :: q → j.unmarshalBatch data = .ok (pre ++ bad :: post) →
      e1.arrived = [] → e2.arrived = [] →
      (process j [e1, e2] c).client.ctxDone = false →
      (process j [e1, e2] c).status = .running ∧
      (process j [e1, e2] c).received = [data, data2]) := by
  refine ⟨fun hpre => ?_,
    fun post1 => route_bad_discriminant_rest j pre bad post post1 err hbad werr c, ?_, ?_⟩
  · rw [route_bad_discriminant j pre bad post err hbad werr c hpre]
    exact ⟨by rw [route_effects_eq j pre werr c c rfl hpre], route_client_eq j pre werr c hpre⟩
  · intro env data q hc hq hd
    rw [processIter_live j env c hc, hq]
    simp [hd, route_rQueue]
  · intro e1 e2 data data2 q hq _ ha1 ha2 hend
    obtain ⟨h1, h2, _⟩ := process_live j [e1, e2] c hend
    have harr : ∀ env ∈ [e1, e2], env.arrived = [] := by
      intro env he
      simp only [List.mem_cons, List.mem_singleton, List.not_mem_nil, or_false] at he
      rcases he with rfl | rfl
      · exact ha1
      · exact ha2
    have hl := process_received_length j [e1, e2] c hend harr
    refine ⟨h1, ?_⟩
    simp only [arrivedAll, List.flatMap_cons, ha1, ha2, List.flatMap_nil, List.append_nil,
      hq] at h2
    simp only [hq, List.length_cons] at hl
    have hl2 : (process j [e1, e2] c).received.length = 2 := by
      rw [hl]; simp
    generalize (process j [e1, e2] c).received = rc at h2 hl2
    match rc, hl2 with
    | [a, b], _ =>
      simp only [List.cons_append, List.nil_append, List.cons.injEq] at h2
      rw [h2.1, h2.2.1]

theorem C24_bad_discriminant_aborts_batch_only_witness :
    (route sampleJson (fun _ => none) sampleConnected
        ([tradeEnvelope, statusEnvelope "connected"] ++
          "5" :: [statusEnvelope "auth_failed"])).2 =
      [.log .debug "unknown message type \x27T\x27", .log .debug "connection successful",
        .log .error ("failed to process message: " ++
          "json: cannot unmarshal number into Go value of type models.EventType")] :=
  ((C24_bad_discriminant_aborts_batch_only sampleJson (fun _ => none) sampleConnected
    [tradeEnvelope, statusEnvelope "connected"] "5" [statusEnvelope "auth_failed"]
    "json: cannot unmarshal number into Go value of type models.EventType"
    rfl).1 (by decide)).1.trans (by decide)

/-- C25: for a batch whose envelopes all have a decodable discriminant,
`route` does, in array order, what the routing rule does to each envelope on
its own: a status envelope is passed to `handleStatus`, an envelope of any
other event type gives exactly one debug-level log and nothing else. The
Client `route` leaves is the one obtained by passing the status envelopes,
and only them, to `handleStatus` in their original order. -/
theorem C25_route_in_order (j : Json) (werr : Nat → Option Error) (c : Client)
    (msgs : List RawMessage) (hall : ∀ m ∈ msgs, hasEventType j m = true) :
    (route j werr c msgs).2 = routedEffects j werr c msgs ∧
    (route j werr c msgs).1 =
      (msgs.filter (isStatus j)).foldl (fun c1 m => (handleStatus j none c1 m).1) c ∧
    (∀ m ∈ msgs, ∀ w, isStatus j m = true →
      envelopeEffects j w c m = (handleStatus j w c m).2) ∧
    (∀ m ∈ msgs, ∀ w, isStatus j m = false →
      ∃ text, envelopeEffects j w c m = [.log .debug text]) := by
  refine ⟨route_effects_eq j msgs werr c c rfl hall, route_client_eq j msgs werr c hall, ?_, ?_⟩
  · intro m _ w hs
    unfold envelopeEffects
    cases hev : j.unmarshalEventType m with
    | error e => simp [isStatus, hev] at hs
    | ok ev =>
      have : ev = "status" := by simpa [isStatus, hev] using hs
      simp [this]
  · intro m hm w hs
    have hm1 := hall m hm
    unfold envelopeEffects
    cases hev : j.unmarshalEventType m with
    | error e => simp [hasEventType, hev] at hm1
    | ok ev =>
      have : ev ≠ "status" := by simpa [isStatus, hev] using hs
      exact ⟨"unknown message type \x27" ++ ev ++ "\x27", by simp [this]⟩

theorem C25_route_in_order_witness :
    (route sampleJson (fun _ => none) sampleConnected
        [tradeEnvelope, statusEnvelope "connected", tradeEnvelope,
          statusEnvelope "auth_success"]).2 =
      [.log .debug "unknown message type \x27T\x27", .log .debug "connection successful",
        .log .debug "unknown message type \x27T\x27",
        .log .debug "authentication successful"] :=
  (C25_route_in_order sampleJson (fun _ => none) sampleConnected
    [tradeEnvelope, statusEnvelope "connected", tradeEnvelope, statusEnvelope "auth_success"]
    (by decide)).1.trans (by decide)
end Polygonws

namespace Models

/-! ## Claims on the model types -/

/-- C22: for every string `s`, `DecimalVolume(s).String()` is `s` itself,
character for character: surrounding blanks, trailing zeros and long digit
strings come back unchanged, and two different strings never give the same
text. -/
theorem C22_string_is_identity :
    (∀ s : String, (DecimalVolume.mk s).String = s) ∧
    (∀ s t : String, (DecimalVolume.mk s).String = (DecimalVolume.mk t).String → s = t) ∧
    (DecimalVolume.mk "2.5").String = "2.5" ∧
    (DecimalVolume.mk " 2.50 ").String = " 2.50 " ∧
    (DecimalVolume.mk "2.323233223223223223322").String = "2.323233223223223223322" ∧
    (DecimalVolume.mk "2.b").String = "2.b" :=
  ⟨fun _ => rfl, fun _ _ h => h, rfl, rfl, rfl, rfl⟩

end Models

namespace Rest

/-! ## Claims on the iterator index and on the tracing transport -/

theorem Next_false_state (h : Http) (it : Iterator) (r : NextResult)
    (hrun : it.Next h = .ok r) (hret : r.ret = false) :
    r.it.err ≠ none ∨ ¬ (r.it.idx < r.it.page.length) := by
  unfold Iterator.Next at hrun
  by_cases he : it.err ≠ none
  · rw [if_pos he, Except.ok.injEq] at hrun
    subst hrun
    exact Or.inl he
  · rw [if_neg he] at hrun
    by_cases hi : it.idx < it.page.length
    · rw [if_pos hi, Except.ok.injEq] at hrun
      subst hrun
      simp at hret
    · rw [if_neg hi] at hrun
      split_ifs at hrun with h1
      · rw [Except.ok.injEq] at hrun
        subst hrun
        exact Or.inr hi
      · cases hu : it.nextURL with
        | none =>
          simp only [hu, Except.ok.injEq] at hrun
          subst hrun
          exact Or.inr hi
        | some url =>
          simp only [hu] at hrun
          cases hf : it.fetchNextPage h url with
          | error p => simp [hf] at hrun
          | ok f =>
            simp only [hf] at hrun
            split_ifs at hrun with h2
            · rw [Except.ok.injEq] at hrun
              subst hrun
              simp at hret
            · rw [Except.ok.injEq] at hrun
              subst hrun
              by_cases hfe : f.err = none
              · right
                have : ¬ 0 < f.page.length := fun hl => h2 ⟨hl, hfe⟩
                simp only [not_lt]
                omega
              · exact Or.inl hfe

theorem Next_closed_end (h : Http) (it : Iterator) (hc : it.closed = true)
    (hs : it.err ≠ none ∨ ¬ (it.idx < it.page.length)) :
    it.Next h = .ok ⟨false, it, []⟩ := by
  by_cases he : it.err ≠ none
  · exact Next_of_err h it he
  · have hi : ¬ (it.idx < it.page.length) := hs.resolve_left he
    have he1 : it.err = none := not_not.mp he
    simp only [Iterator.closed, he1, ne_eq, not_true_eq_false, decide_False, Bool.false_or,
      Bool.or_eq_true, Bool.not_eq_true', decide_eq_true_eq] at hc
    unfold Iterator.Next
    rw [if_neg he, if_neg hi]
    rcases hc with (hp | hn) | hn
    · simp [hp]
    · simp [hn]
    · simp [hn]

theorem nexts_closed_end (hs : List Http) (it : Iterator) (hc : it.closed = true)
    (hst : it.err ≠ none ∨ ¬ (it.idx < it.page.length)) :
    it.nexts hs = .ok ⟨List.replicate hs.length false, it, []⟩ := by
  induction hs with
  | nil => rfl
  | cons h hs ih =>
    rw [Iterator.nexts, Next_closed_end h it hc hst]
    simp only []
    rw [ih]
    rfl

theorem closed_false (it : Iterator) (hopen : it.closed = false) :
    it.err = none ∧ it.client.pagination = true ∧
      ∃ url, it.nextURL = some url ∧ url ≠ "" := by
  simp only [Iterator.closed, Bool.or_eq_false_iff, decide_eq_false_iff_not, ne_eq, not_not,
    Bool.not_eq_false'] at hopen
  obtain ⟨⟨⟨he, hp⟩, hn⟩, hn1⟩ := hopen
  refine ⟨he, hp, ?_⟩
  cases hu : it.nextURL with
  | none => exact absurd hu hn
  | some url =>
    refine ⟨url, rfl, ?_⟩
    intro h
    rw [hu, h] at hn1
    exact hn1 rfl

theorem Next_false_open (h : Http) (it : Iterator) (r : NextResult)
    (hrun : it.Next h = .ok r) (hret : r.ret = false) (hopen : r.it.closed = false) :
    r.it.page = [] ∧ r.it.idx = 0 ∧ it.closed = false ∧ r.it.client = it.client := by
  obtain ⟨he1, hp1, url1, hu1, hne1⟩ := closed_false r.it hopen
  unfold Iterator.Next at hrun
  by_cases he : it.err ≠ none
  · rw [if_pos he, Except.ok.injEq] at hrun
    subst hrun
    exact absurd he1 he
  · rw [if_neg he] at hrun
    by_cases hi : it.idx < it.page.length
    · rw [if_pos hi, Except.ok.injEq] at hrun
      subst hrun
      simp at hret
    · rw [if_neg hi] at hrun
      split_ifs at hrun with h1
      · rw [Except.ok.injEq] at hrun
        subst hrun
        exfalso
        have hp2 : it.client.pagination = true := hp1
        have hu2 : it.nextURL = some url1 := hu1
        simp only [Bool.or_eq_true, Bool.not_eq_true', decide_eq_true_eq] at h1
        rcases h1 with (hp | hn) | hn
        · rw [hp] at hp2
          exact absurd hp2 (by simp)
        · rw [hn] at hu2
          exact absurd hu2 (by simp)
        · rw [hn] at hu2
          exact hne1 (Option.some.inj hu2).symm
      · cases hu : it.nextURL with
        | none =>
          simp only [hu, Except.ok.injEq] at hrun
          subst hrun
          rw [hu] at hu1
          exact absurd hu1 (by simp)
        | some url =>
          simp only [hu] at hrun
          cases hf : it.fetchNextPage h url with
          | error p => simp [hf] at hrun
          | ok f =>
            simp only [hf] at hrun
            split_ifs at hrun with h2
            · rw [Except.ok.injEq] at hrun
              subst hrun
              simp at hret
            · rw [Except.ok.injEq] at hrun
              subst hrun
              have hfe : f.err = none := he1
              have hl : ¬ 0 < f.page.length := fun hl => h2 ⟨hl, hfe⟩
              refine ⟨?_, rfl, ?_, rfl⟩
              · exact List.eq_nil_of_length_eq_zero (by simpa using hl)
              · simp only [Iterator.closed, Bool.or_eq_false_iff, decide_eq_false_iff_not,
                  Bool.not_eq_false']
                simp only [Bool.or_eq_true, Bool.not_eq_true', decide_eq_true_eq, not_or] at h1
                exact ⟨⟨⟨he, by simpa using h1.1.1⟩, h1.1.2⟩, h1.2⟩

theorem Next_open_fetch (it : Iterator) (hopen : it.closed = false)
    (hi : ¬ (it.idx < it.page.length)) (hcl : it.client.httpClient ≠ none) :
    ∃ r1, it.Next lastPageHttp = .ok r1 ∧ r1.ret = true ∧ r1.it.page = samplePage := by
  obtain ⟨he, hp, url, hu, hne⟩ := closed_false it hopen
  cases hh : it.client.httpClient with
  | none => exact absurd hh hcl
  | some hc =>
    refine ⟨⟨true, { it with page := samplePage, nextURL := none, err := none, idx := 1 },
      [.roundTrip (it.client.pageRequest url), .bodyClose]⟩, ?_, ?_, ?_⟩
    · unfold Iterator.Next
      rw [if_neg (by simp [he]), if_neg hi]
      simp only [hp, hu, Bool.not_true, Bool.false_or, Option.some.injEq, hne, decide_False,
        reduceCtorEq, Bool.false_eq_true, if_false, Iterator.fetchNextPage, lastPageHttp,
        Client.addHeaders, hh, StatusOK, ne_eq, not_true_eq_false, samplePage]
      simp only [List.length_cons, List.length_nil, true_and, if_true]
      rfl
    · rfl
    · rfl

/-- C27, amended: once a call of `Next` has returned false and left the
iterator with a stored error, with pagination off, or without a non-empty next
URL, every later call of `Next` returns false, leaves the iterator as it is
and makes no request. Otherwise the call that returned false has fetched an
empty page that names a non-empty next URL, and a later call fetches that URL:
it returns true when the answer is a non-empty page. -/
theorem C27_end_is_final_unless_empty_page_names_next (it : Iterator) (h : Http)
    (r : NextResult) (hrun : it.Next h = .ok r) (hret : r.ret = false) :
    (r.it.closed = true →
      ∀ hs, r.it.nexts hs = .ok ⟨List.replicate hs.length false, r.it, []⟩) ∧
    (r.it.closed = false →
      r.it.page = [] ∧ r.it.idx = 0 ∧ r.it.err = none ∧ r.it.client.pagination = true ∧
      (∃ url, r.it.nextURL = some url ∧ url ≠ "") ∧
      (r.it.client.httpClient ≠ none →
        ∃ h1 r1, r.it.Next h1 = .ok r1 ∧ r1.ret = true)) := by
  have hst := Next_false_state h it r hrun hret
  refine ⟨fun hc hs => nexts_closed_end hs r.it hc hst, ?_⟩
  intro hopen
  obtain ⟨he, hp, hurl⟩ := closed_false r.it hopen
  obtain ⟨hpage, hidx, _, _⟩ := Next_false_open h it r hrun hret hopen
  refine ⟨hpage, hidx, he, hp, hurl, ?_⟩
  intro hcl
  have hi : ¬ (r.it.idx < r.it.page.length) := hst.resolve_left (by simp [he])
  obtain ⟨r1, h1, h2, _⟩ := Next_open_fetch r.it hopen hi hcl
  exact ⟨lastPageHttp, r1, h1, h2⟩

theorem C27_end_is_final_unless_empty_page_names_next_witness :
    sampleIterator.Next emptyPageHttp =
        .ok ⟨false, { sampleIterator with page := [], idx := 0, nextURL := none },
          [.roundTrip (sampleClient.pageRequest
            "https://api.massive.com/v3/reference/tickers?cursor=YXA9MQ"), .bodyClose]⟩ ∧
    ∀ hs, Iterator.nexts hs { sampleIterator with page := [], idx := 0, nextURL := none } =
      .ok ⟨List.replicate hs.length false,
        { sampleIterator with page := [], idx := 0, nextURL := none }, []⟩ :=
  ⟨rfl, (C27_end_is_final_unless_empty_page_names_next sampleIterator emptyPageHttp
    ⟨false, { sampleIterator with page := [], idx := 0, nextURL := none },
      [.roundTrip (sampleClient.pageRequest
        "https://api.massive.com/v3/reference/tickers?cursor=YXA9MQ"), .bodyClose]⟩
    rfl rfl).1 rfl⟩

/-- C27 (as stated) fails: on an iterator at the end of its page, `Next`
returns false when the server answers with an empty page that names a next
page, and the call after it fetches that page and returns true. -/
theorem C27_as_stated_fails :
    ∃ r, sampleIterator.nexts [emptyPageWithNextHttp, lastPageHttp] = .ok r ∧
      r.rets = [false, true] ∧ r.it.page = samplePage ∧ r.it.idx = 1 ∧
      r.effects =
        [.roundTrip (sampleClient.pageRequest
            "https://api.massive.com/v3/reference/tickers?cursor=YXA9MQ"), .bodyClose,
          .roundTrip (sampleClient.pageRequest
            "https://api.massive.com/v3/reference/tickers?cursor=YXA9Mg"), .bodyClose] :=
  ⟨_, rfl, rfl, rfl, rfl, rfl⟩

theorem fetchNextPage_total (h : Http) (it : Iterator) (url : String)
    (hcl : it.client.httpClient ≠ none) : ∃ f, it.fetchNextPage h url = .ok f := by
  unfold Iterator.fetchNextPage
  cases h.newRequest url with
  | some err => exact ⟨_, rfl⟩
  | none =>
    simp only [Client.addHeaders]
    cases hh : it.client.httpClient with
    | none => exact absurd hh hcl
    | some hc =>
      simp only []
      cases h.Do _ with
      | error err => exact ⟨_, rfl⟩
      | ok resp =>
        simp only []
        split_ifs
        · exact ⟨_, rfl⟩
        · cases h.decode resp.Body with
          | error err => exact ⟨_, rfl⟩
          | ok p => exact ⟨_, rfl⟩

theorem Next_bounds (h : Http) (it : Iterator) (r : NextResult)
    (hinv : 0 ≤ it.idx ∧ it.idx ≤ it.page.length) (hrun : it.Next h = .ok r) :
    0 ≤ r.it.idx ∧ r.it.idx ≤ r.it.page.length ∧ r.it.client = it.client ∧
      (r.ret = true → 1 ≤ r.it.idx) := by
  unfold Iterator.Next at hrun
  by_cases he : it.err ≠ none
  · rw [if_pos he, Except.ok.injEq] at hrun
    subst hrun
    exact ⟨hinv.1, hinv.2, rfl, fun hr => by simp at hr⟩
  · rw [if_neg he] at hrun
    by_cases hi : it.idx < it.page.length
    · rw [if_pos hi, Except.ok.injEq] at hrun
      subst hrun
      refine ⟨?_, ?_, rfl, fun _ => ?_⟩
      · show 0 ≤ it.idx + 1
        omega
      · show it.idx + 1 ≤ it.page.length
        omega
      · show 1 ≤ it.idx + 1
        omega
    · rw [if_neg hi] at hrun
      split_ifs at hrun with h1
      · rw [Except.ok.injEq] at hrun
        subst hrun
        exact ⟨hinv.1, hinv.2, rfl, fun hr => by simp at hr⟩
      · cases hu : it.nextURL with
        | none =>
          simp only [hu, Except.ok.injEq] at hrun
          subst hrun
          exact ⟨hinv.1, hinv.2, rfl, fun hr => by simp at hr⟩
        | some url =>
          simp only [hu] at hrun
          cases hf : it.fetchNextPage h url with
          | error p => simp [hf] at hrun
          | ok f =>
            simp only [hf] at hrun
            split_ifs at hrun with h2
            · rw [Except.ok.injEq] at hrun
              subst hrun
              refine ⟨show (0 : Int) ≤ 1 by decide, ?_, rfl, fun _ => le_refl _⟩
              show (1 : Int) ≤ f.page.length
              have := h2.1
              omega
            · rw [Except.ok.injEq] at hrun
              subst hrun
              refine ⟨le_refl _, ?_, rfl, fun hr => by simp at hr⟩
              show (0 : Int) ≤ f.page.length
              omega

theorem Next_total (h : Http) (it : Iterator) (hcl : it.client.httpClient ≠ none) :
    ∃ r, it.Next h = .ok r := by
  unfold Iterator.Next
  split_ifs
  · exact ⟨_, rfl⟩
  · exact ⟨_, rfl⟩
  · exact ⟨_, rfl⟩
  · cases hu : it.nextURL with
    | none => exact ⟨_, rfl⟩
    | some url =>
      obtain ⟨f, hf⟩ := fetchNextPage_total h it url hcl
      simp only [hf]
      split_ifs
      · exact ⟨_, rfl⟩
      · exact ⟨_, rfl⟩

theorem nexts_bounds (hs : List Http) :
    ∀ (it : Iterator) (r : NextsResult), 0 ≤ it.idx ∧ it.idx ≤ it.page.length →
      it.nexts hs = .ok r →
      0 ≤ r.it.idx ∧ r.it.idx ≤ r.it.page.length ∧ r.it.client = it.client := by
  induction hs with
  | nil =>
    intro it r hinv hrun
    rw [Iterator.nexts, Except.ok.injEq] at hrun
    subst hrun
    exact ⟨hinv.1, hinv.2, rfl⟩
  | cons h hs ih =>
    intro it r hinv hrun
    rw [Iterator.nexts] at hrun
    cases h1 : it.Next h with
    | error p => simp [h1] at hrun
    | ok r1 =>
      simp only [h1] at hrun
      obtain ⟨b1, b2, b3, _⟩ := Next_bounds h it r1 hinv h1
      cases h2 : Iterator.nexts hs r1.it with
      | error p => simp [h2] at hrun
      | ok s =>
        simp only [h2, Except.ok.injEq] at hrun
        subst hrun
        obtain ⟨c1, c2, c3⟩ := ih r1.it s ⟨b1, b2⟩ h2
        exact ⟨c1, c2, c3.trans b3⟩

theorem nexts_total (hs : List Http) :
    ∀ it : Iterator, 0 ≤ it.idx ∧ it.idx ≤ it.page.length → it.client.httpClient ≠ none →
      ∃ r, it.nexts hs = .ok r := by
  induction hs with
  | nil => intro it _ _; exact ⟨_, rfl⟩
  | cons h hs ih =>
    intro it hinv hcl
    obtain ⟨r1, h1⟩ := Next_total h it hcl
    obtain ⟨b1, b2, b3, _⟩ := Next_bounds h it r1 hinv h1
    obtain ⟨s, h2⟩ := ih r1.it ⟨b1, b2⟩ (by rw [b3]; exact hcl)
    exact ⟨⟨r1.ret :: s.rets, s.it, r1.effects ++ s.effects⟩, by
      rw [Iterator.nexts, h1]
      simp only [h2]⟩

/-- C28: the iterator `NewIterator` builds has its index within its page, and
every call of `Next`, whatever the page fetches answer, keeps
`0 <= idx <= len(page)`. After any sequence of `Next` calls, a further call
that returns true leaves `1 <= idx <= len(page)`, so that `Item` returns the
element `page[idx-1]` and does not panic. On a Client that has its HTTP
client, the calls do return. -/
theorem C28_index_stays_in_page (it : Iterator) (hs : List Http)
    (hinv : 0 ≤ it.idx ∧ it.idx ≤ it.page.length) :
    (∀ r, it.nexts hs = .ok r →
      0 ≤ r.it.idx ∧ r.it.idx ≤ r.it.page.length ∧
      ∀ h r1, r.it.Next h = .ok r1 → r1.ret = true →
        1 ≤ r1.it.idx ∧ r1.it.idx ≤ r1.it.page.length ∧
        ∃ item, r1.it.Item = .ok item ∧ r1.it.page[(r1.it.idx - 1).toNat]? = some item) ∧
    (it.client.httpClient ≠ none → ∃ r, it.nexts hs = .ok r) ∧
    (∀ c firstPage nextURL, 0 ≤ (NewIterator c firstPage nextURL).idx ∧
      (NewIterator c firstPage nextURL).idx ≤ (NewIterator c firstPage nextURL).page.length) := by
  refine ⟨?_, nexts_total hs it hinv, ?_⟩
  · intro r hrun
    obtain ⟨c1, c2, _⟩ := nexts_bounds hs it r hinv hrun
    refine ⟨c1, c2, ?_⟩
    intro h r1 h1 hret
    obtain ⟨b1, b2, _, b4⟩ := Next_bounds h r.it r1 ⟨c1, c2⟩ h1
    have b5 := b4 hret
    have hlt : (r1.it.idx - 1).toNat < r1.it.page.length := by omega
    refine ⟨b5, b2, r1.it.page[(r1.it.idx - 1).toNat], ?_, ?_⟩
    · rw [Item_at r1.it (r1.it.idx - 1).toNat hlt (by omega)]
    · rw [List.getElem?_eq_getElem hlt]
  · intro c firstPage nextURL
    exact ⟨le_refl _, by simp [NewIterator]⟩

theorem C28_index_stays_in_page_witness :
    ∃ r, (NewIterator sampleClient samplePage
        (some "https://api.massive.com/v3/reference/tickers?cursor=YXA9MQ")).nexts
        [emptyPageHttp, emptyPageHttp, emptyPageHttp, emptyPageWithNextHttp, lastPageHttp,
          failingHttp] = .ok r ∧
      r.rets = [true, true, true, false, true, true] ∧ r.it.idx = 2 ∧
      0 ≤ r.it.idx ∧ r.it.idx ≤ r.it.page.length :=
  ⟨_, rfl, rfl, rfl,
    ((C28_index_stays_in_page (NewIterator sampleClient samplePage
      (some "https://api.massive.com/v3/reference/tickers?cursor=YXA9MQ"))
      [emptyPageHttp, emptyPageHttp, emptyPageHttp, emptyPageWithNextHttp, lastPageHttp,
        failingHttp] (by decide)).1 _ rfl).1,
    ((C28_index_stays_in_page (NewIterator sampleClient samplePage
      (some "https://api.massive.com/v3/reference/tickers?cursor=YXA9MQ"))
      [emptyPageHttp, emptyPageHttp, emptyPageHttp, emptyPageWithNextHttp, lastPageHttp,
        failingHttp] (by decide)).1 _ rfl).2.1⟩

theorem joinWith_infix (sep s : String) :
    ∀ l : List String, s ∈ l → s.data <:+: (joinWith sep l).data
  | [], h => absurd h (List.not_mem_nil _)
  | [a], h => by
    rw [List.mem_singleton] at h
    subst h
    exact List.infix_refl _
  | a :: b :: rest, h => by
    rw [joinWith]
    simp only [String.data_append]
    rcases List.mem_cons.1 h with rfl | h1
    · exact ⟨[], sep.data ++ (joinWith sep (b :: rest)).data, by simp⟩
    · obtain ⟨p, q, hpq⟩ := joinWith_infix sep s (b :: rest) h1
      exact ⟨a.data ++ sep.data ++ p, q, by simp [← hpq]⟩

theorem mem_insertEntry_self (e : String × List String) (l : Header) :
    e ∈ insertEntry e l := by
  induction l with
  | nil => simp [insertEntry]
  | cons x rest ih =>
    rw [insertEntry]
    split_ifs
    · exact List.mem_cons_of_mem _ ih
    · exact List.mem_cons_self _ _

theorem fmtHeader_shows_head (e : String × List String) (h : Header) :
    (fmtEntry e).data <:+: (fmtHeader (e :: h)).data := by
  have hm : fmtEntry e ∈ (sortEntries (e :: h)).map fmtEntry :=
    List.mem_map_of_mem _ (mem_insertEntry_self e (sortEntries h))
  obtain ⟨p, q, hpq⟩ := joinWith_infix " " (fmtEntry e) _ hm
  unfold fmtHeader
  simp only [String.data_append]
  exact ⟨"map[".data ++ p, q ++ "]".data, by simp [← hpq]⟩

theorem bearer_ne_empty (key : String) : "Bearer " ++ key ≠ "" := by
  intro h
  have := congrArg String.length h
  simp [String.length_append] at this
  have h2 : "Bearer ".length = 7 := by decide
  omega

theorem get_set_self (h : Header) (key value : String) :
    (h.set key value).get key = value := by
  simp [Header.set, Header.get, List.find?]

theorem addHeaders_authorization (c : Client) (req : Request) :
    (c.addHeaders req).2.Header.get "Authorization" = "Bearer " ++ c.apiKey := by
  simp [Client.addHeaders, Header.set, Header.get, List.find?, List.filter]

theorem addHeaders_others (c c0 : Client) (req : Request) :
    (c.addHeaders req).2.Header.others = (c0.addHeaders req).2.Header.others := by
  simp [Client.addHeaders, Header.set, Header.others, List.filter]

theorem RoundTrip_printed (t : debugTransport) (r : Request) :
    (t.RoundTrip r).printed.take 2 =
      ["Request URL: " ++ r.URL ++ "\n",
        "Request Headers: " ++ fmtHeader
          (if r.Header.get "Authorization" ≠ "" then
            r.Header.set "Authorization" "Bearer REDACTED" else r.Header) ++ "\n"] ∧
    (t.RoundTrip r).forwarded = r := by
  unfold debugTransport.RoundTrip
  cases t.base r <;> exact ⟨rfl, rfl⟩

theorem RoundTrip_printed_auth (t : debugTransport) (r : Request)
    (h : r.Header.get "Authorization" ≠ "") :
    (t.RoundTrip r).printed.take 2 =
      ["Request URL: " ++ r.URL ++ "\n",
        "Request Headers: " ++
          fmtHeader (("Authorization", ["Bearer REDACTED"]) :: r.Header.others) ++ "\n"] := by
  rw [(RoundTrip_printed t r).1, if_pos h]
  rfl

/-- C26: for two requests with the same URL that differ only in the value of
an `Authorization` header that `Get` finds non-empty, `RoundTrip` prints the
same request lines; the header line shows the entry
`Authorization:[Bearer REDACTED]` in place of the credential, and the request
handed to the base transport is the original one, credential included. This
holds in particular for the requests `addHeaders` prepares for two API keys. -/
theorem C26_printed_headers_hide_credential (t : debugTransport) (r1 r2 : Request)
    (h1 : r1.Header.get "Authorization" ≠ "") (h2 : r2.Header.get "Authorization" ≠ "")
    (hu : r1.URL = r2.URL) (ho : r1.Header.others = r2.Header.others) :
    (t.RoundTrip r1).printed.take 2 = (t.RoundTrip r2).printed.take 2 ∧
    (t.RoundTrip r1).printed.take 2 =
      ["Request URL: " ++ r1.URL ++ "\n",
        "Request Headers: " ++
          fmtHeader (("Authorization", ["Bearer REDACTED"]) :: r1.Header.others) ++ "\n"] ∧
    "Authorization:[Bearer REDACTED]".data <:+:
      (fmtHeader (("Authorization", ["Bearer REDACTED"]) :: r1.Header.others)).data ∧
    (t.RoundTrip r1).forwarded = r1 ∧ (t.RoundTrip r2).forwarded = r2 ∧
    (∀ (c1 c2 : Client) (req : Request),
      (t.RoundTrip (c1.addHeaders req).2).printed.take 2 =
        (t.RoundTrip (c2.addHeaders req).2).printed.take 2 ∧
      (t.RoundTrip (c1.addHeaders req).2).forwarded.Header.get "Authorization" =
        "Bearer " ++ c1.apiKey) := by
  refine ⟨?_, RoundTrip_printed_auth t r1 h1, ?_, (RoundTrip_printed t r1).2,
    (RoundTrip_printed t r2).2, ?_⟩
  · rw [RoundTrip_printed_auth t r1 h1, RoundTrip_printed_auth t r2 h2, hu, ho]
  · exact fmtHeader_shows_head ("Authorization", ["Bearer REDACTED"]) r1.Header.others
  · intro c1 c2 req
    have a1 : (c1.addHeaders req).2.Header.get "Authorization" ≠ "" := by
      rw [addHeaders_authorization]; exact bearer_ne_empty _
    have a2 : (c2.addHeaders req).2.Header.get "Authorization" ≠ "" := by
      rw [addHeaders_authorization]; exact bearer_ne_empty _
    refine ⟨?_, ?_⟩
    · rw [RoundTrip_printed_auth t _ a1, RoundTrip_printed_auth t _ a2,
        addHeaders_others c1 c2 req]
      rfl
    · rw [(RoundTrip_printed t _).2, addHeaders_authorization]

theorem C26_printed_headers_hide_credential_witness :
    (sampleTransport.RoundTrip (sampleClient.pageRequest "https://api.massive.com/v3/x")).printed =
      ["Request URL: https://api.massive.com/v3/x\n",
        "Request Headers: map[Authorization:[Bearer REDACTED] User-Agent:[massive-go-test]]\n",
        "Response Headers: map[Content-Type:[application/json]]\n"] ∧
    (sampleTransport.RoundTrip
        (sampleClient.pageRequest "https://api.massive.com/v3/x")).printed.take 2 =
      (sampleTransport.RoundTrip
        ((Client.blank "other-key").pageRequest "https://api.massive.com/v3/x")).printed.take 2 ∧
    (sampleTransport.RoundTrip
        (sampleClient.pageRequest "https://api.massive.com/v3/x")).forwarded.Header =
      [("User-Agent", ["massive-go-test"]), ("Authorization", ["Bearer abc123"])] :=
  ⟨by decide,
    (C26_printed_headers_hide_credential sampleTransport
      (sampleClient.pageRequest "https://api.massive.com/v3/x")
      ((Client.blank "other-key").pageRequest "https://api.massive.com/v3/x")
      (by decide) (by decide) rfl (by decide)).1,
    by decide⟩

end Rest
